import Mathlib

/-!
# Software I2C master (`si2c.c`): embedding and verified properties

The embedding follows `hardware/esp8266com/esp8266/cores/esp8266/si2c.c`.

* The GPIO registers `GPES`, `GPEC`, `GPI` and the function `pinMode` are declared
  outside the file; they are taken as a parameter, `Gpio σ`, an arbitrary
  deterministic world with state `σ`.
* Every access of the master to a pin is recorded as an `Ev`; a run returns its
  result, the list of pin actions it performed, and the world afterwards.
* `uint8_t` values are natural numbers reduced `% 256` where the C code can wrap.
* The two `while` loops take a budget of iterations (`fuel`); a run that exhausts
  it is `none`, so a loop that never exits is a run that is `none` for every budget.
* `F_CPU` is a build parameter.
-/

namespace Si2c

/-! ## Data model -/

/-- Pin modes used by `twi_init` and `twi_stop`. -/
inductive PinMode where
  | INPUT
  | INPUT_PULLUP
deriving DecidableEq, Repr

/-- One action of the master on the GPIO layer. -/
inductive Ev where
  /-- `GPES = (1 << pin)`: the pin becomes an output and pulls the line low. -/
  | low (pin : Nat)
  /-- `GPEC = (1 << pin)`: the pin becomes an input, the line is released. -/
  | high (pin : Nat)
  /-- `(GPI & (1 << pin)) != 0`, with the level that was read. -/
  | read (pin : Nat) (level : Bool)
  /-- `twi_delay(v)`: `v` reads of `GPI` whose value is discarded. -/
  | delay (v : Nat)
  /-- `pinMode(pin, m)`. -/
  | mode (pin : Nat) (m : PinMode)
deriving DecidableEq, Repr

/-- The GPIO layer the file is compiled against: a deterministic world. -/
structure Gpio (σ : Type) where
  /-- Effect of `GPES = (1 << pin)`. -/
  enable : Nat → σ → σ
  /-- Effect of `GPEC = (1 << pin)`. -/
  disable : Nat → σ → σ
  /-- Bit `pin` of the value a read of `GPI` returns in this state. -/
  level : σ → Nat → Bool
  /-- The world after one read of `GPI`. -/
  tick : σ → σ
  /-- Effect of `pinMode(pin, m)`. -/
  pinMode : Nat → PinMode → σ → σ

/-- The file-level variables `twi_dcount`, `twi_sda`, `twi_scl` (all `uint8_t`). -/
structure Twi where
  twi_dcount : Nat
  twi_sda : Nat
  twi_scl : Nat
deriving DecidableEq, Repr

/-- A run of master code from a world state: `none` when a `while` loop exhausted
its budget, else the returned value, the pin actions performed, the world after. -/
def Run (σ α : Type) : Type := σ → Option (α × List Ev × σ)

/-- A run that performs nothing and returns `a`. -/
def Run.pure {σ α : Type} (a : α) : Run σ α :=
  fun w => some (a, [], w)

/-- Sequencing: the pin actions of the second run follow those of the first. -/
def Run.bind {σ α β : Type} (m : Run σ α) (f : α → Run σ β) : Run σ β :=
  fun w =>
    match m w with
    | none => none
    | some (a, t1, w1) =>
      match f a w1 with
      | none => none
      | some (b, t2, w2) => some (b, t1 ++ t2, w2)

instance {σ : Type} : Monad (Run σ) where
  pure := Run.pure
  bind := Run.bind

/-- `#define FCPU80 80000000L`. -/
def FCPU80 : Nat := 80000000

/-- `TWI_CLOCK_STRETCH`: 200 when `F_CPU == FCPU80`, 400 otherwise. -/
def TWI_CLOCK_STRETCH (F_CPU : Nat) : Nat :=
  if F_CPU = FCPU80 then 200 else 400

/-! ## Configuration -/

/-- `twi_setClock(freq)`: sets `twi_dcount` from the table of the build; the
argument is a `uint32_t`. -/
def twi_setClock (F_CPU : Nat) (freq : Nat) (c : Twi) : Twi :=
  let freq := freq % 4294967296
  if F_CPU = FCPU80 then
    if freq ≤ 100000 then { c with twi_dcount := 18 }
    else if freq ≤ 200000 then { c with twi_dcount := 8 }
    else if freq ≤ 300000 then { c with twi_dcount := 4 }
    else if freq ≤ 400000 then { c with twi_dcount := 2 }
    else { c with twi_dcount := 1 }
  else
    if freq ≤ 100000 then { c with twi_dcount := 32 }
    else if freq ≤ 200000 then { c with twi_dcount := 16 }
    else if freq ≤ 300000 then { c with twi_dcount := 8 }
    else if freq ≤ 400000 then { c with twi_dcount := 4 }
    else { c with twi_dcount := 2 }

/-- `twi_init(sda, scl)`: returns the new variables, the `pinMode` calls made and
the world after them; both arguments are `uint8_t`. -/
def twi_init {σ : Type} (hw : Gpio σ) (F_CPU : Nat) (sda scl : Nat) (c : Twi) (w : σ) :
    Twi × List Ev × σ :=
  let c1 := { c with twi_sda := sda % 256 }
  let c2 := { c1 with twi_scl := scl % 256 }
  let w1 := hw.pinMode c2.twi_sda PinMode.INPUT_PULLUP w
  let w2 := hw.pinMode c2.twi_scl PinMode.INPUT_PULLUP w1
  (twi_setClock F_CPU 100000 c2,
    [Ev.mode c2.twi_sda PinMode.INPUT_PULLUP, Ev.mode c2.twi_scl PinMode.INPUT_PULLUP], w2)

/-- `twi_stop()`: both pins back to plain inputs. -/
def twi_stop {σ : Type} (hw : Gpio σ) (c : Twi) (w : σ) : List Ev × σ :=
  let w1 := hw.pinMode c.twi_sda PinMode.INPUT w
  let w2 := hw.pinMode c.twi_scl PinMode.INPUT w1
  ([Ev.mode c.twi_sda PinMode.INPUT, Ev.mode c.twi_scl PinMode.INPUT], w2)

/-! ## Pin macros and delay -/

/-- `SDA_LOW()`. -/
def SDA_LOW {σ : Type} (hw : Gpio σ) (c : Twi) : Run σ Unit :=
  fun w => some ((), [Ev.low c.twi_sda], hw.enable c.twi_sda w)

/-- `SDA_HIGH()`. -/
def SDA_HIGH {σ : Type} (hw : Gpio σ) (c : Twi) : Run σ Unit :=
  fun w => some ((), [Ev.high c.twi_sda], hw.disable c.twi_sda w)

/-- `SDA_READ()`. -/
def SDA_READ {σ : Type} (hw : Gpio σ) (c : Twi) : Run σ Bool :=
  fun w => some (hw.level w c.twi_sda, [Ev.read c.twi_sda (hw.level w c.twi_sda)], hw.tick w)

/-- `SCL_LOW()`. -/
def SCL_LOW {σ : Type} (hw : Gpio σ) (c : Twi) : Run σ Unit :=
  fun w => some ((), [Ev.low c.twi_scl], hw.enable c.twi_scl w)

/-- `SCL_HIGH()`. -/
def SCL_HIGH {σ : Type} (hw : Gpio σ) (c : Twi) : Run σ Unit :=
  fun w => some ((), [Ev.high c.twi_scl], hw.disable c.twi_scl w)

/-- `SCL_READ()`. -/
def SCL_READ {σ : Type} (hw : Gpio σ) (c : Twi) : Run σ Bool :=
  fun w => some (hw.level w c.twi_scl, [Ev.read c.twi_scl (hw.level w c.twi_scl)], hw.tick w)

/-- `twi_delay(v)`: the argument is converted to `uint8_t`, then `v` reads of `GPI`. -/
def twi_delay {σ : Type} (hw : Gpio σ) (v : Nat) : Run σ Unit :=
  fun w => some ((), [Ev.delay (v % 256)], hw.tick^[v % 256] w)

/-- The loop `while (SCL_READ() == 0 && (i++) < TWI_CLOCK_STRETCH);` with its
`uint8_t` counter `i`: the counter is compared before it is incremented, and the
increment wraps at 256. -/
def clockStretch {σ : Type} (hw : Gpio σ) (c : Twi) (F_CPU : Nat) :
    (fuel : Nat) → (i : Nat) → Run σ Unit
  | 0, _ => fun _ => none
  | fuel + 1, i => do
    let scl ← SCL_READ hw c
    if scl == false then
      if i < TWI_CLOCK_STRETCH F_CPU then
        clockStretch hw c F_CPU fuel ((i + 1) % 256)
      else pure ()
    else pure ()

/-! ## Electrical primitives -/

/-- `twi_write_start()`. -/
def twi_write_start {σ : Type} (hw : Gpio σ) (c : Twi) : Run σ Bool := do
  SCL_HIGH hw c
  SDA_HIGH hw c
  let sda ← SDA_READ hw c
  if sda == false then pure false
  else do
    twi_delay hw c.twi_dcount
    SDA_LOW hw c
    twi_delay hw c.twi_dcount
    pure true

/-- `twi_write_stop()`. -/
def twi_write_stop {σ : Type} (hw : Gpio σ) (c : Twi) (F_CPU fuel : Nat) : Run σ Bool := do
  SCL_LOW hw c
  SDA_LOW hw c
  twi_delay hw c.twi_dcount
  SCL_HIGH hw c
  clockStretch hw c F_CPU fuel 0
  twi_delay hw c.twi_dcount
  SDA_HIGH hw c
  twi_delay hw c.twi_dcount
  pure true

/-- `twi_write_bit(bit)`. -/
def twi_write_bit {σ : Type} (hw : Gpio σ) (c : Twi) (F_CPU fuel : Nat) (bit : Bool) :
    Run σ Bool := do
  SCL_LOW hw c
  if bit then SDA_HIGH hw c else SDA_LOW hw c
  twi_delay hw (c.twi_dcount + 1)
  SCL_HIGH hw c
  clockStretch hw c F_CPU fuel 0
  twi_delay hw (c.twi_dcount + 1)
  pure true

/-- `twi_read_bit()`. -/
def twi_read_bit {σ : Type} (hw : Gpio σ) (c : Twi) (F_CPU fuel : Nat) : Run σ Bool := do
  SCL_LOW hw c
  SDA_HIGH hw c
  twi_delay hw (c.twi_dcount + 1)
  SCL_HIGH hw c
  clockStretch hw c F_CPU fuel 0
  let bit ← SDA_READ hw c
  twi_delay hw c.twi_dcount
  pure bit

/-! ## Byte primitives -/

/-- The `for (bit = 0; bit < 8; bit++)` loop of `twi_write_byte`, with `n` rounds
left: `twi_write_bit(byte & 0x80); byte <<= 1;` on a `uint8_t` byte. -/
def twi_write_byte.loop {σ : Type} (hw : Gpio σ) (c : Twi) (F_CPU fuel : Nat) :
    (n : Nat) → (byte : Nat) → Run σ Unit
  | 0, _ => pure ()
  | n + 1, byte => do
    let _ ← twi_write_bit hw c F_CPU fuel (byte &&& 0x80 != 0)
    twi_write_byte.loop hw c F_CPU fuel n ((byte <<< 1) % 256)

/-- `twi_write_byte(byte)`: eight bits, then `return twi_read_bit();`. -/
def twi_write_byte {σ : Type} (hw : Gpio σ) (c : Twi) (F_CPU fuel : Nat) (byte : Nat) :
    Run σ Bool := do
  twi_write_byte.loop hw c F_CPU fuel 8 (byte % 256)
  twi_read_bit hw c F_CPU fuel

/-- The `for (bit = 0; bit < 8; bit++)` loop of `twi_read_byte`, with `n` rounds
left: `byte = (byte << 1) | twi_read_bit();` on a `uint8_t` byte. -/
def twi_read_byte.loop {σ : Type} (hw : Gpio σ) (c : Twi) (F_CPU fuel : Nat) :
    (n : Nat) → (byte : Nat) → Run σ Nat
  | 0, byte => pure byte
  | n + 1, byte => do
    let bit ← twi_read_bit hw c F_CPU fuel
    twi_read_byte.loop hw c F_CPU fuel n (((byte <<< 1) ||| bit.toNat) % 256)

/-- `twi_read_byte(nack)`. -/
def twi_read_byte {σ : Type} (hw : Gpio σ) (c : Twi) (F_CPU fuel : Nat) (nack : Bool) :
    Run σ Nat := do
  let byte ← twi_read_byte.loop hw c F_CPU fuel 8 0
  let _ ← twi_write_bit hw c F_CPU fuel nack
  pure byte

/-! ## Transactions

A buffer `uint8_t *buf` is the function from an index to the byte stored there. -/

/-- The data loop of `twi_writeTo`, `for(i=0; i<len; i++)`, with `n = len - i`
rounds left. Returns `false` when the loop body executed `return 3`. -/
def twi_writeTo.loop {σ : Type} (hw : Gpio σ) (c : Twi) (F_CPU fuel : Nat) (buf : Nat → Nat) :
    (n : Nat) → (i : Nat) → Run σ Bool
  | 0, _ => pure true
  | n + 1, i => do
    let r ← twi_write_byte hw c F_CPU fuel (buf i)
    if !r then pure false
    else twi_writeTo.loop hw c F_CPU fuel buf n (i + 1)

/-- `twi_writeTo(address, buf, len, sendStop)`: returns the status code. The
arguments `address` and `sendStop` are `uint8_t`, `len` is a `uint32_t`. -/
def twi_writeTo {σ : Type} (hw : Gpio σ) (c : Twi) (F_CPU fuel : Nat)
    (address : Nat) (buf : Nat → Nat) (len : Nat) (sendStop : Nat) : Run σ Nat := do
  let len := len % 4294967296
  let sendStop := sendStop % 256
  let started ← twi_write_start hw c
  if !started then pure 4
  else do
    let a ← twi_write_byte hw c F_CPU fuel ((((address % 256) <<< 1) ||| 0) &&& 0xFF)
    if !a then pure 2
    else do
      let done ← twi_writeTo.loop hw c F_CPU fuel buf len 0
      if !done then pure 3
      else do
        if sendStop ≠ 0 then
          let _ ← twi_write_stop hw c F_CPU fuel
          pure ()
        pure 0

/-- The data loop of `twi_readFrom`, `for(i=0; i<len; i++) buf[i] = twi_read_byte(false);`,
with `n = len - i` rounds left. Returns the buffer. -/
def twi_readFrom.loop {σ : Type} (hw : Gpio σ) (c : Twi) (F_CPU fuel : Nat) :
    (n : Nat) → (i : Nat) → (buf : Nat → Nat) → Run σ (Nat → Nat)
  | 0, _, buf => pure buf
  | n + 1, i, buf => do
    let b ← twi_read_byte hw c F_CPU fuel false
    twi_readFrom.loop hw c F_CPU fuel n (i + 1) (Function.update buf i b)

/-- The loop `while(SDA_READ() == 0 && (i++) < 10)` of `twi_readFrom`, whose body
is one SCL pulse; `i` is a `uint32_t`. -/
def twi_readFrom.recover {σ : Type} (hw : Gpio σ) (c : Twi) :
    (fuel : Nat) → (i : Nat) → Run σ Unit
  | 0, _ => fun _ => none
  | fuel + 1, i => do
    let sda ← SDA_READ hw c
    if sda == false then
      if i < 10 then do
        SCL_LOW hw c
        twi_delay hw c.twi_dcount
        SCL_HIGH hw c
        twi_delay hw c.twi_dcount
        twi_readFrom.recover hw c fuel ((i + 1) % 4294967296)
      else pure ()
    else pure ()

/-- `twi_readFrom(address, buf, len, sendStop)`: returns the status code and the
buffer as the call leaves it. The arguments `address` and `sendStop` are `uint8_t`,
`len` is a `uint32_t`. -/
def twi_readFrom {σ : Type} (hw : Gpio σ) (c : Twi) (F_CPU fuel : Nat)
    (address : Nat) (buf : Nat → Nat) (len : Nat) (sendStop : Nat) :
    Run σ (Nat × (Nat → Nat)) := do
  let len := len % 4294967296
  let sendStop := sendStop % 256
  let started ← twi_write_start hw c
  if !started then pure (4, buf)
  else do
    let a ← twi_write_byte hw c F_CPU fuel ((((address % 256) <<< 1) ||| 1) &&& 0xFF)
    if !a then pure (2, buf)
    else do
      let out ← twi_readFrom.loop hw c F_CPU fuel len 0 buf
      if sendStop ≠ 0 then
        let _ ← twi_write_stop hw c F_CPU fuel
        twi_readFrom.recover hw c fuel 0
      pure (0, out)

/-! ## A simulated bus with one slave device

The two lines are open drain: a line reads high only when nobody holds it low.
The slave follows the I2C protocol: it detects start and stop, shifts bits in on
rising clock edges and changes its own SDA drive on falling clock edges. It
acknowledges its own address, stores the data bytes written to it while it has
room, and sends the stored bytes back, most significant bit first, when read. -/

/-- What the simulated slave is doing. -/
inductive Phase where
  | idle
  | address
  | receive
  | send
deriving DecidableEq, Repr

/-- State of the simulated bus: the master's two pins and the slave device. -/
structure Sim where
  /-- The master holds SDA low. -/
  mSda : Bool
  /-- The master holds SCL low. -/
  mScl : Bool
  /-- The slave holds SDA low. -/
  sSda : Bool
  /-- The slave holds SCL low (it never lets go: a stuck clock line). -/
  sScl : Bool
  phase : Phase
  /-- Rising clock edges seen in the current byte, 0..9. -/
  nbits : Nat
  /-- Bits shifted in during the current byte. -/
  shift : Nat
  /-- The 7-bit address the slave answers to. -/
  addr : Nat
  /-- How many data bytes the slave accepts before it stops acknowledging. -/
  cap : Nat
  /-- The bytes stored in the slave. -/
  mem : List Nat
  /-- Index of the byte being sent. -/
  pos : Nat
deriving DecidableEq, Repr

/-- Level of the SDA line. -/
def Sim.sda (s : Sim) : Bool := !s.mSda && !s.sSda

/-- Level of the SCL line. -/
def Sim.scl (s : Sim) : Bool := !s.mScl && !s.sScl

/-- Whether the slave pulls SDA low to send bit `k` (0 = most significant) of the
byte at `pos`: it pulls low for a 0 bit. A missing byte reads as `0xFF`. -/
def Sim.sendsLow (s : Sim) (k : Nat) : Bool :=
  !((s.mem.getD s.pos 0xFF).testBit (7 - k))

/-- The slave at a falling edge of SCL. -/
def Sim.onFall (s : Sim) : Sim :=
  match s.phase with
  | Phase.idle => s
  | Phase.address =>
    if s.nbits < 8 then s
    else if s.nbits = 8 then
      if s.shift / 2 = s.addr then { s with sSda := true }
      else { s with phase := Phase.idle }
    else if s.shift % 2 = 1 then
      { s with phase := Phase.send, nbits := 0, shift := 0, pos := 0,
               sSda := Sim.sendsLow { s with pos := 0 } 0 }
    else { s with phase := Phase.receive, nbits := 0, shift := 0, sSda := false }
  | Phase.receive =>
    if s.nbits < 8 then s
    else if s.nbits = 8 then
      if s.mem.length < s.cap then { s with sSda := true, mem := s.mem ++ [s.shift] }
      else { s with phase := Phase.idle }
    else { s with nbits := 0, shift := 0, sSda := false }
  | Phase.send =>
    if s.nbits < 8 then { s with sSda := s.sendsLow s.nbits }
    else if s.nbits = 8 then { s with sSda := false }
    else { s with nbits := 0, pos := s.pos + 1,
                  sSda := Sim.sendsLow { s with pos := s.pos + 1 } 0 }

/-- The slave at a rising edge of SCL, where it samples SDA. -/
def Sim.onRise (s : Sim) : Sim :=
  match s.phase with
  | Phase.idle => s
  | Phase.address | Phase.receive =>
    if s.nbits < 8 then { s with nbits := s.nbits + 1, shift := s.shift * 2 + s.sda.toNat }
    else { s with nbits := s.nbits + 1 }
  | Phase.send =>
    if s.nbits < 8 then { s with nbits := s.nbits + 1 }
    else if s.sda then { s with phase := Phase.idle, nbits := s.nbits + 1 }
    else { s with nbits := s.nbits + 1 }

/-- The simulated GPIO layer for a master whose pins are `sdaPin` and `sclPin`. -/
def simGpio (sdaPin sclPin : Nat) : Gpio Sim where
  enable pin s :=
    if pin = sclPin then
      if s.scl then Sim.onFall { s with mScl := true } else { s with mScl := true }
    else if pin = sdaPin then
      if s.scl && s.sda then
        { s with mSda := true, phase := Phase.address, nbits := 0, shift := 0, sSda := false }
      else { s with mSda := true }
    else s
  disable pin s :=
    if pin = sclPin then
      if s.mScl && !s.sScl then Sim.onRise { s with mScl := false } else { s with mScl := false }
    else if pin = sdaPin then
      if s.scl && s.mSda && !s.sSda then
        { s with mSda := false, phase := Phase.idle, sSda := false }
      else { s with mSda := false }
    else s
  level s pin := if pin = sdaPin then s.sda else if pin = sclPin then s.scl else true
  tick s := s
  pinMode _ _ s := s

/-- An idle bus with a slave at address `addr` that holds `mem` and accepts up to
`cap` data bytes. -/
def simIdle (addr cap : Nat) (mem : List Nat) : Sim :=
  { mSda := false, mScl := false, sSda := false, sScl := false, phase := Phase.idle,
    nbits := 0, shift := 0, addr := addr, cap := cap, mem := mem, pos := 0 }

/-- The buffer holding the bytes of a list, 0 elsewhere. -/
def bufOf (l : List Nat) : Nat → Nat := fun i => l.getD i 0

/-! ## Reference inputs and pin-action sequences

The sequences below are what each primitive performs when SCL reads high at the
first poll of its clock-stretch loop (no stretching). -/

/-- A configuration as `twi_init(4, 5)` leaves it in the 80 MHz build. -/
def cfg0 : Twi := { twi_dcount := 18, twi_sda := 4, twi_scl := 5 }

/-- The simulated GPIO layer for `cfg0`. -/
def hw0 : Gpio Sim := simGpio 4 5

/-- Pin actions of a start condition that succeeds. -/
def startTrace (c : Twi) : List Ev :=
  [Ev.high c.twi_scl, Ev.high c.twi_sda, Ev.read c.twi_sda true, Ev.delay (c.twi_dcount % 256),
   Ev.low c.twi_sda, Ev.delay (c.twi_dcount % 256)]

/-- Pin actions of a start attempt that finds SDA low. -/
def busyTrace (c : Twi) : List Ev :=
  [Ev.high c.twi_scl, Ev.high c.twi_sda, Ev.read c.twi_sda false]

/-- Pin actions of one clock cycle that writes `bit`. -/
def writeBitTrace (c : Twi) (bit : Bool) : List Ev :=
  [Ev.low c.twi_scl, if bit then Ev.high c.twi_sda else Ev.low c.twi_sda,
   Ev.delay ((c.twi_dcount + 1) % 256), Ev.high c.twi_scl, Ev.read c.twi_scl true,
   Ev.delay ((c.twi_dcount + 1) % 256)]

/-- Pin actions of one clock cycle that reads a bit and finds SDA at `level`. -/
def readBitTrace (c : Twi) (level : Bool) : List Ev :=
  [Ev.low c.twi_scl, Ev.high c.twi_sda, Ev.delay ((c.twi_dcount + 1) % 256),
   Ev.high c.twi_scl, Ev.read c.twi_scl true, Ev.read c.twi_sda level,
   Ev.delay (c.twi_dcount % 256)]

/-- Pin actions of a stop condition. -/
def stopTrace (c : Twi) : List Ev :=
  [Ev.low c.twi_scl, Ev.low c.twi_sda, Ev.delay (c.twi_dcount % 256), Ev.high c.twi_scl,
   Ev.read c.twi_scl true, Ev.delay (c.twi_dcount % 256), Ev.high c.twi_sda,
   Ev.delay (c.twi_dcount % 256)]

/-- The eight bits of a byte, most significant first. -/
def bitsMSB (byte : Nat) : List Bool :=
  (List.range 8).map fun j => byte.testBit (7 - j)

/-- Pin actions of the nine clock cycles of a byte written by the master: the eight
bits of `byte`, most significant first, then the acknowledge cycle in which SDA
reads `ackLevel`. -/
def writeByteTrace (c : Twi) (byte : Nat) (ackLevel : Bool) : List Ev :=
  ((bitsMSB byte).map (writeBitTrace c)).flatten ++ readBitTrace c ackLevel

/-- The simulated bus right after a start condition, the slave waiting for its
address. -/
def simStarted (addr cap : Nat) (mem : List Nat) : Sim :=
  { simIdle addr cap mem with mSda := true, phase := Phase.address }

/-- The simulated bus after the slave has acknowledged the address byte `byte` and
the master has let go of the bus without a stop: the slave still holds SDA low. -/
def simAcked (addr cap : Nat) (mem : List Nat) (byte : Nat) : Sim :=
  { simIdle addr cap mem with sSda := true, phase := Phase.address, nbits := 9, shift := byte }

/-- A bus on which somebody holds SDA low. -/
def simBusy : Sim := { simIdle 0x50 16 [] with sSda := true }

/-- A bus on which the slave holds SCL low and never lets go. -/
def simStuck : Sim := { simIdle 0x50 16 [] with sScl := true }

/-! ## Pin-action sequences with clock stretching

The sequences of a primitive whose clock-stretch loop performed the reads `polls`. -/

/-- What the clock-stretch loop contributes to a trace: reads of SCL only. -/
def sclReads (c : Twi) (polls : List Ev) : Prop :=
  ∀ e ∈ polls, ∃ l, e = Ev.read c.twi_scl l

/-- Pin actions of `twi_write_bit(bit)`. -/
def writeBitSeq (c : Twi) (bit : Bool) (polls : List Ev) : List Ev :=
  [Ev.low c.twi_scl, if bit then Ev.high c.twi_sda else Ev.low c.twi_sda,
    Ev.delay ((c.twi_dcount + 1) % 256), Ev.high c.twi_scl] ++ polls ++
    [Ev.delay ((c.twi_dcount + 1) % 256)]

/-- Pin actions of `twi_read_bit()` that sampled SDA at `level`. -/
def readBitSeq (c : Twi) (polls : List Ev) (level : Bool) : List Ev :=
  [Ev.low c.twi_scl, Ev.high c.twi_sda, Ev.delay ((c.twi_dcount + 1) % 256),
    Ev.high c.twi_scl] ++ polls ++
    [Ev.read c.twi_sda level, Ev.delay (c.twi_dcount % 256)]

/-- Pin actions of `twi_write_stop()`. -/
def stopSeq (c : Twi) (polls : List Ev) : List Ev :=
  [Ev.low c.twi_scl, Ev.low c.twi_sda, Ev.delay (c.twi_dcount % 256), Ev.high c.twi_scl] ++
    polls ++ [Ev.delay (c.twi_dcount % 256), Ev.high c.twi_sda, Ev.delay (c.twi_dcount % 256)]

/-- The reads of a clock-stretch loop that saw SCL low `n` times, then high. -/
def stretchPolls (c : Twi) (n : Nat) : List Ev :=
  List.replicate n (Ev.read c.twi_scl false) ++ [Ev.read c.twi_scl true]

/-- Pin actions of `twi_write_byte(byte)`: one write cycle per bit of `byte`, most
significant first, with the polls of `ps` in turn, then the read cycle that
sampled `level`. -/
def writeByteSeq (c : Twi) (byte : Nat) (ps : List (List Ev)) (p9 : List Ev) (level : Bool) :
    List Ev :=
  (List.zipWith (writeBitSeq c) (bitsMSB byte) ps).flatten ++ readBitSeq c p9 level

/-- Pin actions of `twi_read_byte(nack)`: one read cycle per sampled bit of `ss`,
then the write cycle of `nack`. -/
def readByteSeq (c : Twi) (ss : List Bool) (ps : List (List Ev)) (nack : Bool) (p9 : List Ev) :
    List Ev :=
  (List.zipWith (readBitSeq c) ps ss).flatten ++ writeBitSeq c nack p9

/-- The number whose binary digits, most significant first, are `bits`. -/
def assemble (bits : List Bool) : Nat :=
  bits.foldl (fun acc s => 2 * acc + s.toNat) 0

/-- The seven bits of an address, most significant first. -/
def addressBits (a : Nat) : List Bool :=
  (List.range 7).map fun j => a.testBit (6 - j)

/-- What one `twi_read_byte` call shows in a trace: the eight bits it sampled, the
polls of its eight read cycles and the polls of its write cycle. -/
structure ByteRead where
  bits : List Bool
  polls : List (List Ev)
  last : List Ev

/-- The record of a `twi_read_byte` call is well formed. -/
def ByteRead.ok (c : Twi) (r : ByteRead) : Prop :=
  r.bits.length = 8 ∧ r.polls.length = 8 ∧ (∀ p ∈ r.polls, sclReads c p) ∧ sclReads c r.last

/-- Pin actions of a sequence of `twi_read_byte(nack)` calls. -/
def readBytesSeq (c : Twi) (nack : Bool) (recs : List ByteRead) : List Ev :=
  (recs.map fun r => readByteSeq c r.bits r.polls nack r.last).flatten

/-- One SCL pulse of the recovery loop of `twi_readFrom`, after SDA read low. -/
def pulseSeq (c : Twi) : List Ev :=
  [Ev.read c.twi_sda false, Ev.low c.twi_scl, Ev.delay (c.twi_dcount % 256),
    Ev.high c.twi_scl, Ev.delay (c.twi_dcount % 256)]

/-- Traces made of write cycles and read cycles only. -/
inductive BitCycles (c : Twi) : List Ev → Prop where
  | nil : BitCycles c []
  | write (bit : Bool) (polls rest : List Ev) : sclReads c polls → BitCycles c rest →
      BitCycles c (writeBitSeq c bit polls ++ rest)
  | read (level : Bool) (polls rest : List Ev) : sclReads c polls → BitCycles c rest →
      BitCycles c (readBitSeq c polls level ++ rest)

/-! ## The loops as sequences of calls -/

/-- The bits `twi_write_byte.loop` hands to `twi_write_bit` in `n` rounds from
`byte`: the mask `byte & 0x80`, then the same for `byte << 1` cut to eight bits. -/
def shiftedBits : Nat → Nat → List Bool
  | 0, _ => []
  | n + 1, byte => (byte &&& 0x80 != 0) :: shiftedBits n ((byte <<< 1) % 256)

/-- Runs `m b` for each `b` of a list in turn. -/
def Run.forEach {σ α β : Type} (m : β → Run σ α) : List β → Run σ Unit
  | [] => Pure.pure ()
  | b :: bs => do
    let _ ← m b
    Run.forEach m bs

/-- Runs `m` `n` times and collects the results in order. -/
def Run.times {σ α : Type} (m : Run σ α) : Nat → Run σ (List α)
  | 0 => Pure.pure []
  | n + 1 => do
    let a ← m
    let rest ← Run.times m n
    Pure.pure (a :: rest)

/-- The buffer after `bytes` were stored from index `i` on, in order. -/
def storeBytes (buf : Nat → Nat) : Nat → List Nat → Nat → Nat
  | _, [] => buf
  | i, b :: bs => storeBytes (Function.update buf i b) (i + 1) bs

/-- The part of `twi_readFrom` after the address phase (lines 160 to 171): the data
loop, then the stop condition and the recovery loop when `sendStop` is set. -/
def twi_readFrom.data {σ : Type} (hw : Gpio σ) (c : Twi) (F_CPU fuel : Nat)
    (buf : Nat → Nat) (len : Nat) (sendStop : Nat) : Run σ (Nat × (Nat → Nat)) := do
  let out ← twi_readFrom.loop hw c F_CPU fuel len 0 buf
  if sendStop ≠ 0 then
    let _ ← twi_write_stop hw c F_CPU fuel
    twi_readFrom.recover hw c fuel 0
  pure (0, out)

/-- A run that returns from every world state. -/
def Returns {σ α : Type} (m : Run σ α) : Prop :=
  ∀ w, ∃ a tr w1, m w = some (a, tr, w1)

/-! ## The master's drive of the lines along a trace -/

/-- The master's own drive of the two lines: whether it pulls SCL low, and SDA low. -/
structure Pins where
  sclLow : Bool
  sdaLow : Bool
deriving DecidableEq, Repr

/-- The master's drive after one pin action. -/
def Pins.step (c : Twi) (p : Pins) (e : Ev) : Pins :=
  if e = Ev.low c.twi_scl then { p with sclLow := true }
  else if e = Ev.high c.twi_scl then { p with sclLow := false }
  else if e = Ev.low c.twi_sda then { p with sdaLow := true }
  else if e = Ev.high c.twi_sda then { p with sdaLow := false }
  else p

/-- The master's drive after a trace. -/
def pinsAfter (c : Twi) (p : Pins) (tr : List Ev) : Pins :=
  tr.foldl (Pins.step c) p

/-- The SDA drive actions (pull low or release) of a trace that the master issues
while it is not pulling SCL low. -/
def releasedSdaDrives (c : Twi) : Pins → List Ev → List Ev
  | _, [] => []
  | p, e :: rest =>
    (if (e = Ev.low c.twi_sda ∨ e = Ev.high c.twi_sda) ∧ e ≠ Ev.low c.twi_scl
          ∧ e ≠ Ev.high c.twi_scl ∧ p.sclLow = false then [e] else [])
      ++ releasedSdaDrives c (p.step c e) rest

/-- The number of stop conditions in a trace: releases of SDA, which the master was
pulling low, issued while the master is not pulling SCL low. -/
def stopCount (c : Twi) : Pins → List Ev → Nat
  | _, [] => 0
  | p, e :: rest =>
    (if e = Ev.high c.twi_sda ∧ e ≠ Ev.high c.twi_scl ∧ p.sclLow = false ∧ p.sdaLow = true
      then 1 else 0) + stopCount c (p.step c e) rest

/-! ## A simulated bus whose slave stretches the clock -/

/-- State of a bus whose slave holds SCL low for `hold` reads of `GPI` each time the
master releases SCL, and leaves SDA alone. -/
structure Stretch where
  /-- The master holds SDA low. -/
  mSda : Bool
  /-- The master holds SCL low. -/
  mScl : Bool
  /-- Reads of `GPI` during which the slave still holds SCL low. -/
  left : Nat
  /-- For how many reads the slave holds SCL after each release by the master. -/
  hold : Nat
deriving DecidableEq, Repr

/-- The GPIO layer of the clock-stretching bus for a master on `sdaPin`, `sclPin`. -/
def stretchGpio (sdaPin sclPin : Nat) : Gpio Stretch where
  enable pin s :=
    if pin = sclPin then { s with mScl := true }
    else if pin = sdaPin then { s with mSda := true }
    else s
  disable pin s :=
    if pin = sclPin then { s with mScl := false, left := s.hold }
    else if pin = sdaPin then { s with mSda := false }
    else s
  level s pin :=
    if pin = sdaPin then !s.mSda
    else if pin = sclPin then !s.mScl && s.left == 0
    else true
  tick s := { s with left := s.left - 1 }
  pinMode _ _ s := s

/-- The clock-stretching bus at rest, its slave stretching for `hold` reads. -/
def stretchIdle (hold : Nat) : Stretch :=
  { mSda := false, mScl := false, left := 0, hold := hold }

/-- From the state `u` on, SCL reads low at the next `n` reads of `GPI` and high at
the one after: the slave stretches the clock for `n` polls. -/
def Stretched {σ : Type} (hw : Gpio σ) (c : Twi) (n : Nat) (u : σ) : Prop :=
  (∀ k < n, hw.level (hw.tick^[k] u) c.twi_scl = false)
    ∧ hw.level (hw.tick^[n] u) c.twi_scl = true

/-! ## Further reference inputs -/

/-- The simulated bus after the address byte `byte`, which the slave at 0x50 did not
take for its own: the slave is idle and both lines are released. -/
def simUnanswered (byte : Nat) : Sim :=
  { simIdle 0x50 16 [] with nbits := 8, shift := byte }

/-- What a `twi_read_byte` call shows on a bus nobody drives: eight bits read
high, and SCL high at the first poll of every cycle. -/
def onesRead : ByteRead :=
  { bits := List.replicate 8 true, polls := List.replicate 8 [Ev.read 5 true],
    last := [Ev.read 5 true] }


/-! ## Sequencing lemmas -/

section Lemmas

variable {σ : Type}

theorem Run.bind_apply {α β : Type} (m : Run σ α) (f : α → Run σ β) (w : σ) :
    (m >>= f) w = Run.bind m f w := rfl

theorem Run.pure_apply {α : Type} (a : α) (w : σ) :
    (Pure.pure a : Run σ α) w = some (a, [], w) := rfl

/-- When the first run returns, the whole run is the second one with the first
trace in front. -/
theorem Run.bind_some {α β : Type} (m : Run σ α) (f : α → Run σ β) (w : σ)
    (a : α) (t : List Ev) (w1 : σ) (h : m w = some (a, t, w1)) :
    (m >>= f) w = (f a w1).map fun r => (r.1, t ++ r.2.1, r.2.2) := by
  show Run.bind m f w = _
  unfold Run.bind
  cases hf : f a w1 <;> simp [h, hf]

/-- When the first run does not return, neither does the whole. -/
theorem Run.bind_none {α β : Type} (m : Run σ α) (f : α → Run σ β) (w : σ)
    (h : m w = none) : (m >>= f) w = none := by
  show Run.bind m f w = _
  unfold Run.bind
  rw [h]

/-- A sequence returns exactly when both parts do. -/
theorem Run.bind_eq_some {α β : Type} (m : Run σ α) (f : α → Run σ β) (w : σ)
    (b : β) (tr : List Ev) (w2 : σ) :
    (m >>= f) w = some (b, tr, w2) ↔
      ∃ a t1 w1 t2, m w = some (a, t1, w1) ∧ f a w1 = some (b, t2, w2) ∧ tr = t1 ++ t2 := by
  constructor
  · intro h
    cases hm : m w with
    | none => rw [Run.bind_none m f w hm] at h; cases h
    | some r =>
      obtain ⟨a, t1, w1⟩ := r
      rw [Run.bind_some m f w a t1 w1 hm] at h
      cases hf : f a w1 with
      | none => rw [hf] at h; cases h
      | some q =>
        obtain ⟨b1, t2, w3⟩ := q
        rw [hf] at h
        simp only [Option.map_some', Option.some.injEq, Prod.mk.injEq] at h
        obtain ⟨hb, ht, hw⟩ := h
        subst hb; subst hw
        exact ⟨a, t1, w1, t2, rfl, hf, ht.symm⟩
  · rintro ⟨a, t1, w1, t2, hm, hf, rfl⟩
    rw [Run.bind_some m f w a t1 w1 hm, hf]
    rfl

/-! ## Start condition -/

/-- The start attempt when SDA reads low after both lines were released. -/
theorem twi_write_start_busy (hw : Gpio σ) (c : Twi) (w : σ)
    (hbusy : hw.level (hw.disable c.twi_sda (hw.disable c.twi_scl w)) c.twi_sda = false) :
    twi_write_start hw c w = some (false, busyTrace c,
      hw.tick (hw.disable c.twi_sda (hw.disable c.twi_scl w))) := by
  simp [twi_write_start, Run.bind_apply, Run.bind, SCL_HIGH, SDA_HIGH, SDA_READ, hbusy,
    Run.pure_apply, busyTrace]

/-- The start condition when SDA reads high after both lines were released. -/
theorem twi_write_start_idle (hw : Gpio σ) (c : Twi) (w : σ)
    (hidle : hw.level (hw.disable c.twi_sda (hw.disable c.twi_scl w)) c.twi_sda = true) :
    twi_write_start hw c w = some (true, startTrace c,
      hw.tick^[c.twi_dcount % 256] (hw.enable c.twi_sda (hw.tick^[c.twi_dcount % 256]
        (hw.tick (hw.disable c.twi_sda (hw.disable c.twi_scl w)))))) := by
  simp [twi_write_start, Run.bind_apply, Run.bind, SCL_HIGH, SDA_HIGH, SDA_READ, SDA_LOW,
    twi_delay, hidle, Run.pure_apply, startTrace]

end Lemmas

/-! ## Bit primitives and the clock-stretch loop -/

section Bits

variable {σ : Type}

theorem twi_read_bit_eq (hw : Gpio σ) (c : Twi) (F_CPU fuel : Nat) (w : σ) :
    twi_read_bit hw c F_CPU fuel w =
      (clockStretch hw c F_CPU fuel 0
        (hw.disable c.twi_scl (hw.tick^[(c.twi_dcount + 1) % 256]
          (hw.disable c.twi_sda (hw.enable c.twi_scl w))))).map fun r =>
        (hw.level r.2.2 c.twi_sda,
         [Ev.low c.twi_scl, Ev.high c.twi_sda, Ev.delay ((c.twi_dcount + 1) % 256),
           Ev.high c.twi_scl] ++ r.2.1 ++
           [Ev.read c.twi_sda (hw.level r.2.2 c.twi_sda), Ev.delay (c.twi_dcount % 256)],
         hw.tick^[c.twi_dcount % 256] (hw.tick r.2.2)) := by
  simp only [twi_read_bit, Run.bind_apply, Run.bind, SCL_LOW, SDA_HIGH, twi_delay, SCL_HIGH,
    SDA_READ, Run.pure_apply]
  cases clockStretch hw c F_CPU fuel 0
        (hw.disable c.twi_scl (hw.tick^[(c.twi_dcount + 1) % 256]
          (hw.disable c.twi_sda (hw.enable c.twi_scl w)))) <;> simp

theorem twi_write_bit_eq (hw : Gpio σ) (c : Twi) (F_CPU fuel : Nat) (bit : Bool) (w : σ) :
    twi_write_bit hw c F_CPU fuel bit w =
      (clockStretch hw c F_CPU fuel 0
        (hw.disable c.twi_scl (hw.tick^[(c.twi_dcount + 1) % 256]
          ((if bit then hw.disable c.twi_sda else hw.enable c.twi_sda)
            (hw.enable c.twi_scl w))))).map fun r =>
        (true,
         [Ev.low c.twi_scl, if bit then Ev.high c.twi_sda else Ev.low c.twi_sda,
           Ev.delay ((c.twi_dcount + 1) % 256), Ev.high c.twi_scl] ++ r.2.1 ++
           [Ev.delay ((c.twi_dcount + 1) % 256)],
         hw.tick^[(c.twi_dcount + 1) % 256] r.2.2) := by
  cases bit
  · simp only [twi_write_bit, ↓reduceIte, Bool.false_eq_true, Run.bind_apply, Run.bind, SCL_LOW,
      SDA_LOW, twi_delay, SCL_HIGH, Run.pure_apply]
    cases clockStretch hw c F_CPU fuel 0
        (hw.disable c.twi_scl (hw.tick^[(c.twi_dcount + 1) % 256]
          (hw.enable c.twi_sda (hw.enable c.twi_scl w)))) <;> simp
  · simp only [twi_write_bit, ↓reduceIte, Run.bind_apply, Run.bind, SCL_LOW,
      SDA_HIGH, twi_delay, SCL_HIGH, Run.pure_apply]
    cases clockStretch hw c F_CPU fuel 0
        (hw.disable c.twi_scl (hw.tick^[(c.twi_dcount + 1) % 256]
          (hw.disable c.twi_sda (hw.enable c.twi_scl w)))) <;> simp

theorem twi_write_stop_eq (hw : Gpio σ) (c : Twi) (F_CPU fuel : Nat) (w : σ) :
    twi_write_stop hw c F_CPU fuel w =
      (clockStretch hw c F_CPU fuel 0
        (hw.disable c.twi_scl (hw.tick^[c.twi_dcount % 256]
          (hw.enable c.twi_sda (hw.enable c.twi_scl w))))).map fun r =>
        (true,
         [Ev.low c.twi_scl, Ev.low c.twi_sda, Ev.delay (c.twi_dcount % 256),
           Ev.high c.twi_scl] ++ r.2.1 ++
           [Ev.delay (c.twi_dcount % 256), Ev.high c.twi_sda, Ev.delay (c.twi_dcount % 256)],
         hw.tick^[c.twi_dcount % 256] (hw.disable c.twi_sda
           (hw.tick^[c.twi_dcount % 256] r.2.2))) := by
  simp only [twi_write_stop, Run.bind_apply, Run.bind, SCL_LOW, SDA_HIGH, SDA_LOW, twi_delay,
    SCL_HIGH, Run.pure_apply]
  cases clockStretch hw c F_CPU fuel 0
        (hw.disable c.twi_scl (hw.tick^[c.twi_dcount % 256]
          (hw.enable c.twi_sda (hw.enable c.twi_scl w)))) <;> simp


theorem clockStretch_succ (hw : Gpio σ) (c : Twi) (F_CPU fuel i : Nat) (w : σ) :
    clockStretch hw c F_CPU (fuel + 1) i w =
      if hw.level w c.twi_scl = false ∧ i < TWI_CLOCK_STRETCH F_CPU then
        (clockStretch hw c F_CPU fuel ((i + 1) % 256) (hw.tick w)).map fun r =>
          ((), Ev.read c.twi_scl false :: r.2.1, r.2.2)
      else some ((), [Ev.read c.twi_scl (hw.level w c.twi_scl)], hw.tick w) := by
  rw [clockStretch]
  simp only [Run.bind_apply, Run.bind, SCL_READ]
  by_cases hl : hw.level w c.twi_scl = false
  · by_cases hi : i < TWI_CLOCK_STRETCH F_CPU
    · simp only [hl, hi, and_self, if_true, beq_self_eq_true]
      cases clockStretch hw c F_CPU fuel ((i + 1) % 256) (hw.tick w) <;> simp
    · simp [hl, hi, Run.pure_apply]
  · simp [hl, Run.pure_apply]

/-- In a build other than 80 MHz the clock-stretch loop never exits while SCL keeps
reading low: the `uint8_t` counter stays below 400. -/
theorem clockStretch_never_exits (hw : Gpio σ) (c : Twi) (F_CPU : Nat) (hF : F_CPU ≠ FCPU80)
    (fuel : Nat) : ∀ (i : Nat) (w : σ), i < 256 →
      (∀ n, hw.level (hw.tick^[n] w) c.twi_scl = false) →
      clockStretch hw c F_CPU fuel i w = none := by
  induction fuel with
  | zero => intro i w _ _; rfl
  | succ fuel ih =>
    intro i w hi hlow
    have h0 : hw.level w c.twi_scl = false := hlow 0
    have hlt : i < TWI_CLOCK_STRETCH F_CPU := by
      simp only [TWI_CLOCK_STRETCH, hF, if_false]; omega
    rw [clockStretch_succ]
    simp only [h0, hlt, and_self, if_true]
    rw [ih ((i + 1) % 256) (hw.tick w) (Nat.mod_lt _ (by decide))]
    · rfl
    · intro n
      have := hlow (n + 1)
      simpa [Function.iterate_succ_apply] using this

/-- In the 80 MHz build the clock-stretch loop exits after at most 201 reads of SCL,
given that budget, whatever the line does. -/
theorem clockStretch_exits_80 (hw : Gpio σ) (c : Twi) (k : Nat) :
    ∀ (i fuel : Nat) (w : σ), i ≤ 200 → 200 - i = k → 201 - i ≤ fuel →
      ∃ polls w1, clockStretch hw c FCPU80 fuel i w = some ((), polls, w1)
        ∧ polls.length ≤ 201 - i
        ∧ ∀ e ∈ polls, ∃ l, e = Ev.read c.twi_scl l := by
  induction k with
  | zero =>
    intro i fuel w hi hk hfuel
    have hi200 : i = 200 := by omega
    subst hi200
    obtain ⟨f, rfl⟩ : ∃ f, fuel = f + 1 := ⟨fuel - 1, by omega⟩
    rw [clockStretch_succ]
    have : ¬ (200 < TWI_CLOCK_STRETCH FCPU80) := by simp [TWI_CLOCK_STRETCH]
    simp only [this, and_false, if_false]
    exact ⟨_, _, rfl, by simp, by simp⟩
  | succ k ih =>
    intro i fuel w hi hk hfuel
    obtain ⟨f, rfl⟩ : ∃ f, fuel = f + 1 := ⟨fuel - 1, by omega⟩
    rw [clockStretch_succ]
    by_cases hl : hw.level w c.twi_scl = false
    · have hlt : i < TWI_CLOCK_STRETCH FCPU80 := by simp [TWI_CLOCK_STRETCH]; omega
      simp only [hl, hlt, and_self, if_true]
      have hmod : (i + 1) % 256 = i + 1 := Nat.mod_eq_of_lt (by omega)
      rw [hmod]
      obtain ⟨polls, w1, h1, h2, h3⟩ := ih (i + 1) f (hw.tick w) (by omega) (by omega) (by omega)
      refine ⟨Ev.read c.twi_scl false :: polls, w1, by rw [h1]; rfl, by simp; omega, ?_⟩
      intro e he
      rcases List.mem_cons.1 he with rfl | he
      · exact ⟨false, rfl⟩
      · exact h3 e he
    · simp only [hl, false_and, if_false]
      exact ⟨_, _, rfl, by simp; omega, by simp⟩

end Bits

/-! ## What the byte and transaction layers return -/

section Bytes

variable {σ : Type}

/-- The value `twi_read_bit` returns is the SDA level it read: its trace ends with
that read and the closing delay. -/
theorem twi_read_bit_returns_level (hw : Gpio σ) (c : Twi) (F_CPU fuel : Nat) (w w1 : σ)
    (b : Bool) (tr : List Ev) (h : twi_read_bit hw c F_CPU fuel w = some (b, tr, w1)) :
    ∃ pre, tr = pre ++ [Ev.read c.twi_sda b, Ev.delay (c.twi_dcount % 256)] := by
  rw [twi_read_bit_eq] at h
  cases hc : clockStretch hw c F_CPU fuel 0
        (hw.disable c.twi_scl (hw.tick^[(c.twi_dcount + 1) % 256]
          (hw.disable c.twi_sda (hw.enable c.twi_scl w)))) with
  | none => rw [hc] at h; cases h
  | some r =>
    rw [hc] at h
    simp only [Option.map_some', Option.some.injEq, Prod.mk.injEq] at h
    obtain ⟨hb, ht, _⟩ := h
    subst hb
    exact ⟨_, ht.symm⟩

/-- The value `twi_write_byte` returns is the SDA level read in the ninth clock
cycle: `true` when SDA read high, `false` when it read low. -/
theorem twi_write_byte_returns_level (hw : Gpio σ) (c : Twi) (F_CPU fuel byte : Nat)
    (w w1 : σ) (r : Bool) (tr : List Ev)
    (h : twi_write_byte hw c F_CPU fuel byte w = some (r, tr, w1)) :
    ∃ pre, tr = pre ++ [Ev.read c.twi_sda r, Ev.delay (c.twi_dcount % 256)] := by
  unfold twi_write_byte at h
  obtain ⟨_, t1, w8, t2, _, h2, rfl⟩ := (Run.bind_eq_some _ _ _ _ _ _).1 h
  obtain ⟨pre, rfl⟩ := twi_read_bit_returns_level hw c F_CPU fuel w8 w1 r t2 h2
  exact ⟨t1 ++ pre, by simp⟩

/-- After a start that succeeded, `twi_writeTo` returns 2 exactly when the ninth
clock cycle of the address byte read SDA low. -/
theorem twi_writeTo_address_phase (hw : Gpio σ) (c : Twi) (F_CPU fuel address len sendStop : Nat)
    (buf : Nat → Nat) (w w0 w1 : σ) (t0 t1 : List Ev) (level : Bool)
    (hstart : twi_write_start hw c w = some (true, t0, w0))
    (haddr : twi_write_byte hw c F_CPU fuel ((((address % 256) <<< 1) ||| 0) &&& 0xFF) w0
      = some (level, t1, w1)) :
    (level = false →
        twi_writeTo hw c F_CPU fuel address buf len sendStop w = some (2, t0 ++ t1, w1))
    ∧ (level = true → ∀ st tr w2,
        twi_writeTo hw c F_CPU fuel address buf len sendStop w = some (st, tr, w2) → st ≠ 2) := by
  unfold twi_writeTo
  rw [Run.bind_some _ _ _ _ _ _ hstart]
  simp only [Bool.not_true, Bool.false_eq_true, if_false]
  rw [Run.bind_some _ _ _ _ _ _ haddr]
  constructor
  · rintro rfl
    simp [Run.pure_apply]
  · rintro rfl st tr w2
    simp only [Bool.not_true, Bool.false_eq_true, if_false]
    cases hl : twi_writeTo.loop hw c F_CPU fuel buf (len % 4294967296) 0 w1 with
    | none => simp [Run.bind_none _ _ _ hl]
    | some q =>
      obtain ⟨done, t2, w3⟩ := q
      rw [Run.bind_some _ _ _ _ _ _ hl]
      cases done
      · simp [Run.pure_apply]
        rintro rfl; omega
      · by_cases hs : sendStop % 256 = 0
        · simp [hs, Run.pure_apply, Run.bind_apply, Run.bind]
          rintro rfl; omega
        · simp only [Bool.not_true, Bool.false_eq_true, if_false, hs, ne_eq, not_false_eq_true,
            if_true]
          intro h
          simp only [Option.map_map, Option.map_eq_some'] at h
          obtain ⟨a, ha, h⟩ := h
          obtain ⟨b, _, h⟩ := h
          obtain ⟨x, tx, wx⟩ := a
          obtain ⟨_, _, _, _, _, hp, _⟩ := (Run.bind_eq_some _ _ _ _ _ _).1 ha
          simp only [Run.bind_apply, Run.bind, Run.pure_apply, Option.some.injEq,
            Prod.mk.injEq] at hp
          obtain ⟨hx, _⟩ := hp
          subst hx
          simp

/-- After a start that succeeded, `twi_readFrom` returns 2, with the buffer as it
was, exactly when the ninth clock cycle of the address byte read SDA low. -/
theorem twi_readFrom_address_phase (hw : Gpio σ) (c : Twi)
    (F_CPU fuel address len sendStop : Nat)
    (buf : Nat → Nat) (w w0 w1 : σ) (t0 t1 : List Ev) (level : Bool)
    (hstart : twi_write_start hw c w = some (true, t0, w0))
    (haddr : twi_write_byte hw c F_CPU fuel ((((address % 256) <<< 1) ||| 1) &&& 0xFF) w0
      = some (level, t1, w1)) :
    (level = false →
        twi_readFrom hw c F_CPU fuel address buf len sendStop w
          = some ((2, buf), t0 ++ t1, w1))
    ∧ (level = true → ∀ st out tr w2,
        twi_readFrom hw c F_CPU fuel address buf len sendStop w = some ((st, out), tr, w2) →
          st = 0) := by
  unfold twi_readFrom
  rw [Run.bind_some _ _ _ _ _ _ hstart]
  simp only [Bool.not_true, Bool.false_eq_true, if_false]
  rw [Run.bind_some _ _ _ _ _ _ haddr]
  constructor
  · rintro rfl
    simp [Run.pure_apply]
  · rintro rfl st out tr w2
    simp only [Bool.not_true, Bool.false_eq_true, if_false]
    cases hl : twi_readFrom.loop hw c F_CPU fuel (len % 4294967296) 0 buf w1 with
    | none => simp [Run.bind_none _ _ _ hl]
    | some q =>
      obtain ⟨o, t2, w3⟩ := q
      rw [Run.bind_some _ _ _ _ _ _ hl]
      by_cases hs : sendStop % 256 = 0
      · simp [hs, Run.pure_apply, Run.bind_apply, Run.bind]
        rintro rfl _ _ _; rfl
      · simp only [hs, ne_eq, not_false_eq_true, if_true]
        intro h
        simp only [Option.map_map, Option.map_eq_some'] at h
        obtain ⟨a, ha, h⟩ := h
        obtain ⟨x, tx, wx⟩ := a
        obtain ⟨_, _, _, _, _, hq, _⟩ := (Run.bind_eq_some _ _ _ _ _ _).1 ha
        obtain ⟨_, _, _, _, _, hp, _⟩ := (Run.bind_eq_some _ _ _ _ _ _).1 hq
        simp only [Run.pure_apply, Option.some.injEq, Prod.mk.injEq] at hp
        obtain ⟨hx, _⟩ := hp
        subst hx
        simp at h
        exact h.1.1.symm

end Bytes

/-! ## Shape of the traces of the bit primitives -/

section Shapes

variable {σ : Type}

/-- The clock-stretch loop only reads SCL. -/
theorem clockStretch_polls (hw : Gpio σ) (c : Twi) (F_CPU : Nat) (fuel : Nat) :
    ∀ (i : Nat) (w w1 : σ) (polls : List Ev),
      clockStretch hw c F_CPU fuel i w = some ((), polls, w1) → sclReads c polls := by
  induction fuel with
  | zero => intro i w w1 polls h; cases h
  | succ fuel ih =>
    intro i w w1 polls h
    rw [clockStretch_succ] at h
    split_ifs at h with hc
    · cases hr : clockStretch hw c F_CPU fuel ((i + 1) % 256) (hw.tick w) with
      | none => rw [hr] at h; cases h
      | some r =>
        obtain ⟨u, t, w2⟩ := r
        rw [hr] at h
        simp only [Option.map_some', Option.some.injEq, Prod.mk.injEq] at h
        obtain ⟨_, ht, _⟩ := h
        subst ht
        intro e he
        rcases List.mem_cons.1 he with rfl | he
        · exact ⟨false, rfl⟩
        · exact ih _ _ _ _ hr e he
    · simp only [Option.some.injEq, Prod.mk.injEq] at h
      obtain ⟨_, ht, _⟩ := h
      subst ht
      intro e he
      simp only [List.mem_singleton] at he
      exact ⟨_, he⟩

/-- A `twi_write_bit` that returns has returned `true` and performed the write
cycle of its bit. -/
theorem twi_write_bit_some (hw : Gpio σ) (c : Twi) (F_CPU fuel : Nat) (bit r : Bool)
    (w w1 : σ) (tr : List Ev) (h : twi_write_bit hw c F_CPU fuel bit w = some (r, tr, w1)) :
    r = true ∧ ∃ polls, sclReads c polls ∧ tr = writeBitSeq c bit polls := by
  rw [twi_write_bit_eq] at h
  simp only [Option.map_eq_some'] at h
  obtain ⟨⟨u, polls, w2⟩, hc, h⟩ := h
  simp only [Prod.mk.injEq] at h
  obtain ⟨hr, ht, _⟩ := h
  exact ⟨hr.symm, polls, clockStretch_polls hw c F_CPU fuel _ _ _ _ hc, ht.symm⟩

/-- A `twi_read_bit` that returns has performed the read cycle that sampled the bit
it returns. -/
theorem twi_read_bit_some (hw : Gpio σ) (c : Twi) (F_CPU fuel : Nat) (b : Bool)
    (w w1 : σ) (tr : List Ev) (h : twi_read_bit hw c F_CPU fuel w = some (b, tr, w1)) :
    ∃ polls, sclReads c polls ∧ tr = readBitSeq c polls b := by
  rw [twi_read_bit_eq] at h
  simp only [Option.map_eq_some'] at h
  obtain ⟨⟨u, polls, w2⟩, hc, h⟩ := h
  simp only [Prod.mk.injEq] at h
  obtain ⟨hr, ht, _⟩ := h
  subst hr
  exact ⟨polls, clockStretch_polls hw c F_CPU fuel _ _ _ _ hc, ht.symm⟩

/-- A `twi_write_stop` that returns has returned `true` and performed the stop
sequence. -/
theorem twi_write_stop_some (hw : Gpio σ) (c : Twi) (F_CPU fuel : Nat) (r : Bool)
    (w w1 : σ) (tr : List Ev) (h : twi_write_stop hw c F_CPU fuel w = some (r, tr, w1)) :
    r = true ∧ ∃ polls, sclReads c polls ∧ tr = stopSeq c polls := by
  rw [twi_write_stop_eq] at h
  simp only [Option.map_eq_some'] at h
  obtain ⟨⟨u, polls, w2⟩, hc, h⟩ := h
  simp only [Prod.mk.injEq] at h
  obtain ⟨hr, ht, _⟩ := h
  exact ⟨hr.symm, polls, clockStretch_polls hw c F_CPU fuel _ _ _ _ hc, ht.symm⟩

end Shapes

/-! ## Runs that return -/

section Totality

variable {σ : Type}

theorem Returns.pure {α : Type} (a : α) : Returns (Pure.pure a : Run σ α) :=
  fun w => ⟨a, [], w, rfl⟩

theorem Returns.bind {α β : Type} {m : Run σ α} {f : α → Run σ β}
    (hm : Returns m) (hf : ∀ a, Returns (f a)) : Returns (m >>= f) := by
  intro w
  obtain ⟨a, t1, w1, h1⟩ := hm w
  obtain ⟨b, t2, w2, h2⟩ := hf a w1
  exact ⟨b, t1 ++ t2, w2, (Run.bind_eq_some m f w b _ w2).2 ⟨a, t1, w1, t2, h1, h2, rfl⟩⟩

theorem Returns.ite {α : Type} {p : Prop} [Decidable p] {a b : Run σ α}
    (ha : Returns a) (hb : Returns b) : Returns (if p then a else b) := by
  split_ifs
  · exact ha
  · exact hb

theorem Returns.SDA_LOW (hw : Gpio σ) (c : Twi) : Returns (SDA_LOW hw c) :=
  fun _ => ⟨_, _, _, rfl⟩

theorem Returns.SDA_HIGH (hw : Gpio σ) (c : Twi) : Returns (SDA_HIGH hw c) :=
  fun _ => ⟨_, _, _, rfl⟩

theorem Returns.SDA_READ (hw : Gpio σ) (c : Twi) : Returns (SDA_READ hw c) :=
  fun _ => ⟨_, _, _, rfl⟩

theorem Returns.SCL_LOW (hw : Gpio σ) (c : Twi) : Returns (SCL_LOW hw c) :=
  fun _ => ⟨_, _, _, rfl⟩

theorem Returns.SCL_HIGH (hw : Gpio σ) (c : Twi) : Returns (SCL_HIGH hw c) :=
  fun _ => ⟨_, _, _, rfl⟩

theorem Returns.twi_delay (hw : Gpio σ) (v : Nat) : Returns (twi_delay hw v) :=
  fun _ => ⟨_, _, _, rfl⟩

/-- The start condition always returns. -/
theorem Returns.twi_write_start (hw : Gpio σ) (c : Twi) : Returns (twi_write_start hw c) := by
  unfold Si2c.twi_write_start
  refine Returns.bind (Returns.SCL_HIGH hw c) fun _ => ?_
  refine Returns.bind (Returns.SDA_HIGH hw c) fun _ => ?_
  refine Returns.bind (Returns.SDA_READ hw c) fun sda => ?_
  split_ifs
  · exact Returns.pure _
  · refine Returns.bind (Returns.twi_delay hw _) fun _ => ?_
    refine Returns.bind (Returns.SDA_LOW hw c) fun _ => ?_
    exact Returns.bind (Returns.twi_delay hw _) fun _ => Returns.pure _

/-- In the 80 MHz build the clock-stretch loop returns, given a budget of 201
iterations. -/
theorem Returns.clockStretch_80 (hw : Gpio σ) (c : Twi) (fuel : Nat) (hfuel : 201 ≤ fuel) :
    Returns (clockStretch hw c 80000000 fuel 0) := by
  intro w
  obtain ⟨polls, w1, h1, _, _⟩ :=
    clockStretch_exits_80 hw c 200 0 fuel w (by omega) rfl (by omega)
  exact ⟨(), polls, w1, h1⟩

variable (hw : Gpio σ) (c : Twi) (F_CPU fuel : Nat)

theorem Returns.twi_write_stop (hex : Returns (clockStretch hw c F_CPU fuel 0)) :
    Returns (twi_write_stop hw c F_CPU fuel) := by
  unfold Si2c.twi_write_stop
  refine Returns.bind (Returns.SCL_LOW hw c) fun _ => ?_
  refine Returns.bind (Returns.SDA_LOW hw c) fun _ => ?_
  refine Returns.bind (Returns.twi_delay hw _) fun _ => ?_
  refine Returns.bind (Returns.SCL_HIGH hw c) fun _ => ?_
  refine Returns.bind hex fun _ => ?_
  refine Returns.bind (Returns.twi_delay hw _) fun _ => ?_
  refine Returns.bind (Returns.SDA_HIGH hw c) fun _ => ?_
  exact Returns.bind (Returns.twi_delay hw _) fun _ => Returns.pure _

theorem Returns.twi_write_bit (hex : Returns (clockStretch hw c F_CPU fuel 0)) (bit : Bool) :
    Returns (twi_write_bit hw c F_CPU fuel bit) := by
  unfold Si2c.twi_write_bit
  refine Returns.bind (Returns.SCL_LOW hw c) fun _ => ?_
  have tail : Returns (do
      Si2c.twi_delay hw (c.twi_dcount + 1)
      Si2c.SCL_HIGH hw c
      clockStretch hw c F_CPU fuel 0
      Si2c.twi_delay hw (c.twi_dcount + 1)
      (Pure.pure true : Run σ Bool)) := by
    refine Returns.bind (Returns.twi_delay hw _) fun _ => ?_
    refine Returns.bind (Returns.SCL_HIGH hw c) fun _ => ?_
    refine Returns.bind hex fun _ => ?_
    exact Returns.bind (Returns.twi_delay hw _) fun _ => Returns.pure _
  dsimp only
  split_ifs
  · exact Returns.bind (Returns.SDA_HIGH hw c) fun _ => tail
  · exact Returns.bind (Returns.SDA_LOW hw c) fun _ => tail

theorem Returns.twi_read_bit (hex : Returns (clockStretch hw c F_CPU fuel 0)) :
    Returns (twi_read_bit hw c F_CPU fuel) := by
  unfold Si2c.twi_read_bit
  refine Returns.bind (Returns.SCL_LOW hw c) fun _ => ?_
  refine Returns.bind (Returns.SDA_HIGH hw c) fun _ => ?_
  refine Returns.bind (Returns.twi_delay hw _) fun _ => ?_
  refine Returns.bind (Returns.SCL_HIGH hw c) fun _ => ?_
  refine Returns.bind hex fun _ => ?_
  refine Returns.bind (Returns.SDA_READ hw c) fun _ => ?_
  exact Returns.bind (Returns.twi_delay hw _) fun _ => Returns.pure _

theorem Returns.twi_write_byte_loop (hex : Returns (clockStretch hw c F_CPU fuel 0)) (n : Nat) :
    ∀ byte, Returns (twi_write_byte.loop hw c F_CPU fuel n byte) := by
  induction n with
  | zero => intro byte; exact Returns.pure _
  | succ n ih =>
    intro byte
    rw [twi_write_byte.loop]
    exact Returns.bind (Returns.twi_write_bit hw c F_CPU fuel hex _) fun _ => ih _

theorem Returns.twi_write_byte (hex : Returns (clockStretch hw c F_CPU fuel 0)) (byte : Nat) :
    Returns (twi_write_byte hw c F_CPU fuel byte) := by
  unfold Si2c.twi_write_byte
  exact Returns.bind (Returns.twi_write_byte_loop hw c F_CPU fuel hex 8 _) fun _ =>
    Returns.twi_read_bit hw c F_CPU fuel hex

theorem Returns.twi_read_byte_loop (hex : Returns (clockStretch hw c F_CPU fuel 0)) (n : Nat) :
    ∀ byte, Returns (twi_read_byte.loop hw c F_CPU fuel n byte) := by
  induction n with
  | zero => intro byte; exact Returns.pure _
  | succ n ih =>
    intro byte
    rw [twi_read_byte.loop]
    exact Returns.bind (Returns.twi_read_bit hw c F_CPU fuel hex) fun _ => ih _

theorem Returns.twi_read_byte (hex : Returns (clockStretch hw c F_CPU fuel 0)) (nack : Bool) :
    Returns (twi_read_byte hw c F_CPU fuel nack) := by
  unfold Si2c.twi_read_byte
  refine Returns.bind (Returns.twi_read_byte_loop hw c F_CPU fuel hex 8 _) fun _ => ?_
  exact Returns.bind (Returns.twi_write_bit hw c F_CPU fuel hex _) fun _ => Returns.pure _

theorem Returns.twi_writeTo_loop (hex : Returns (clockStretch hw c F_CPU fuel 0))
    (buf : Nat → Nat) (n : Nat) : ∀ i, Returns (twi_writeTo.loop hw c F_CPU fuel buf n i) := by
  induction n with
  | zero => intro i; exact Returns.pure _
  | succ n ih =>
    intro i
    rw [twi_writeTo.loop]
    refine Returns.bind (Returns.twi_write_byte hw c F_CPU fuel hex _) fun r => ?_
    split_ifs
    · exact Returns.pure _
    · exact ih _

theorem Returns.twi_readFrom_loop (hex : Returns (clockStretch hw c F_CPU fuel 0)) (n : Nat) :
    ∀ i buf, Returns (twi_readFrom.loop hw c F_CPU fuel n i buf) := by
  induction n with
  | zero => intro i buf; exact Returns.pure _
  | succ n ih =>
    intro i buf
    rw [twi_readFrom.loop]
    exact Returns.bind (Returns.twi_read_byte hw c F_CPU fuel hex _) fun _ => ih _ _

/-- One round of the recovery loop of `twi_readFrom`. -/
theorem recover_succ (i : Nat) (w : σ) :
    twi_readFrom.recover hw c (fuel + 1) i w =
      if hw.level w c.twi_sda = false ∧ i < 10 then
        (twi_readFrom.recover hw c fuel ((i + 1) % 4294967296)
          (hw.tick^[c.twi_dcount % 256] (hw.disable c.twi_scl
            (hw.tick^[c.twi_dcount % 256] (hw.enable c.twi_scl (hw.tick w)))))).map fun r =>
          ((), pulseSeq c ++ r.2.1, r.2.2)
      else some ((), [Ev.read c.twi_sda (hw.level w c.twi_sda)], hw.tick w) := by
  rw [twi_readFrom.recover]
  simp only [Run.bind_apply, Run.bind, Si2c.SDA_READ]
  by_cases hl : hw.level w c.twi_sda = false
  · by_cases hi : i < 10
    · simp only [hl, hi, and_self, if_true, beq_self_eq_true, Si2c.SCL_LOW, Si2c.SCL_HIGH,
        Si2c.twi_delay, Run.bind_apply, Run.bind]
      cases twi_readFrom.recover hw c fuel ((i + 1) % 4294967296)
          (hw.tick^[c.twi_dcount % 256] (hw.disable c.twi_scl
            (hw.tick^[c.twi_dcount % 256] (hw.enable c.twi_scl (hw.tick w))))) <;>
        simp [pulseSeq]
    · simp [hl, hi, Run.pure_apply]
  · simp [hl, Run.pure_apply]

/-- The recovery loop returns within 11 reads of SDA, whatever SDA does: it makes
`n` pulses, one after each low read, and stops at the first high read or after the
tenth pulse. -/
theorem recover_spec (k : Nat) :
    ∀ (i fuel : Nat) (w : σ), i ≤ 10 → 10 - i = k → 11 - i ≤ fuel →
      ∃ n l w1, twi_readFrom.recover hw c fuel i w
          = some ((), (List.replicate n (pulseSeq c)).flatten ++ [Ev.read c.twi_sda l], w1)
        ∧ n ≤ 10 - i ∧ (l = false → n = 10 - i) := by
  induction k with
  | zero =>
    intro i fuel w hi hk hfuel
    have hi10 : i = 10 := by omega
    subst hi10
    obtain ⟨f, rfl⟩ : ∃ f, fuel = f + 1 := ⟨fuel - 1, by omega⟩
    rw [recover_succ]
    simp only [lt_irrefl, and_false, if_false]
    exact ⟨0, _, _, rfl, by omega, fun _ => rfl⟩
  | succ k ih =>
    intro i fuel w hi hk hfuel
    obtain ⟨f, rfl⟩ : ∃ f, fuel = f + 1 := ⟨fuel - 1, by omega⟩
    rw [recover_succ]
    by_cases hl : hw.level w c.twi_sda = false
    · have hlt : i < 10 := by omega
      simp only [hl, hlt, and_self, if_true]
      have hmod : (i + 1) % 4294967296 = i + 1 := Nat.mod_eq_of_lt (by omega)
      rw [hmod]
      obtain ⟨n, l, w1, h1, h2, h3⟩ := ih (i + 1) f
        (hw.tick^[c.twi_dcount % 256] (hw.disable c.twi_scl
            (hw.tick^[c.twi_dcount % 256] (hw.enable c.twi_scl (hw.tick w)))))
        (by omega) (by omega) (by omega)
      refine ⟨n + 1, l, w1, ?_, by omega, fun hl => by have := h3 hl; omega⟩
      rw [h1]
      simp [List.replicate_succ]
    · have ht : hw.level w c.twi_sda = true := by simpa using hl
      simp only [ht, Bool.true_eq_false, false_and, if_false]
      exact ⟨0, true, _, rfl, by omega, fun h => by cases h⟩

theorem Returns.recover (hfuel : 11 ≤ fuel) : Returns (twi_readFrom.recover hw c fuel 0) := by
  intro w
  obtain ⟨n, l, w1, h, _, _⟩ := recover_spec hw c 10 0 fuel w (by omega) rfl (by omega)
  exact ⟨(), _, w1, h⟩

/-- `twi_writeTo` returns whenever the clock-stretch loop does. -/
theorem Returns.twi_writeTo (hex : Returns (clockStretch hw c F_CPU fuel 0))
    (address len sendStop : Nat) (buf : Nat → Nat) :
    Returns (twi_writeTo hw c F_CPU fuel address buf len sendStop) := by
  unfold Si2c.twi_writeTo
  dsimp only
  refine Returns.bind (Returns.twi_write_start hw c) fun started => ?_
  refine Returns.ite (Returns.pure _) ?_
  refine Returns.bind (Returns.twi_write_byte hw c F_CPU fuel hex _) fun a => ?_
  refine Returns.ite (Returns.pure _) ?_
  refine Returns.bind (Returns.twi_writeTo_loop hw c F_CPU fuel hex buf _ _) fun done => ?_
  refine Returns.ite (Returns.pure _) ?_
  refine Returns.ite ?_ ?_
  · refine Returns.bind (Returns.twi_write_stop hw c F_CPU fuel hex) fun _ => ?_
    exact Returns.bind (Returns.pure _) fun _ => Returns.pure _
  · exact Returns.bind (Returns.pure _) fun _ => Returns.pure _

/-- `twi_readFrom` returns whenever the clock-stretch loop does, given a budget of
11 iterations for the recovery loop. -/
theorem Returns.twi_readFrom (hex : Returns (clockStretch hw c F_CPU fuel 0))
    (hfuel : 11 ≤ fuel) (address len sendStop : Nat) (buf : Nat → Nat) :
    Returns (twi_readFrom hw c F_CPU fuel address buf len sendStop) := by
  unfold Si2c.twi_readFrom
  dsimp only
  refine Returns.bind (Returns.twi_write_start hw c) fun started => ?_
  refine Returns.ite (Returns.pure _) ?_
  refine Returns.bind (Returns.twi_write_byte hw c F_CPU fuel hex _) fun a => ?_
  refine Returns.ite (Returns.pure _) ?_
  refine Returns.bind (Returns.twi_readFrom_loop hw c F_CPU fuel hex _ _ _) fun out => ?_
  refine Returns.ite ?_ ?_
  · refine Returns.bind (Returns.twi_write_stop hw c F_CPU fuel hex) fun _ => ?_
    exact Returns.bind (Returns.recover hw c fuel hfuel) fun _ => Returns.pure _
  · exact Returns.bind (Returns.pure _) fun _ => Returns.pure _

end Totality

/-! ## Laws of sequencing -/

section Laws

variable {σ : Type}

theorem Run.pure_bind {α β : Type} (a : α) (f : α → Run σ β) :
    (Pure.pure a >>= f) = f a := by
  funext w
  show Run.bind (Run.pure a) f w = f a w
  unfold Run.bind Run.pure
  cases hf : f a w with
  | none => simp [hf]
  | some r => obtain ⟨b, t, w1⟩ := r; simp [hf]

theorem Run.bind_assoc {α β γ : Type} (m : Run σ α) (f : α → Run σ β) (g : β → Run σ γ) :
    (m >>= f >>= g) = (m >>= fun a => f a >>= g) := by
  funext w
  show Run.bind (Run.bind m f) g w = Run.bind m (fun a => Run.bind (f a) g) w
  unfold Run.bind
  cases hm : m w with
  | none => simp
  | some r =>
    obtain ⟨a, t1, w1⟩ := r
    simp only
    cases hf : f a w1 with
    | none => simp
    | some q =>
      obtain ⟨b, t2, w2⟩ := q
      simp only
      cases hg : g b w2 with
      | none => simp
      | some s => obtain ⟨d, t3, w3⟩ := s; simp [List.append_assoc]

end Laws

/-! ## The byte primitives as sequences of bit cycles -/

section ByteShapes

variable {σ : Type} (hw : Gpio σ) (c : Twi) (F_CPU fuel : Nat)

/-- The loop of `twi_write_byte` calls `twi_write_bit` once per shifted-out bit. -/
theorem twi_write_byte_loop_eq (n : Nat) : ∀ byte,
    twi_write_byte.loop hw c F_CPU fuel n byte
      = Run.forEach (twi_write_bit hw c F_CPU fuel) (shiftedBits n byte) := by
  induction n with
  | zero => intro byte; rfl
  | succ n ih =>
    intro byte
    rw [twi_write_byte.loop, shiftedBits, Run.forEach, ih]

/-- Masking with `0x80` and shifting left eight times reads the byte off most
significant bit first. -/
theorem shiftedBits_eq_bitsMSB (x : Nat) : shiftedBits 8 (x % 256) = bitsMSB x := by
  have h1 : ∀ y < 256, shiftedBits 8 y = bitsMSB y := by
    intro y hy
    interval_cases y <;> rfl
  rw [h1 (x % 256) (Nat.mod_lt _ (by decide))]
  have h256 : (256 : Nat) = 2 ^ 8 := by norm_num
  unfold bitsMSB
  apply List.map_congr_left
  intro j hj
  rw [h256, Nat.testBit_mod_two_pow]
  have : 7 - j < 8 := by omega
  simp [this]

/-- `twi_write_byte(x)` is eight `twi_write_bit` calls, carrying the bits of `x`
most significant first, followed by one `twi_read_bit` call whose value it returns. -/
theorem twi_write_byte_eq (x : Nat) :
    twi_write_byte hw c F_CPU fuel x
      = (Run.forEach (twi_write_bit hw c F_CPU fuel) (bitsMSB x) >>= fun _ =>
          twi_read_bit hw c F_CPU fuel) := by
  unfold twi_write_byte
  rw [twi_write_byte_loop_eq, shiftedBits_eq_bitsMSB]

/-- The trace of a sequence of `twi_write_bit` calls is the sequence of their write
cycles. -/
theorem forEach_write_bit_some (bits : List Bool) : ∀ (w w1 : σ) (tr : List Ev),
    Run.forEach (twi_write_bit hw c F_CPU fuel) bits w = some ((), tr, w1) →
    ∃ ps : List (List Ev), ps.length = bits.length ∧ (∀ p ∈ ps, sclReads c p)
      ∧ tr = (List.zipWith (writeBitSeq c) bits ps).flatten := by
  induction bits with
  | nil =>
    intro w w1 tr h
    rw [Run.forEach, Run.pure_apply] at h
    simp only [Option.some.injEq, Prod.mk.injEq] at h
    exact ⟨[], rfl, by simp, by simp [h.2.1.symm]⟩
  | cons b bs ih =>
    intro w w1 tr h
    rw [Run.forEach] at h
    obtain ⟨r, t1, w2, t2, h1, h2, rfl⟩ := (Run.bind_eq_some _ _ _ _ _ _).1 h
    obtain ⟨_, p, hp, rfl⟩ := twi_write_bit_some hw c F_CPU fuel b r w w2 t1 h1
    obtain ⟨ps, hlen, hps, rfl⟩ := ih w2 w1 t2 h2
    refine ⟨p :: ps, by simp [hlen], ?_, by simp⟩
    intro q hq
    rcases List.mem_cons.1 hq with rfl | hq
    · exact hp
    · exact hps q hq

/-- A `twi_write_byte` that returns has performed the eight write cycles of its
byte, most significant bit first, and the read cycle that sampled the value it
returns. -/
theorem twi_write_byte_some (x : Nat) (r : Bool) (w w1 : σ) (tr : List Ev)
    (h : twi_write_byte hw c F_CPU fuel x w = some (r, tr, w1)) :
    ∃ (ps : List (List Ev)) (p9 : List Ev), ps.length = 8 ∧ (∀ p ∈ ps, sclReads c p)
      ∧ sclReads c p9 ∧ tr = writeByteSeq c x ps p9 r := by
  rw [twi_write_byte_eq] at h
  obtain ⟨_, t1, w2, t2, h1, h2, rfl⟩ := (Run.bind_eq_some _ _ _ _ _ _).1 h
  obtain ⟨ps, hlen, hps, rfl⟩ := forEach_write_bit_some hw c F_CPU fuel _ w w2 t1 h1
  obtain ⟨p9, hp9, rfl⟩ := twi_read_bit_some hw c F_CPU fuel r w2 w1 t2 h2
  exact ⟨ps, p9, by simpa [bitsMSB] using hlen, hps, hp9, rfl⟩

/-- The loop of `twi_read_byte` calls `twi_read_bit` once per round and shifts each
sampled bit in from the right. -/
theorem twi_read_byte_loop_eq (n : Nat) : ∀ acc,
    twi_read_byte.loop hw c F_CPU fuel n acc
      = (Run.times (twi_read_bit hw c F_CPU fuel) n >>= fun ss =>
          Pure.pure (ss.foldl (fun a s => ((a <<< 1) ||| s.toNat) % 256) acc)) := by
  induction n with
  | zero =>
    intro acc
    rw [twi_read_byte.loop, Run.times, Run.pure_bind]
    rfl
  | succ n ih =>
    intro acc
    rw [twi_read_byte.loop, Run.times, Run.bind_assoc]
    congr 1
    funext bit
    rw [ih, Run.bind_assoc]
    congr 1

/-- Eight bits shifted in from the right make the number they spell, most
significant bit first. -/
theorem foldl_shift_eq_assemble (ss : List Bool) (h : ss.length = 8) :
    ss.foldl (fun a s => ((a <<< 1) ||| s.toNat) % 256) 0 = assemble ss := by
  have key : ∀ s0 s1 s2 s3 s4 s5 s6 s7 : Bool,
      [s0, s1, s2, s3, s4, s5, s6, s7].foldl (fun a s => ((a <<< 1) ||| s.toNat) % 256) 0
        = assemble [s0, s1, s2, s3, s4, s5, s6, s7] := by decide
  match ss, h with
  | [s0, s1, s2, s3, s4, s5, s6, s7], _ => exact key s0 s1 s2 s3 s4 s5 s6 s7

/-- The trace of a sequence of `twi_read_bit` calls is the sequence of their read
cycles, each showing the bit it sampled. -/
theorem times_read_bit_some (n : Nat) : ∀ (w w1 : σ) (ss : List Bool) (tr : List Ev),
    Run.times (twi_read_bit hw c F_CPU fuel) n w = some (ss, tr, w1) →
    ss.length = n ∧ ∃ ps : List (List Ev), ps.length = n ∧ (∀ p ∈ ps, sclReads c p)
      ∧ tr = (List.zipWith (readBitSeq c) ps ss).flatten := by
  induction n with
  | zero =>
    intro w w1 ss tr h
    rw [Run.times, Run.pure_apply] at h
    simp only [Option.some.injEq, Prod.mk.injEq] at h
    obtain ⟨rfl, rfl, _⟩ := h
    exact ⟨rfl, [], rfl, by simp, by simp⟩
  | succ n ih =>
    intro w w1 ss tr h
    rw [Run.times] at h
    obtain ⟨s, t1, w2, t2, h1, h2, rfl⟩ := (Run.bind_eq_some _ _ _ _ _ _).1 h
    obtain ⟨rest, t3, w3, t4, h3, h4, rfl⟩ := (Run.bind_eq_some _ _ _ _ _ _).1 h2
    rw [Run.pure_apply] at h4
    simp only [Option.some.injEq, Prod.mk.injEq] at h4
    obtain ⟨rfl, rfl, rfl⟩ := h4
    obtain ⟨p, hp, rfl⟩ := twi_read_bit_some hw c F_CPU fuel s w w2 t1 h1
    obtain ⟨hlen, ps, hpl, hps, rfl⟩ := ih w2 w3 rest t3 h3
    refine ⟨by simp [hlen], p :: ps, by simp [hpl], ?_, by simp⟩
    intro q hq
    rcases List.mem_cons.1 hq with rfl | hq
    · exact hp
    · exact hps q hq

/-- A `twi_read_byte` that returns has performed eight read cycles and the write
cycle of `nack`, and returns the number the eight sampled bits spell. -/
theorem twi_read_byte_some (nack : Bool) (b : Nat) (w w1 : σ) (tr : List Ev)
    (h : twi_read_byte hw c F_CPU fuel nack w = some (b, tr, w1)) :
    ∃ (ss : List Bool) (ps : List (List Ev)) (p9 : List Ev),
      ss.length = 8 ∧ ps.length = 8 ∧ (∀ p ∈ ps, sclReads c p) ∧ sclReads c p9
      ∧ tr = readByteSeq c ss ps nack p9 ∧ b = assemble ss := by
  unfold twi_read_byte at h
  rw [twi_read_byte_loop_eq] at h
  obtain ⟨b1, t1, w2, t2, h1, h2, rfl⟩ := (Run.bind_eq_some _ _ _ _ _ _).1 h
  obtain ⟨ss, t3, w3, t4, h3, h4, rfl⟩ := (Run.bind_eq_some _ _ _ _ _ _).1 h1
  rw [Run.pure_apply] at h4
  simp only [Option.some.injEq, Prod.mk.injEq] at h4
  obtain ⟨rfl, rfl, rfl⟩ := h4
  obtain ⟨r, t5, w5, t6, h5, h6, rfl⟩ := (Run.bind_eq_some _ _ _ _ _ _).1 h2
  rw [Run.pure_apply] at h6
  simp only [Option.some.injEq, Prod.mk.injEq] at h6
  obtain ⟨rfl, rfl, rfl⟩ := h6
  obtain ⟨hlen, ps, hpl, hps, rfl⟩ := times_read_bit_some hw c F_CPU fuel 8 w w3 ss t3 h3
  obtain ⟨_, p9, hp9, rfl⟩ := twi_write_bit_some hw c F_CPU fuel nack r w3 w5 t5 h5
  exact ⟨ss, ps, p9, hlen, hpl, hps, hp9, by simp [readByteSeq],
    foldl_shift_eq_assemble ss hlen⟩

end ByteShapes

/-! ## The master's drive of the lines along a trace -/

section Scans

variable (c : Twi)

theorem pinsAfter_append (p : Pins) (t1 t2 : List Ev) :
    pinsAfter c p (t1 ++ t2) = pinsAfter c (pinsAfter c p t1) t2 := by
  simp [pinsAfter, List.foldl_append]

theorem releasedSdaDrives_append (t1 t2 : List Ev) : ∀ p : Pins,
    releasedSdaDrives c p (t1 ++ t2)
      = releasedSdaDrives c p t1 ++ releasedSdaDrives c (pinsAfter c p t1) t2 := by
  induction t1 with
  | nil => intro p; rfl
  | cons e t1 ih =>
    intro p
    simp [releasedSdaDrives, ih, pinsAfter]

theorem stopCount_append (t1 t2 : List Ev) : ∀ p : Pins,
    stopCount c p (t1 ++ t2) = stopCount c p t1 + stopCount c (pinsAfter c p t1) t2 := by
  induction t1 with
  | nil => intro p; simp [stopCount, pinsAfter]
  | cons e t1 ih =>
    intro p
    simp [stopCount, ih, pinsAfter, Nat.add_assoc]

/-- Reads of SCL change nothing in the master's drive and are no SDA actions. -/
theorem scan_polls (polls : List Ev) (h : sclReads c polls) : ∀ p : Pins,
    pinsAfter c p polls = p ∧ releasedSdaDrives c p polls = [] ∧ stopCount c p polls = 0 := by
  induction polls with
  | nil => intro p; exact ⟨rfl, rfl, rfl⟩
  | cons e polls ih =>
    intro p
    obtain ⟨l, rfl⟩ := h e (List.mem_cons_self _ _)
    have hrest : sclReads c polls := fun e he => h e (List.mem_cons_of_mem _ he)
    have hstep : Pins.step c p (Ev.read c.twi_scl l) = p := by simp [Pins.step]
    obtain ⟨h1, h2, h3⟩ := ih hrest p
    refine ⟨?_, ?_, ?_⟩
    · simp only [pinsAfter, List.foldl_cons, hstep]
      exact h1
    · simp only [releasedSdaDrives, hstep, h2]
      simp
    · simp only [stopCount, hstep, h3]
      simp

variable (hne : c.twi_sda ≠ c.twi_scl)
include hne

/-- A write cycle holds no SDA action while SCL is released and no stop condition,
whatever the master's drive before it; it leaves SCL released. -/
theorem scan_writeBitSeq (bit : Bool) (polls : List Ev) (h : sclReads c polls) (p : Pins) :
    pinsAfter c p (writeBitSeq c bit polls) = { sclLow := false, sdaLow := !bit }
    ∧ releasedSdaDrives c p (writeBitSeq c bit polls) = []
    ∧ stopCount c p (writeBitSeq c bit polls) = 0 := by
  have hne2 : c.twi_scl ≠ c.twi_sda := fun h => hne h.symm
  unfold writeBitSeq
  refine ⟨?_, ?_, ?_⟩
  · rw [pinsAfter_append, pinsAfter_append, (scan_polls c polls h _).1]
    cases bit <;> simp [pinsAfter, Pins.step, hne, hne2]
  · rw [releasedSdaDrives_append, releasedSdaDrives_append, (scan_polls c polls h _).2.1]
    cases bit <;> simp [releasedSdaDrives, pinsAfter, Pins.step, hne, hne2]
  · rw [stopCount_append, stopCount_append, (scan_polls c polls h _).2.2]
    cases bit <;> simp [stopCount, pinsAfter, Pins.step, hne, hne2]

/-- A read cycle holds no SDA action while SCL is released and no stop condition,
whatever the master's drive before it; it leaves both lines released. -/
theorem scan_readBitSeq (level : Bool) (polls : List Ev) (h : sclReads c polls) (p : Pins) :
    pinsAfter c p (readBitSeq c polls level) = { sclLow := false, sdaLow := false }
    ∧ releasedSdaDrives c p (readBitSeq c polls level) = []
    ∧ stopCount c p (readBitSeq c polls level) = 0 := by
  have hne2 : c.twi_scl ≠ c.twi_sda := fun h => hne h.symm
  unfold readBitSeq
  refine ⟨?_, ?_, ?_⟩
  · rw [pinsAfter_append, pinsAfter_append, (scan_polls c polls h _).1]
    simp [pinsAfter, Pins.step, hne, hne2]
  · rw [releasedSdaDrives_append, releasedSdaDrives_append, (scan_polls c polls h _).2.1]
    simp [releasedSdaDrives, pinsAfter, Pins.step, hne, hne2]
  · rw [stopCount_append, stopCount_append, (scan_polls c polls h _).2.2]
    simp [stopCount, pinsAfter, Pins.step, hne, hne2]

/-- The stop sequence releases SDA once while SCL is released, and that is one stop
condition, whatever the master's drive before it. -/
theorem scan_stopSeq (polls : List Ev) (h : sclReads c polls) (p : Pins) :
    pinsAfter c p (stopSeq c polls) = { sclLow := false, sdaLow := false }
    ∧ releasedSdaDrives c p (stopSeq c polls) = [Ev.high c.twi_sda]
    ∧ stopCount c p (stopSeq c polls) = 1 := by
  have hne2 : c.twi_scl ≠ c.twi_sda := fun h => hne h.symm
  have hf : ∀ q, List.foldl (Pins.step c) q polls = q := fun q => (scan_polls c polls h q).1
  unfold stopSeq
  refine ⟨?_, ?_, ?_⟩
  · rw [pinsAfter_append, pinsAfter_append, (scan_polls c polls h _).1]
    simp [pinsAfter, Pins.step, hne, hne2]
  · rw [releasedSdaDrives_append, releasedSdaDrives_append, (scan_polls c polls h _).2.1]
    simp [releasedSdaDrives, pinsAfter, Pins.step, hne, hne2, hf]
  · rw [stopCount_append, stopCount_append, (scan_polls c polls h _).2.2]
    simp [stopCount, pinsAfter, Pins.step, hne, hne2, hf]

/-- The start condition drives SDA twice while SCL is released: the release at the
top and the pull-low that is the start edge. It holds a stop condition only when
the master was pulling SDA low before the call. -/
theorem scan_startTrace (p : Pins) :
    pinsAfter c p (startTrace c) = { sclLow := false, sdaLow := true }
    ∧ releasedSdaDrives c p (startTrace c) = [Ev.high c.twi_sda, Ev.low c.twi_sda]
    ∧ stopCount c p (startTrace c) = if p.sdaLow then 1 else 0 := by
  have hne2 : c.twi_scl ≠ c.twi_sda := fun h => hne h.symm
  unfold startTrace
  refine ⟨?_, ?_, ?_⟩
  · simp [pinsAfter, Pins.step, hne, hne2]
  · simp [releasedSdaDrives, pinsAfter, Pins.step, hne, hne2]
  · cases hp : p.sdaLow <;> simp [stopCount, pinsAfter, Pins.step, hne, hne2, hp]

/-- A start attempt that finds SDA low has only released the two lines. -/
theorem scan_busyTrace (p : Pins) :
    pinsAfter c p (busyTrace c) = { sclLow := false, sdaLow := false }
    ∧ releasedSdaDrives c p (busyTrace c) = [Ev.high c.twi_sda]
    ∧ stopCount c p (busyTrace c) = if p.sdaLow then 1 else 0 := by
  have hne2 : c.twi_scl ≠ c.twi_sda := fun h => hne h.symm
  unfold busyTrace
  refine ⟨?_, ?_, ?_⟩
  · simp [pinsAfter, Pins.step, hne, hne2]
  · simp [releasedSdaDrives, pinsAfter, Pins.step, hne, hne2]
  · cases hp : p.sdaLow <;> simp [stopCount, pinsAfter, Pins.step, hne, hne2, hp]

/-- Bit cycles hold no SDA action while SCL is released and no stop condition,
whatever the master's drive before them. -/
theorem scan_bitCycles (tr : List Ev) (h : BitCycles c tr) : ∀ p : Pins,
    releasedSdaDrives c p tr = [] ∧ stopCount c p tr = 0 := by
  induction h with
  | nil => intro p; exact ⟨rfl, rfl⟩
  | write bit polls rest hp _ ih =>
    intro p
    obtain ⟨_, h2, h3⟩ := scan_writeBitSeq c hne bit polls hp p
    rw [releasedSdaDrives_append, stopCount_append, h2, h3, (ih _).1, (ih _).2]
    exact ⟨rfl, rfl⟩
  | read level polls rest hp _ ih =>
    intro p
    obtain ⟨_, h2, h3⟩ := scan_readBitSeq c hne level polls hp p
    rw [releasedSdaDrives_append, stopCount_append, h2, h3, (ih _).1, (ih _).2]
    exact ⟨rfl, rfl⟩

end Scans

/-! ## Traces of bytes and of the data loops -/

section Data

variable {σ : Type} (hw : Gpio σ) (c : Twi) (F_CPU fuel : Nat)

theorem BitCycles.append {c : Twi} {t1 t2 : List Ev} (h1 : BitCycles c t1)
    (h2 : BitCycles c t2) : BitCycles c (t1 ++ t2) := by
  induction h1 with
  | nil => exact h2
  | write bit polls rest hp _ ih =>
    rw [List.append_assoc]
    exact BitCycles.write bit polls _ hp ih
  | read level polls rest hp _ ih =>
    rw [List.append_assoc]
    exact BitCycles.read level polls _ hp ih

theorem bitCycles_writes (bits : List Bool) : ∀ ps : List (List Ev),
    (∀ p ∈ ps, sclReads c p) → BitCycles c (List.zipWith (writeBitSeq c) bits ps).flatten := by
  induction bits with
  | nil => intro ps _; simpa using BitCycles.nil
  | cons b bs ih =>
    intro ps hps
    cases ps with
    | nil => simpa using BitCycles.nil
    | cons p ps =>
      simp only [List.zipWith_cons_cons, List.flatten_cons]
      exact BitCycles.write b p _ (hps p (List.mem_cons_self _ _))
        (ih ps fun q hq => hps q (List.mem_cons_of_mem _ hq))

theorem bitCycles_reads (ss : List Bool) : ∀ ps : List (List Ev),
    (∀ p ∈ ps, sclReads c p) → BitCycles c (List.zipWith (readBitSeq c) ps ss).flatten := by
  induction ss with
  | nil => intro ps _; cases ps <;> simpa using BitCycles.nil
  | cons b bs ih =>
    intro ps hps
    cases ps with
    | nil => simpa using BitCycles.nil
    | cons p ps =>
      simp only [List.zipWith_cons_cons, List.flatten_cons]
      exact BitCycles.read b p _ (hps p (List.mem_cons_self _ _))
        (ih ps fun q hq => hps q (List.mem_cons_of_mem _ hq))

theorem bitCycles_writeByteSeq (x : Nat) (ps : List (List Ev)) (p9 : List Ev) (level : Bool)
    (hps : ∀ p ∈ ps, sclReads c p) (hp9 : sclReads c p9) :
    BitCycles c (writeByteSeq c x ps p9 level) := by
  unfold writeByteSeq
  refine BitCycles.append (bitCycles_writes c _ ps hps) ?_
  simpa using BitCycles.read level p9 [] hp9 BitCycles.nil

theorem bitCycles_readByteSeq (ss : List Bool) (ps : List (List Ev)) (p9 : List Ev)
    (nack : Bool) (hps : ∀ p ∈ ps, sclReads c p) (hp9 : sclReads c p9) :
    BitCycles c (readByteSeq c ss ps nack p9) := by
  unfold readByteSeq
  refine BitCycles.append (bitCycles_reads c _ ps hps) ?_
  simpa using BitCycles.write nack p9 [] hp9 BitCycles.nil

theorem bitCycles_readBytesSeq (nack : Bool) (recs : List ByteRead)
    (h : ∀ r ∈ recs, r.ok c) : BitCycles c (readBytesSeq c nack recs) := by
  induction recs with
  | nil => exact BitCycles.nil
  | cons r recs ih =>
    unfold readBytesSeq
    simp only [List.map_cons, List.flatten_cons]
    obtain ⟨_, _, h3, h4⟩ := h r (List.mem_cons_self _ _)
    exact BitCycles.append (bitCycles_readByteSeq c _ _ _ _ h3 h4)
      (ih fun q hq => h q (List.mem_cons_of_mem _ hq))

/-- The data loop of `twi_writeTo`, when it returns, has performed bit cycles only. -/
theorem twi_writeTo_loop_some (buf : Nat → Nat) (n : Nat) :
    ∀ (i : Nat) (w w1 : σ) (done : Bool) (tr : List Ev),
      twi_writeTo.loop hw c F_CPU fuel buf n i w = some (done, tr, w1) → BitCycles c tr := by
  induction n with
  | zero =>
    intro i w w1 done tr h
    rw [twi_writeTo.loop, Run.pure_apply] at h
    simp only [Option.some.injEq, Prod.mk.injEq] at h
    obtain ⟨_, rfl, _⟩ := h
    exact BitCycles.nil
  | succ n ih =>
    intro i w w1 done tr h
    rw [twi_writeTo.loop] at h
    obtain ⟨r, t1, w2, t2, h1, h2, rfl⟩ := (Run.bind_eq_some _ _ _ _ _ _).1 h
    obtain ⟨ps, p9, _, hps, hp9, rfl⟩ := twi_write_byte_some hw c F_CPU fuel _ r w w2 t1 h1
    refine BitCycles.append (bitCycles_writeByteSeq c _ ps p9 r hps hp9) ?_
    cases r
    · simp only [Bool.not_false, if_true, Run.pure_apply, Option.some.injEq,
        Prod.mk.injEq] at h2
      obtain ⟨_, rfl, _⟩ := h2
      exact BitCycles.nil
    · simp only [Bool.not_true, Bool.false_eq_true, if_false] at h2
      exact ih _ _ _ _ _ h2

/-- The data loop of `twi_readFrom` is `n` calls of `twi_read_byte(false)` whose
results are stored from index `i` on, in order. -/
theorem twi_readFrom_loop_eq (n : Nat) : ∀ (i : Nat) (buf : Nat → Nat),
    twi_readFrom.loop hw c F_CPU fuel n i buf
      = (Run.times (twi_read_byte hw c F_CPU fuel false) n >>= fun bytes =>
          Pure.pure (storeBytes buf i bytes)) := by
  induction n with
  | zero =>
    intro i buf
    rw [twi_readFrom.loop, Run.times, Run.pure_bind]
    rfl
  | succ n ih =>
    intro i buf
    rw [twi_readFrom.loop, Run.times, Run.bind_assoc]
    congr 1
    funext b
    rw [ih, Run.bind_assoc]
    congr 1

/-- Where the stored bytes end up. -/
theorem storeBytes_apply (bytes : List Nat) : ∀ (buf : Nat → Nat) (i j : Nat),
    storeBytes buf i bytes j
      = if i ≤ j ∧ j < i + bytes.length then bytes.getD (j - i) 0 else buf j := by
  induction bytes with
  | nil =>
    intro buf i j
    have h : ¬ (i ≤ j ∧ j < i + ([] : List Nat).length) := by
      simp only [List.length_nil]; omega
    rw [storeBytes, if_neg h]
  | cons b bs ih =>
    intro buf i j
    rw [storeBytes, ih]
    by_cases h1 : i + 1 ≤ j ∧ j < i + 1 + bs.length
    · have h2 : i ≤ j ∧ j < i + (b :: bs).length := by simp; omega
      have h3 : j - i = (j - (i + 1)) + 1 := by omega
      rw [if_pos h1, if_pos h2, h3, List.getD_cons_succ]
    · rw [if_neg h1]
      by_cases h4 : j = i
      · subst h4
        simp
      · have h2 : ¬ (i ≤ j ∧ j < i + (b :: bs).length) := by simp; omega
        rw [if_neg h2, Function.update_noteq h4]

/-- The trace of a sequence of `twi_read_byte(nack)` calls, and what they return. -/
theorem times_read_byte_some (nack : Bool) (n : Nat) :
    ∀ (w w1 : σ) (bytes : List Nat) (tr : List Ev),
      Run.times (twi_read_byte hw c F_CPU fuel nack) n w = some (bytes, tr, w1) →
      ∃ recs : List ByteRead, recs.length = n ∧ (∀ r ∈ recs, r.ok c)
        ∧ bytes = recs.map (fun r => assemble r.bits) ∧ tr = readBytesSeq c nack recs := by
  induction n with
  | zero =>
    intro w w1 bytes tr h
    rw [Run.times, Run.pure_apply] at h
    simp only [Option.some.injEq, Prod.mk.injEq] at h
    obtain ⟨rfl, rfl, _⟩ := h
    exact ⟨[], rfl, by simp, rfl, rfl⟩
  | succ n ih =>
    intro w w1 bytes tr h
    rw [Run.times] at h
    obtain ⟨b, t1, w2, t2, h1, h2, rfl⟩ := (Run.bind_eq_some _ _ _ _ _ _).1 h
    obtain ⟨rest, t3, w3, t4, h3, h4, rfl⟩ := (Run.bind_eq_some _ _ _ _ _ _).1 h2
    rw [Run.pure_apply] at h4
    simp only [Option.some.injEq, Prod.mk.injEq] at h4
    obtain ⟨rfl, rfl, rfl⟩ := h4
    obtain ⟨ss, ps, p9, hs, hp, hps, hp9, rfl, rfl⟩ :=
      twi_read_byte_some hw c F_CPU fuel nack b w w2 t1 h1
    obtain ⟨recs, hlen, hok, rfl, rfl⟩ := ih w2 w3 rest t3 h3
    refine ⟨{ bits := ss, polls := ps, last := p9 } :: recs, by simp [hlen], ?_, by simp,
      by simp [readBytesSeq]⟩
    intro r hr
    rcases List.mem_cons.1 hr with rfl | hr
    · exact ⟨hs, hp, hps, hp9⟩
    · exact hok r hr

/-- A start condition that returns has performed one of its two sequences. -/
theorem twi_write_start_some (started : Bool) (w w0 : σ) (t0 : List Ev)
    (h : twi_write_start hw c w = some (started, t0, w0)) :
    (started = true ∧ t0 = startTrace c) ∨ (started = false ∧ t0 = busyTrace c) := by
  cases hl : hw.level (hw.disable c.twi_sda (hw.disable c.twi_scl w)) c.twi_sda
  · rw [twi_write_start_busy hw c w hl] at h
    simp only [Option.some.injEq, Prod.mk.injEq] at h
    exact Or.inr ⟨h.1.symm, h.2.1.symm⟩
  · rw [twi_write_start_idle hw c w hl] at h
    simp only [Option.some.injEq, Prod.mk.injEq] at h
    exact Or.inl ⟨h.1.symm, h.2.1.symm⟩

/-- A recovery loop that returns has made `n` pulses, one after each low read of
SDA, and stopped at the first high read or after the tenth pulse. -/
theorem recover_some (fuel : Nat) : ∀ (i : Nat) (w w1 : σ) (tr : List Ev), i ≤ 10 →
    twi_readFrom.recover hw c fuel i w = some ((), tr, w1) →
    ∃ n l, tr = (List.replicate n (pulseSeq c)).flatten ++ [Ev.read c.twi_sda l]
      ∧ n ≤ 10 - i ∧ (l = false → n = 10 - i) := by
  induction fuel with
  | zero => intro i w w1 tr _ h; cases h
  | succ fuel ih =>
    intro i w w1 tr hi h
    rw [recover_succ] at h
    split_ifs at h with hc
    · simp only [Option.map_eq_some'] at h
      obtain ⟨⟨u, t, w2⟩, hr, h⟩ := h
      simp only [Prod.mk.injEq] at h
      obtain ⟨_, rfl, _⟩ := h
      have hmod : (i + 1) % 4294967296 = i + 1 := Nat.mod_eq_of_lt (by omega)
      rw [hmod] at hr
      obtain ⟨n, l, rfl, h2, h3⟩ := ih (i + 1) _ _ _ (by omega) hr
      refine ⟨n + 1, l, by simp [List.replicate_succ], by omega, fun hl => ?_⟩
      have := h3 hl
      omega
    · simp only [Option.some.injEq, Prod.mk.injEq] at h
      obtain ⟨_, rfl, _⟩ := h
      refine ⟨0, hw.level w c.twi_sda, rfl, by omega, fun hl => ?_⟩
      have : ¬ i < 10 := fun hlt => hc ⟨hl, hlt⟩
      omega

end Data

/-! ## The transactions, case by case -/

section Transactions

variable {σ : Type} (hw : Gpio σ) (c : Twi) (F_CPU fuel : Nat)

/-- Every way `twi_writeTo` can return: the status, and the pin actions that led
to it. -/
theorem twi_writeTo_some (address len sendStop : Nat) (buf : Nat → Nat) (w w2 : σ)
    (st : Nat) (tr : List Ev)
    (h : twi_writeTo hw c F_CPU fuel address buf len sendStop w = some (st, tr, w2)) :
    (st = 4 ∧ tr = busyTrace c)
    ∨ (st = 2 ∧ ∃ ps p9, ps.length = 8 ∧ (∀ p ∈ ps, sclReads c p) ∧ sclReads c p9
        ∧ tr = startTrace c
            ++ writeByteSeq c ((((address % 256) <<< 1) ||| 0) &&& 0xFF) ps p9 false)
    ∨ (st = 3 ∧ ∃ ps p9 data, ps.length = 8 ∧ (∀ p ∈ ps, sclReads c p) ∧ sclReads c p9
        ∧ BitCycles c data
        ∧ tr = startTrace c
            ++ writeByteSeq c ((((address % 256) <<< 1) ||| 0) &&& 0xFF) ps p9 true ++ data)
    ∨ (st = 0 ∧ sendStop % 256 = 0 ∧ ∃ ps p9 data, ps.length = 8 ∧ (∀ p ∈ ps, sclReads c p)
        ∧ sclReads c p9 ∧ BitCycles c data
        ∧ tr = startTrace c
            ++ writeByteSeq c ((((address % 256) <<< 1) ||| 0) &&& 0xFF) ps p9 true ++ data)
    ∨ (st = 0 ∧ sendStop % 256 ≠ 0 ∧ ∃ ps p9 data polls, ps.length = 8
        ∧ (∀ p ∈ ps, sclReads c p) ∧ sclReads c p9 ∧ BitCycles c data ∧ sclReads c polls
        ∧ tr = startTrace c
            ++ writeByteSeq c ((((address % 256) <<< 1) ||| 0) &&& 0xFF) ps p9 true ++ data
            ++ stopSeq c polls) := by
  unfold twi_writeTo at h
  dsimp only at h
  obtain ⟨started, t0, w0, tA, hs, hA, rfl⟩ := (Run.bind_eq_some _ _ _ _ _ _).1 h
  rcases twi_write_start_some hw c started w w0 t0 hs with ⟨rfl, rfl⟩ | ⟨rfl, rfl⟩
  · simp only [Bool.not_true, Bool.false_eq_true, if_false] at hA
    obtain ⟨a, t1, w1, tB, h1, hB, rfl⟩ := (Run.bind_eq_some _ _ _ _ _ _).1 hA
    obtain ⟨ps, p9, hlen, hps, hp9, rfl⟩ := twi_write_byte_some hw c F_CPU fuel _ a w0 w1 t1 h1
    cases a
    · simp only [Bool.not_false, if_true, Run.pure_apply, Option.some.injEq,
        Prod.mk.injEq] at hB
      obtain ⟨rfl, rfl, _⟩ := hB
      exact Or.inr (Or.inl ⟨rfl, ps, p9, hlen, hps, hp9, by simp⟩)
    · simp only [Bool.not_true, Bool.false_eq_true, if_false] at hB
      obtain ⟨done, t2, w3, tC, h2, hC, rfl⟩ := (Run.bind_eq_some _ _ _ _ _ _).1 hB
      have hdata := twi_writeTo_loop_some hw c F_CPU fuel buf _ _ _ _ _ _ h2
      cases done
      · simp only [Bool.not_false, if_true, Run.pure_apply, Option.some.injEq,
          Prod.mk.injEq] at hC
        obtain ⟨rfl, rfl, _⟩ := hC
        exact Or.inr (Or.inr (Or.inl ⟨rfl, ps, p9, t2, hlen, hps, hp9, hdata, by simp⟩))
      · simp only [Bool.not_true, Bool.false_eq_true, if_false] at hC
        by_cases hstop : sendStop % 256 = 0
        · simp only [hstop, ne_eq, not_true_eq_false, if_false, Run.bind_apply, Run.bind,
            Run.pure_apply, Option.some.injEq, Prod.mk.injEq] at hC
          obtain ⟨rfl, rfl, _⟩ := hC
          exact Or.inr (Or.inr (Or.inr (Or.inl
            ⟨rfl, hstop, ps, p9, t2, hlen, hps, hp9, hdata, by simp⟩)))
        · simp only [ne_eq, hstop, not_false_eq_true, if_true] at hC
          obtain ⟨r, t3, w4, tD, h3, hD, rfl⟩ := (Run.bind_eq_some _ _ _ _ _ _).1 hC
          obtain ⟨_, polls, hpolls, rfl⟩ := twi_write_stop_some hw c F_CPU fuel r w3 w4 t3 h3
          simp only [Run.bind_apply, Run.bind, Run.pure_apply, Option.some.injEq,
            Prod.mk.injEq] at hD
          obtain ⟨rfl, rfl, _⟩ := hD
          exact Or.inr (Or.inr (Or.inr (Or.inr
            ⟨rfl, hstop, ps, p9, t2, polls, hlen, hps, hp9, hdata, hpolls, by simp⟩)))
  · simp only [Bool.not_false, if_true, Run.pure_apply, Option.some.injEq,
      Prod.mk.injEq] at hA
    obtain ⟨rfl, rfl, _⟩ := hA
    exact Or.inl ⟨rfl, by simp⟩

/-- Every way `twi_readFrom` can return: the status, the buffer, and the pin
actions that led to them. -/
theorem twi_readFrom_some (address len sendStop : Nat) (buf out : Nat → Nat) (w w2 : σ)
    (st : Nat) (tr : List Ev)
    (h : twi_readFrom hw c F_CPU fuel address buf len sendStop w = some ((st, out), tr, w2)) :
    (st = 4 ∧ out = buf ∧ tr = busyTrace c)
    ∨ (st = 2 ∧ out = buf ∧ ∃ ps p9, ps.length = 8 ∧ (∀ p ∈ ps, sclReads c p) ∧ sclReads c p9
        ∧ tr = startTrace c
            ++ writeByteSeq c ((((address % 256) <<< 1) ||| 1) &&& 0xFF) ps p9 false)
    ∨ (st = 0 ∧ sendStop % 256 = 0 ∧ ∃ ps p9 recs, ps.length = 8 ∧ (∀ p ∈ ps, sclReads c p)
        ∧ sclReads c p9 ∧ recs.length = len % 4294967296 ∧ (∀ r ∈ recs, r.ok c)
        ∧ out = storeBytes buf 0 (recs.map fun r => assemble r.bits)
        ∧ tr = startTrace c
            ++ writeByteSeq c ((((address % 256) <<< 1) ||| 1) &&& 0xFF) ps p9 true
            ++ readBytesSeq c false recs)
    ∨ (st = 0 ∧ sendStop % 256 ≠ 0 ∧ ∃ ps p9 recs polls n l, ps.length = 8
        ∧ (∀ p ∈ ps, sclReads c p) ∧ sclReads c p9 ∧ recs.length = len % 4294967296
        ∧ (∀ r ∈ recs, r.ok c) ∧ sclReads c polls ∧ n ≤ 10 ∧ (l = false → n = 10)
        ∧ out = storeBytes buf 0 (recs.map fun r => assemble r.bits)
        ∧ tr = startTrace c
            ++ writeByteSeq c ((((address % 256) <<< 1) ||| 1) &&& 0xFF) ps p9 true
            ++ readBytesSeq c false recs ++ stopSeq c polls
            ++ ((List.replicate n (pulseSeq c)).flatten ++ [Ev.read c.twi_sda l])) := by
  unfold twi_readFrom at h
  dsimp only at h
  obtain ⟨started, t0, w0, tA, hs, hA, rfl⟩ := (Run.bind_eq_some _ _ _ _ _ _).1 h
  rcases twi_write_start_some hw c started w w0 t0 hs with ⟨rfl, rfl⟩ | ⟨rfl, rfl⟩
  · simp only [Bool.not_true, Bool.false_eq_true, if_false] at hA
    obtain ⟨a, t1, w1, tB, h1, hB, rfl⟩ := (Run.bind_eq_some _ _ _ _ _ _).1 hA
    obtain ⟨ps, p9, hlen, hps, hp9, rfl⟩ := twi_write_byte_some hw c F_CPU fuel _ a w0 w1 t1 h1
    cases a
    · simp only [Bool.not_false, if_true, Run.pure_apply, Option.some.injEq,
        Prod.mk.injEq] at hB
      obtain ⟨⟨rfl, rfl⟩, rfl, _⟩ := hB
      exact Or.inr (Or.inl ⟨rfl, rfl, ps, p9, hlen, hps, hp9, by simp⟩)
    · simp only [Bool.not_true, Bool.false_eq_true, if_false] at hB
      obtain ⟨o, t2, w3, tC, h2, hC, rfl⟩ := (Run.bind_eq_some _ _ _ _ _ _).1 hB
      rw [twi_readFrom_loop_eq] at h2
      obtain ⟨bytes, t4, w4, t5, h4, h5, rfl⟩ := (Run.bind_eq_some _ _ _ _ _ _).1 h2
      rw [Run.pure_apply] at h5
      simp only [Option.some.injEq, Prod.mk.injEq] at h5
      obtain ⟨rfl, rfl, rfl⟩ := h5
      obtain ⟨recs, hrl, hok, rfl, rfl⟩ :=
        times_read_byte_some hw c F_CPU fuel false _ w1 w4 bytes t4 h4
      by_cases hstop : sendStop % 256 = 0
      · simp only [hstop, ne_eq, not_true_eq_false, if_false, Run.bind_apply, Run.bind,
          Run.pure_apply, Option.some.injEq, Prod.mk.injEq] at hC
        obtain ⟨⟨rfl, rfl⟩, rfl, _⟩ := hC
        exact Or.inr (Or.inr (Or.inl
          ⟨rfl, hstop, ps, p9, recs, hlen, hps, hp9, hrl, hok, rfl, by simp⟩))
      · simp only [ne_eq, hstop, not_false_eq_true, if_true] at hC
        obtain ⟨r, t3, w5, tD, h3, hD, rfl⟩ := (Run.bind_eq_some _ _ _ _ _ _).1 hC
        obtain ⟨_, polls, hpolls, rfl⟩ := twi_write_stop_some hw c F_CPU fuel r w4 w5 t3 h3
        obtain ⟨u, t6, w6, tE, h6, hE, rfl⟩ := (Run.bind_eq_some _ _ _ _ _ _).1 hD
        obtain ⟨n, l, rfl, hn, hl⟩ := recover_some hw c fuel 0 w5 w6 t6 (by omega) h6
        rw [Run.pure_apply] at hE
        simp only [Option.some.injEq, Prod.mk.injEq] at hE
        obtain ⟨⟨rfl, rfl⟩, rfl, _⟩ := hE
        exact Or.inr (Or.inr (Or.inr
          ⟨rfl, hstop, ps, p9, recs, polls, n, l, hlen, hps, hp9, hrl, hok, hpolls,
            by omega, fun h => by have := hl h; omega, rfl, by simp⟩))
  · simp only [Bool.not_false, if_true, Run.pure_apply, Option.some.injEq,
      Prod.mk.injEq] at hA
    obtain ⟨⟨rfl, rfl⟩, rfl, _⟩ := hA
    exact Or.inl ⟨rfl, rfl, by simp⟩

/-- `twi_readFrom` is the start condition, the address byte and, when neither made
it return, the data part. -/
theorem twi_readFrom_eq (address len sendStop : Nat) (buf : Nat → Nat) :
    twi_readFrom hw c F_CPU fuel address buf len sendStop
      = (twi_write_start hw c >>= fun started =>
          if !started then Pure.pure (4, buf)
          else twi_write_byte hw c F_CPU fuel ((((address % 256) <<< 1) ||| 1) &&& 0xFF)
            >>= fun a =>
              if !a then Pure.pure (2, buf)
              else twi_readFrom.data hw c F_CPU fuel buf (len % 4294967296)
                (sendStop % 256)) := rfl

/-- Past the address phase, `twi_readFrom` is its data part, after the pin actions
of the start condition and of the address byte. -/
theorem twi_readFrom_past_address (address len sendStop : Nat) (buf : Nat → Nat)
    (w w0 w1 : σ) (t0 t1 : List Ev)
    (hstart : twi_write_start hw c w = some (true, t0, w0))
    (haddr : twi_write_byte hw c F_CPU fuel ((((address % 256) <<< 1) ||| 1) &&& 0xFF) w0
      = some (true, t1, w1)) :
    twi_readFrom hw c F_CPU fuel address buf len sendStop w
      = (twi_readFrom.data hw c F_CPU fuel buf (len % 4294967296) (sendStop % 256) w1).map
          fun r => (r.1, t0 ++ (t1 ++ r.2.1), r.2.2) := by
  rw [twi_readFrom_eq, Run.bind_some _ _ _ _ _ _ hstart]
  simp only [Bool.not_true, Bool.false_eq_true, if_false]
  rw [Run.bind_some _ _ _ _ _ _ haddr]
  simp only [Bool.not_true, Bool.false_eq_true, if_false, Option.map_map]
  rfl

/-- Every way the data part of `twi_readFrom` can return. -/
theorem twi_readFrom_data_some (len sendStop : Nat) (buf out : Nat → Nat) (w1 w2 : σ)
    (st : Nat) (tr : List Ev)
    (h : twi_readFrom.data hw c F_CPU fuel buf len sendStop w1 = some ((st, out), tr, w2)) :
    st = 0 ∧ ∃ recs : List ByteRead, recs.length = len ∧ (∀ r ∈ recs, r.ok c)
      ∧ out = storeBytes buf 0 (recs.map fun r => assemble r.bits)
      ∧ ((sendStop = 0 ∧ tr = readBytesSeq c false recs)
        ∨ (sendStop ≠ 0 ∧ ∃ polls n l, sclReads c polls ∧ n ≤ 10 ∧ (l = false → n = 10)
            ∧ tr = readBytesSeq c false recs ++ (stopSeq c polls
                ++ ((List.replicate n (pulseSeq c)).flatten ++ [Ev.read c.twi_sda l])))) := by
  unfold twi_readFrom.data at h
  obtain ⟨o, t2, w3, tC, h2, hC, rfl⟩ := (Run.bind_eq_some _ _ _ _ _ _).1 h
  rw [twi_readFrom_loop_eq] at h2
  obtain ⟨bytes, t4, w4, t5, h4, h5, rfl⟩ := (Run.bind_eq_some _ _ _ _ _ _).1 h2
  rw [Run.pure_apply] at h5
  simp only [Option.some.injEq, Prod.mk.injEq] at h5
  obtain ⟨rfl, rfl, rfl⟩ := h5
  obtain ⟨recs, hrl, hok, rfl, rfl⟩ :=
    times_read_byte_some hw c F_CPU fuel false _ w1 w4 bytes t4 h4
  by_cases hstop : sendStop = 0
  · simp only [hstop, ne_eq, not_true_eq_false, if_false, Run.bind_apply, Run.bind,
      Run.pure_apply, Option.some.injEq, Prod.mk.injEq] at hC
    obtain ⟨⟨rfl, rfl⟩, rfl, _⟩ := hC
    exact ⟨rfl, recs, hrl, hok, rfl, Or.inl ⟨hstop, by simp⟩⟩
  · simp only [ne_eq, hstop, not_false_eq_true, if_true] at hC
    obtain ⟨r, t3, w5, tD, h3, hD, rfl⟩ := (Run.bind_eq_some _ _ _ _ _ _).1 hC
    obtain ⟨_, polls, hpolls, rfl⟩ := twi_write_stop_some hw c F_CPU fuel r w4 w5 t3 h3
    obtain ⟨u, t6, w6, tE, h6, hE, rfl⟩ := (Run.bind_eq_some _ _ _ _ _ _).1 hD
    obtain ⟨n, l, rfl, hn, hl⟩ := recover_some hw c fuel 0 w5 w6 t6 (by omega) h6
    rw [Run.pure_apply] at hE
    simp only [Option.some.injEq, Prod.mk.injEq] at hE
    obtain ⟨⟨rfl, rfl⟩, rfl, _⟩ := hE
    exact ⟨rfl, recs, hrl, hok, rfl, Or.inr ⟨hstop, polls, n, l, hpolls, by omega,
      fun h => by have := hl h; omega, by simp⟩⟩

end Transactions

/-! ## Clock stretching below the bound -/

section Stretching

variable {σ : Type} (hw : Gpio σ) (c : Twi) (F_CPU : Nat)

/-- While its counter stays below the bound, the clock-stretch loop polls until the
first read of SCL that is high and exits there. -/
theorem clockStretch_honours (n : Nat) : ∀ (i fuel : Nat) (u : σ), n < fuel →
    (∀ k < n, (i + k) % 256 < TWI_CLOCK_STRETCH F_CPU) → i < 256 → Stretched hw c n u →
    clockStretch hw c F_CPU fuel i u
      = some ((), stretchPolls c n, hw.tick^[n + 1] u) := by
  induction n with
  | zero =>
    intro i fuel u hfuel _ _ hs
    obtain ⟨f, rfl⟩ : ∃ f, fuel = f + 1 := ⟨fuel - 1, by omega⟩
    have hhigh : hw.level u c.twi_scl = true := hs.2
    rw [clockStretch_succ]
    simp [hhigh, stretchPolls]
  | succ n ih =>
    intro i fuel u hfuel hcnt hi hs
    obtain ⟨f, rfl⟩ : ∃ f, fuel = f + 1 := ⟨fuel - 1, by omega⟩
    have hlow : hw.level u c.twi_scl = false := hs.1 0 (by omega)
    have hlt : i < TWI_CLOCK_STRETCH F_CPU := by
      have := hcnt 0 (by omega)
      rwa [Nat.add_zero, Nat.mod_eq_of_lt hi] at this
    rw [clockStretch_succ]
    simp only [hlow, hlt, and_self, if_true]
    have hs1 : Stretched hw c n (hw.tick u) := by
      refine ⟨fun k hk => ?_, ?_⟩
      · have := hs.1 (k + 1) (by omega)
        rwa [Function.iterate_succ_apply] at this
      · have := hs.2
        rwa [Function.iterate_succ_apply] at this
    rw [ih ((i + 1) % 256) f (hw.tick u) (by omega) ?_ (Nat.mod_lt _ (by decide)) hs1]
    · simp [stretchPolls, List.replicate_succ, Function.iterate_succ_apply]
    · intro k hk
      have := hcnt (k + 1) (by omega)
      have e : ((i + 1) % 256 + k) % 256 = (i + (k + 1)) % 256 := by omega
      rwa [e]

/-- A stretch of at most `TWI_CLOCK_STRETCH` polls keeps the counter of the loop
below the bound, in either build. -/
theorem counter_below_bound (n : Nat) (hn : n ≤ TWI_CLOCK_STRETCH F_CPU) :
    ∀ k < n, (0 + k) % 256 < TWI_CLOCK_STRETCH F_CPU := by
  intro k hk
  unfold TWI_CLOCK_STRETCH at hn ⊢
  split_ifs at hn ⊢ <;> omega

end Stretching

/-! ## The address byte -/

section Address

theorem address_byte_write (a : Nat) (ha : a < 128) :
    (((a % 256) <<< 1) ||| 0) &&& 0xFF = 2 * a
    ∧ bitsMSB (2 * a) = addressBits a ++ [false] := by
  interval_cases a <;> exact ⟨rfl, rfl⟩

theorem address_byte_read (a : Nat) (ha : a < 128) :
    (((a % 256) <<< 1) ||| 1) &&& 0xFF = 2 * a + 1
    ∧ bitsMSB (2 * a + 1) = addressBits a ++ [true] := by
  interval_cases a <;> exact ⟨rfl, rfl⟩

theorem startTrace_ne_busyTrace (c : Twi) (t : List Ev) : startTrace c ++ t ≠ busyTrace c := by
  simp [startTrace, busyTrace]

end Address

/-! ## Counting in the trace of the recovery loop -/

section Recovery

/-- The trace of a recovery loop of `n` pulses holds `n` pull-lows of SCL and
`n + 1` reads of SDA. -/
theorem recovery_counts (c : Twi) (n : Nat) (l : Bool) :
    ((List.replicate n (pulseSeq c)).flatten ++ [Ev.read c.twi_sda l]).count
        (Ev.low c.twi_scl) = n
    ∧ (((List.replicate n (pulseSeq c)).flatten ++ [Ev.read c.twi_sda l]).filter
        fun e => e == Ev.read c.twi_sda false || e == Ev.read c.twi_sda true).length
        = n + 1 := by
  induction n with
  | zero => cases l <;> simp
  | succ n ih =>
    obtain ⟨h1, h2⟩ := ih
    constructor
    · rw [List.replicate_succ, List.flatten_cons, List.append_assoc, List.count_append, h1]
      simp [pulseSeq, List.count_cons]
      omega
    · rw [List.replicate_succ, List.flatten_cons, List.append_assoc, List.filter_append,
        List.length_append, h2]
      simp [pulseSeq, List.filter_cons]
      omega

end Recovery

/-! ## Settled claims -/

/-- C1 (the code does the opposite): `twi_write_byte` hands back the value of
`twi_read_bit`, which is the SDA level of the ninth clock cycle. On the simulated
bus, after a start, the slave at 0x50 acknowledges the byte 0xA0 (SDA reads low)
and `twi_write_byte` returns `false`; a byte the slave does not acknowledge (SDA
reads high) makes it return `true`. In general, whenever `twi_write_byte` returns
`r`, the last SDA read of its trace read the level `r`. -/
theorem twi_write_byte_returns_false_on_ack :
    twi_write_byte hw0 cfg0 80000000 201 0xA0 (simStarted 0x50 16 [])
        = some (false, writeByteTrace cfg0 0xA0 false, simAcked 0x50 16 [] 0xA0)
    ∧ (twi_write_byte hw0 cfg0 80000000 201 0x12 (simAcked 0x50 0 [] 0xA0)).map
          (fun r => (r.1, r.2.1))
        = some (true, writeByteTrace cfg0 0x12 true)
    ∧ ∀ (σ : Type) (hw : Gpio σ) (c : Twi) (F_CPU fuel byte : Nat) (w w1 : σ) (r : Bool)
        (tr : List Ev), twi_write_byte hw c F_CPU fuel byte w = some (r, tr, w1) →
        ∃ pre, tr = pre ++ [Ev.read c.twi_sda r, Ev.delay (c.twi_dcount % 256)] :=
  ⟨by decide, by decide,
   fun _ hw c F_CPU fuel byte w w1 r tr h =>
     twi_write_byte_returns_level hw c F_CPU fuel byte w w1 r tr h⟩

/-- C2 (the code does the opposite): on the simulated bus the slave at 0x50
acknowledges its address, and `twi_writeTo` and `twi_readFrom` both return 2 right
after the address byte, while a write to 0x51, which nobody acknowledges, returns 0.
In general, after a start that succeeded, either call returns 2 exactly when the
ninth clock cycle of the address byte read SDA low. -/
theorem acknowledged_address_returns_2 :
    twi_writeTo hw0 cfg0 80000000 201 0x50 (bufOf [0x12, 0x34, 0x56]) 3 1 (simIdle 0x50 16 [])
        = some (2, startTrace cfg0 ++ writeByteTrace cfg0 0xA0 false, simAcked 0x50 16 [] 0xA0)
    ∧ twi_readFrom hw0 cfg0 80000000 201 0x50 (bufOf [0xEE, 0xEE]) 2 1
          (simIdle 0x50 16 [0x11, 0x22])
        = some ((2, bufOf [0xEE, 0xEE]), startTrace cfg0 ++ writeByteTrace cfg0 0xA1 false,
            simAcked 0x50 16 [0x11, 0x22] 0xA1)
    ∧ (twi_writeTo hw0 cfg0 80000000 201 0x51 (bufOf [0x12, 0x34, 0x56]) 3 1
          (simIdle 0x50 16 [])).map (fun r => r.1) = some 0
    ∧ (∀ (σ : Type) (hw : Gpio σ) (c : Twi) (F_CPU fuel address len sendStop : Nat)
        (buf : Nat → Nat) (w w0 w1 : σ) (t0 t1 : List Ev) (level : Bool),
        twi_write_start hw c w = some (true, t0, w0) →
        twi_write_byte hw c F_CPU fuel ((((address % 256) <<< 1) ||| 0) &&& 0xFF) w0
          = some (level, t1, w1) →
        ((∃ tr w2, twi_writeTo hw c F_CPU fuel address buf len sendStop w = some (2, tr, w2))
          ↔ level = false))
    ∧ (∀ (σ : Type) (hw : Gpio σ) (c : Twi) (F_CPU fuel address len sendStop : Nat)
        (buf : Nat → Nat) (w w0 w1 : σ) (t0 t1 : List Ev) (level : Bool),
        twi_write_start hw c w = some (true, t0, w0) →
        twi_write_byte hw c F_CPU fuel ((((address % 256) <<< 1) ||| 1) &&& 0xFF) w0
          = some (level, t1, w1) →
        ((∃ out tr w2, twi_readFrom hw c F_CPU fuel address buf len sendStop w
            = some ((2, out), tr, w2))
          ↔ level = false)) := by
  refine ⟨by decide, rfl, by decide, ?_, ?_⟩
  · intro σ hw c F_CPU fuel address len sendStop buf w w0 w1 t0 t1 level hstart haddr
    have h := twi_writeTo_address_phase hw c F_CPU fuel address len sendStop buf w w0 w1 t0 t1
      level hstart haddr
    constructor
    · rintro ⟨tr, w2, hrun⟩
      cases level
      · rfl
      · exact absurd rfl (h.2 rfl 2 tr w2 hrun)
    · intro hl
      exact ⟨_, _, h.1 hl⟩
  · intro σ hw c F_CPU fuel address len sendStop buf w w0 w1 t0 t1 level hstart haddr
    have h := twi_readFrom_address_phase hw c F_CPU fuel address len sendStop buf w w0 w1 t0 t1
      level hstart haddr
    constructor
    · rintro ⟨out, tr, w2, hrun⟩
      cases level
      · rfl
      · have := h.2 rfl 2 out tr w2 hrun
        omega
    · intro hl
      exact ⟨_, _, _, h.1 hl⟩

/-- C3: if SDA reads low after `twi_write_start` has released SCL and SDA, then
`twi_writeTo` and `twi_readFrom` both return 4, whatever the address, buffer, length,
stop flag, build and loop budget; the pin actions of the whole call are exactly
release SCL, release SDA, read SDA (low): no pin is pulled low, no delay runs, and
`twi_readFrom` hands the buffer back as it got it. -/
theorem bus_busy_returns_4 {σ : Type} (hw : Gpio σ) (c : Twi)
    (F_CPU fuel address len sendStop : Nat) (buf : Nat → Nat) (w : σ)
    (hbusy : hw.level (hw.disable c.twi_sda (hw.disable c.twi_scl w)) c.twi_sda = false) :
    twi_writeTo hw c F_CPU fuel address buf len sendStop w
        = some (4, [Ev.high c.twi_scl, Ev.high c.twi_sda, Ev.read c.twi_sda false],
            hw.tick (hw.disable c.twi_sda (hw.disable c.twi_scl w)))
    ∧ twi_readFrom hw c F_CPU fuel address buf len sendStop w
        = some ((4, buf), [Ev.high c.twi_scl, Ev.high c.twi_sda, Ev.read c.twi_sda false],
            hw.tick (hw.disable c.twi_sda (hw.disable c.twi_scl w))) := by
  constructor
  · unfold twi_writeTo
    rw [Run.bind_some _ _ _ _ _ _ (twi_write_start_busy hw c w hbusy)]
    simp [Run.pure_apply, busyTrace]
  · unfold twi_readFrom
    rw [Run.bind_some _ _ _ _ _ _ (twi_write_start_busy hw c w hbusy)]
    simp [Run.pure_apply, busyTrace]

/-- C3 at a concrete input: a bus whose SDA is held low, a write and a read of three
bytes with the stop flag set, in the 80 MHz build. -/
theorem bus_busy_returns_4_witness :
    hw0.level (hw0.disable cfg0.twi_sda (hw0.disable cfg0.twi_scl simBusy)) cfg0.twi_sda = false
    ∧ twi_writeTo hw0 cfg0 80000000 201 0x50 (bufOf [1, 2, 3]) 3 1 simBusy
        = some (4, [Ev.high 5, Ev.high 4, Ev.read 4 false], simBusy)
    ∧ twi_readFrom hw0 cfg0 80000000 201 0x50 (bufOf [1, 2, 3]) 3 1 simBusy
        = some ((4, bufOf [1, 2, 3]), [Ev.high 5, Ev.high 4, Ev.read 4 false], simBusy) :=
  ⟨by decide,
   (bus_busy_returns_4 hw0 cfg0 80000000 201 0x50 3 1 (bufOf [1, 2, 3]) simBusy (by decide)).1,
   (bus_busy_returns_4 hw0 cfg0 80000000 201 0x50 3 1 (bufOf [1, 2, 3]) simBusy (by decide)).2⟩

/-- C4 (the code does otherwise): the simulated slave at 0x50 has no room, so it
acknowledges its address and does not acknowledge the data byte that follows.
`twi_writeTo` with three data bytes returns 2, not 3, and its pin actions are the
start condition and the nine clock cycles of the address byte only: no data byte is
put on the bus. In general, once the start succeeded and the ninth clock cycle of
the address byte read SDA low, `twi_writeTo` returns 2 right there, whatever the
buffer and the length. -/
theorem writeTo_acknowledged_address_sends_no_data :
    twi_writeTo hw0 cfg0 80000000 201 0x50 (bufOf [0x12, 0x34, 0x56]) 3 1 (simIdle 0x50 0 [])
        = some (2, startTrace cfg0 ++ writeByteTrace cfg0 0xA0 false, simAcked 0x50 0 [] 0xA0)
    ∧ (twi_write_byte hw0 cfg0 80000000 201 0x12 (simAcked 0x50 0 [] 0xA0)).map
          (fun r => r.2.1)
        = some (writeByteTrace cfg0 0x12 true)
    ∧ (∀ (σ : Type) (hw : Gpio σ) (c : Twi) (F_CPU fuel address len sendStop : Nat)
        (buf : Nat → Nat) (w w0 w1 : σ) (t0 t1 : List Ev),
        twi_write_start hw c w = some (true, t0, w0) →
        twi_write_byte hw c F_CPU fuel ((((address % 256) <<< 1) ||| 0) &&& 0xFF) w0
          = some (false, t1, w1) →
        twi_writeTo hw c F_CPU fuel address buf len sendStop w = some (2, t0 ++ t1, w1)) :=
  ⟨by decide, by decide,
   fun _ hw c F_CPU fuel address len sendStop buf w w0 w1 t0 t1 hstart haddr =>
     (twi_writeTo_address_phase hw c F_CPU fuel address len sendStop buf w w0 w1 t0 t1 false
        hstart haddr).1 rfl⟩

/-- C5 (the code does otherwise): the simulated slave at 0x50 holds the bytes
0x11, 0x22, 0x33, 0x44 and acknowledges its address. `twi_readFrom` of four bytes
returns 2, not 0, after the start condition and the address byte 0xA1, and hands
the buffer back as it got it: no byte is read, although the data loop, run from
the state the call stopped in, would have read the four bytes in order. In
general, once the start succeeded and the ninth clock cycle of the address byte
read SDA low, `twi_readFrom` returns 2 right there with the buffer untouched. -/
theorem readFrom_acknowledged_address_reads_nothing :
    twi_readFrom hw0 cfg0 80000000 201 0x50 (bufOf [0xEE, 0xEE, 0xEE, 0xEE]) 4 1
        (simIdle 0x50 16 [0x11, 0x22, 0x33, 0x44])
      = some ((2, bufOf [0xEE, 0xEE, 0xEE, 0xEE]),
          startTrace cfg0 ++ writeByteTrace cfg0 0xA1 false,
          simAcked 0x50 16 [0x11, 0x22, 0x33, 0x44] 0xA1)
    ∧ (twi_readFrom.loop hw0 cfg0 80000000 201 4 0 (bufOf [0xEE, 0xEE, 0xEE, 0xEE])
          (simAcked 0x50 16 [0x11, 0x22, 0x33, 0x44] 0xA1)).map
          (fun r => (List.range 4).map r.1)
        = some [0x11, 0x22, 0x33, 0x44]
    ∧ (∀ (σ : Type) (hw : Gpio σ) (c : Twi) (F_CPU fuel address len sendStop : Nat)
        (buf : Nat → Nat) (w w0 w1 : σ) (t0 t1 : List Ev),
        twi_write_start hw c w = some (true, t0, w0) →
        twi_write_byte hw c F_CPU fuel ((((address % 256) <<< 1) ||| 1) &&& 0xFF) w0
          = some (false, t1, w1) →
        twi_readFrom hw c F_CPU fuel address buf len sendStop w
          = some ((2, buf), t0 ++ t1, w1)) :=
  ⟨rfl, by decide,
   fun _ hw c F_CPU fuel address len sendStop buf w w0 w1 t0 t1 hstart haddr =>
     (twi_readFrom_address_phase hw c F_CPU fuel address len sendStop buf w w0 w1 t0 t1 false
        hstart haddr).1 rfl⟩

/-- C6 (the code does otherwise): for every 7-bit address, on an idle simulated bus
with a slave that acknowledges that address, `twi_writeTo(addr, buf, 0, 1)` returns
2, not 0, and its pin actions are the start condition and the nine clock cycles of
the address byte: no stop condition follows, and the slave is left holding SDA low. -/
theorem writeTo_empty_acknowledged_has_no_stop :
    ∀ addr < 128,
      twi_writeTo hw0 cfg0 80000000 201 addr (bufOf []) 0 1 (simIdle addr 16 [])
        = some (2, startTrace cfg0 ++ writeByteTrace cfg0 (2 * addr) false,
            simAcked addr 16 [] (2 * addr)) := by
  intro addr h
  interval_cases addr <;> rfl

/-- C6 at the address 0x50: the call returns 2 and its pin actions stop after the
acknowledge cycle of the address byte 0xA0. -/
theorem writeTo_empty_acknowledged_has_no_stop_witness :
    0x50 < 128
    ∧ twi_writeTo hw0 cfg0 80000000 201 0x50 (bufOf []) 0 1 (simIdle 0x50 16 [])
        = some (2, startTrace cfg0 ++ writeByteTrace cfg0 0xA0 false, simAcked 0x50 16 [] 0xA0) :=
  ⟨by decide, writeTo_empty_acknowledged_has_no_stop 0x50 (by decide)⟩

/-- C7 (the code does otherwise in the build that is not 80 MHz): there the bound is
400 and the `uint8_t` counter never reaches it, so on a bus whose SCL stays low the
clock-stretch loop is `none` for every budget of iterations: `twi_write_bit`,
`twi_read_bit`, `twi_write_stop` and `twi_writeTo` never return; the same holds
for the loop against any GPIO layer whose SCL keeps reading low. In the 80 MHz
build the loop does exit, after at most 201 reads of SCL, whatever the line does. -/
theorem clock_stretch_unbounded_in_other_build :
    (∀ fuel bit, twi_write_bit hw0 cfg0 160000000 fuel bit simStuck = none)
    ∧ (∀ fuel, twi_read_bit hw0 cfg0 160000000 fuel simStuck = none)
    ∧ (∀ fuel, twi_write_stop hw0 cfg0 160000000 fuel simStuck = none)
    ∧ (∀ fuel, twi_writeTo hw0 cfg0 160000000 fuel 0x50 (bufOf [0x12]) 1 1 simStuck = none)
    ∧ (∀ (σ : Type) (hw : Gpio σ) (c : Twi) (F_CPU fuel : Nat) (w : σ), F_CPU ≠ 80000000 →
        (∀ n, hw.level (hw.tick^[n] w) c.twi_scl = false) →
        clockStretch hw c F_CPU fuel 0 w = none)
    ∧ (∀ (σ : Type) (hw : Gpio σ) (c : Twi) (fuel : Nat) (w : σ), 201 ≤ fuel →
        ∃ polls w1, clockStretch hw c 80000000 fuel 0 w = some ((), polls, w1)
          ∧ polls.length ≤ 201) := by
  have stuck : ∀ (fuel : Nat) (s : Sim), s.sScl = true →
      clockStretch hw0 cfg0 160000000 fuel 0 s = none := by
    intro fuel s hs
    refine clockStretch_never_exits hw0 cfg0 160000000 (by decide) fuel 0 s (by decide) ?_
    intro n
    have hfix : hw0.tick^[n] s = s := Function.iterate_fixed rfl n
    rw [hfix]
    simp [hw0, simGpio, cfg0, Sim.scl, hs]
  refine ⟨?_, ?_, ?_, ?_, ?_, ?_⟩
  · intro fuel bit
    rw [twi_write_bit_eq, stuck fuel _ (by cases bit <;> rfl)]
    rfl
  · intro fuel
    rw [twi_read_bit_eq, stuck fuel _ rfl]
    rfl
  · intro fuel
    rw [twi_write_stop_eq, stuck fuel _ rfl]
    rfl
  · intro fuel
    have hstart : twi_write_start hw0 cfg0 simStuck
        = some (true, startTrace cfg0, { simStuck with mSda := true }) := by decide
    unfold twi_writeTo
    rw [Run.bind_some _ _ _ _ _ _ hstart]
    simp only [Bool.not_true, Bool.false_eq_true, if_false]
    have hbyte : twi_write_byte hw0 cfg0 160000000 fuel ((((0x50 % 256) <<< 1) ||| 0) &&& 0xFF)
        { simStuck with mSda := true } = none := by
      unfold twi_write_byte
      apply Run.bind_none
      rw [twi_write_byte.loop]
      apply Run.bind_none
      rw [twi_write_bit_eq, stuck fuel _ (by decide)]
      rfl
    rw [Run.bind_none _ _ _ hbyte]
    rfl
  · intro σ hw c F_CPU fuel w hF hlow
    exact clockStretch_never_exits hw c F_CPU hF fuel 0 w (by decide) hlow
  · intro σ hw c fuel w hfuel
    obtain ⟨polls, w1, h1, h2, _⟩ :=
      clockStretch_exits_80 hw c 200 0 fuel w (by omega) rfl (by omega)
    exact ⟨polls, w1, h1, h2⟩

/-- C8 (the code does otherwise): the simulated slave at 0x50 is a loopback device:
it stores a data byte written to it and, when read, sends back the bytes it holds.
`twi_writeTo` of the bytes 0xDE, 0xAD returns 2, not 0, after the address byte, so
the slave has stored nothing and is left holding SDA low; the `twi_readFrom` that
follows finds SDA low, returns 4 and hands its buffer back as it got it. -/
theorem loopback_round_trip_fails :
    twi_writeTo hw0 cfg0 80000000 201 0x50 (bufOf [0xDE, 0xAD]) 2 1 (simIdle 0x50 16 [])
        = some (2, startTrace cfg0 ++ writeByteTrace cfg0 0xA0 false, simAcked 0x50 16 [] 0xA0)
    ∧ (simAcked 0x50 16 [] 0xA0).mem = []
    ∧ twi_readFrom hw0 cfg0 80000000 201 0x50 (bufOf [0xEE, 0xEE]) 2 1 (simAcked 0x50 16 [] 0xA0)
        = some ((4, bufOf [0xEE, 0xEE]), busyTrace cfg0, simAcked 0x50 16 [] 0xA0)
    ∧ (twi_write_byte hw0 cfg0 80000000 201 0xDE (simAcked 0x50 16 [] 0xA0)).map
          (fun r => r.2.2.mem)
        = some [0xDE]
    ∧ (twi_readFrom.loop hw0 cfg0 80000000 201 2 0 (bufOf [0xEE, 0xEE])
          (simAcked 0x50 16 [0xDE, 0xAD] 0xA1)).map (fun r => (List.range 2).map r.1)
        = some [0xDE, 0xAD] :=
  ⟨by decide, rfl, rfl, by decide, by decide⟩

/-- C9: in each build, for 32-bit frequencies `f1 ≤ f2`, `twi_setClock(f2)` never
leaves a larger delay count than `twi_setClock(f1)`, whatever the variables held
before either call; the count left depends only on the build and the requested
frequency; it is one of the table values of the build (18, 8, 4, 2, 1 at 80 MHz;
32, 16, 8, 4, 2 otherwise), hence at least 1; the pin variables are left alone. -/
theorem twi_setClock_monotone (F_CPU f1 f2 : Nat) (c c1 : Twi) (h : f1 ≤ f2)
    (h32 : f2 < 4294967296) :
    (twi_setClock F_CPU f2 c).twi_dcount ≤ (twi_setClock F_CPU f1 c1).twi_dcount
    ∧ (twi_setClock F_CPU f1 c).twi_dcount = (twi_setClock F_CPU f1 c1).twi_dcount
    ∧ 1 ≤ (twi_setClock F_CPU f1 c).twi_dcount
    ∧ (F_CPU = FCPU80 → (twi_setClock F_CPU f1 c).twi_dcount ∈ [18, 8, 4, 2, 1])
    ∧ (F_CPU ≠ FCPU80 → (twi_setClock F_CPU f1 c).twi_dcount ∈ [32, 16, 8, 4, 2])
    ∧ (twi_setClock F_CPU f1 c).twi_sda = c.twi_sda
    ∧ (twi_setClock F_CPU f1 c).twi_scl = c.twi_scl := by
  have e1 : f1 % 4294967296 = f1 := Nat.mod_eq_of_lt (by omega)
  have e2 : f2 % 4294967296 = f2 := Nat.mod_eq_of_lt h32
  unfold twi_setClock
  simp only [e1, e2]
  by_cases hF : F_CPU = FCPU80
  · simp only [hF, if_true]
    split_ifs <;> simp <;> omega
  · simp only [hF, if_false]
    split_ifs <;> simp <;> omega

/-- C9 at concrete inputs: 150 kHz against 350 kHz in the 80 MHz build gives the
delay counts 8 and 2. -/
theorem twi_setClock_monotone_witness :
    (150000 ≤ 350000) ∧ (350000 < 4294967296)
    ∧ (twi_setClock 80000000 150000 cfg0).twi_dcount = 8
    ∧ (twi_setClock 80000000 350000 cfg0).twi_dcount = 2
    ∧ (twi_setClock 80000000 350000 cfg0).twi_dcount
        ≤ (twi_setClock 80000000 150000 cfg0).twi_dcount :=
  ⟨by decide, by decide, by decide, by decide,
   (twi_setClock_monotone 80000000 150000 350000 cfg0 cfg0 (by decide) (by decide)).1⟩

/-- C10: for every pin pair (two `uint8_t` values) and every earlier state of the
variables and of the GPIO layer, `twi_init(sda, scl)` leaves `twi_sda = sda` and
`twi_scl = scl`, calls `pinMode(sda, INPUT_PULLUP)` then `pinMode(scl, INPUT_PULLUP)`
and nothing else, and leaves the delay count that `twi_setClock(100000)` produces:
18 in the 80 MHz build, 32 otherwise, whatever the count was before. -/
theorem twi_init_binds_pins {σ : Type} (hw : Gpio σ) (F_CPU sda scl : Nat) (c : Twi) (w : σ)
    (hsda : sda < 256) (hscl : scl < 256) :
    (twi_init hw F_CPU sda scl c w).1.twi_sda = sda
    ∧ (twi_init hw F_CPU sda scl c w).1.twi_scl = scl
    ∧ (twi_init hw F_CPU sda scl c w).2.1
        = [Ev.mode sda PinMode.INPUT_PULLUP, Ev.mode scl PinMode.INPUT_PULLUP]
    ∧ (twi_init hw F_CPU sda scl c w).2.2
        = hw.pinMode scl PinMode.INPUT_PULLUP (hw.pinMode sda PinMode.INPUT_PULLUP w)
    ∧ (twi_init hw F_CPU sda scl c w).1.twi_dcount
        = (twi_setClock F_CPU 100000 c).twi_dcount
    ∧ (twi_init hw F_CPU sda scl c w).1.twi_dcount = (if F_CPU = FCPU80 then 18 else 32) := by
  have e1 : sda % 256 = sda := Nat.mod_eq_of_lt hsda
  have e2 : scl % 256 = scl := Nat.mod_eq_of_lt hscl
  unfold twi_init twi_setClock
  by_cases hF : F_CPU = FCPU80 <;> simp [hF, e1, e2]

/-- C10 at a concrete input: `twi_init(4, 5)` in the 80 MHz build, called after
`twi_setClock(400000)` had left the delay count 2 and with other pins bound. -/
theorem twi_init_binds_pins_witness :
    (4 < 256) ∧ (5 < 256)
    ∧ twi_init hw0 80000000 4 5 { twi_dcount := 2, twi_sda := 12, twi_scl := 14 }
        (simIdle 0x50 16 [])
      = (cfg0, [Ev.mode 4 PinMode.INPUT_PULLUP, Ev.mode 5 PinMode.INPUT_PULLUP],
          simIdle 0x50 16 [])
    ∧ (twi_init hw0 80000000 4 5 { twi_dcount := 2, twi_sda := 12, twi_scl := 14 }
        (simIdle 0x50 16 [])).1.twi_dcount = 18 :=
  ⟨by decide, by decide, by decide,
   by simpa [FCPU80] using
     (twi_init_binds_pins hw0 80000000 4 5 { twi_dcount := 2, twi_sda := 12, twi_scl := 14 }
        (simIdle 0x50 16 []) (by decide) (by decide)).2.2.2.2.2⟩

/-- C11: whenever `twi_writeTo` returns, its value is 0, 2, 3 or 4, and whenever
`twi_readFrom` returns, its value is 0, 2 or 4, never 3, for every input, build and
GPIO layer; once the address phase of `twi_readFrom` has passed (the start
succeeded and the address byte did not make the call return), the value returned
is 0 whatever is read from the bus. Both calls do return whenever the clock-stretch
loop does, which in the 80 MHz build is always, given a budget of 201 iterations. -/
theorem status_codes :
    (∀ (σ : Type) (hw : Gpio σ) (c : Twi) (F_CPU fuel address len sendStop : Nat)
        (buf : Nat → Nat) (w w2 : σ) (st : Nat) (tr : List Ev),
        twi_writeTo hw c F_CPU fuel address buf len sendStop w = some (st, tr, w2) →
        st = 0 ∨ st = 2 ∨ st = 3 ∨ st = 4)
    ∧ (∀ (σ : Type) (hw : Gpio σ) (c : Twi) (F_CPU fuel address len sendStop : Nat)
        (buf out : Nat → Nat) (w w2 : σ) (st : Nat) (tr : List Ev),
        twi_readFrom hw c F_CPU fuel address buf len sendStop w = some ((st, out), tr, w2) →
        st = 0 ∨ st = 2 ∨ st = 4)
    ∧ (∀ (σ : Type) (hw : Gpio σ) (c : Twi) (F_CPU fuel address len sendStop : Nat)
        (buf out : Nat → Nat) (w w0 w1 w2 : σ) (t0 t1 tr : List Ev) (st : Nat),
        twi_write_start hw c w = some (true, t0, w0) →
        twi_write_byte hw c F_CPU fuel ((((address % 256) <<< 1) ||| 1) &&& 0xFF) w0
          = some (true, t1, w1) →
        twi_readFrom hw c F_CPU fuel address buf len sendStop w = some ((st, out), tr, w2) →
        st = 0)
    ∧ (∀ (σ : Type) (hw : Gpio σ) (c : Twi) (F_CPU fuel address len sendStop : Nat)
        (buf : Nat → Nat), Returns (clockStretch hw c F_CPU fuel 0) → 11 ≤ fuel →
        Returns (twi_writeTo hw c F_CPU fuel address buf len sendStop)
        ∧ Returns (twi_readFrom hw c F_CPU fuel address buf len sendStop))
    ∧ (∀ (σ : Type) (hw : Gpio σ) (c : Twi) (fuel address len sendStop : Nat)
        (buf : Nat → Nat) (w : σ), 201 ≤ fuel →
        (∃ st tr w2, twi_writeTo hw c 80000000 fuel address buf len sendStop w
            = some (st, tr, w2))
        ∧ (∃ st out tr w2, twi_readFrom hw c 80000000 fuel address buf len sendStop w
            = some ((st, out), tr, w2)))
    ∧ (∀ (σ : Type) (hw : Gpio σ) (c : Twi) (fuel address len sendStop : Nat)
        (buf : Nat → Nat) (w w0 w1 : σ) (t0 t1 : List Ev), 201 ≤ fuel →
        twi_write_start hw c w = some (true, t0, w0) →
        twi_write_byte hw c 80000000 fuel ((((address % 256) <<< 1) ||| 1) &&& 0xFF) w0
          = some (true, t1, w1) →
        ∃ out tr w2, twi_readFrom hw c 80000000 fuel address buf len sendStop w
          = some ((0, out), tr, w2)) := by
  refine ⟨?_, ?_, ?_, ?_, ?_, ?_⟩
  · intro σ hw c F_CPU fuel address len sendStop buf w w2 st tr h
    rcases twi_writeTo_some hw c F_CPU fuel address len sendStop buf w w2 st tr h with
      h | h | h | h | h
    · exact Or.inr (Or.inr (Or.inr h.1))
    · exact Or.inr (Or.inl h.1)
    · exact Or.inr (Or.inr (Or.inl h.1))
    · exact Or.inl h.1
    · exact Or.inl h.1
  · intro σ hw c F_CPU fuel address len sendStop buf out w w2 st tr h
    rcases twi_readFrom_some hw c F_CPU fuel address len sendStop buf out w w2 st tr h with
      h | h | h | h
    · exact Or.inr (Or.inr h.1)
    · exact Or.inr (Or.inl h.1)
    · exact Or.inl h.1
    · exact Or.inl h.1
  · intro σ hw c F_CPU fuel address len sendStop buf out w w0 w1 w2 t0 t1 tr st hstart haddr h
    exact (twi_readFrom_address_phase hw c F_CPU fuel address len sendStop buf w w0 w1 t0 t1
      true hstart haddr).2 rfl st out tr w2 h
  · intro σ hw c F_CPU fuel address len sendStop buf hex hfuel
    exact ⟨Returns.twi_writeTo hw c F_CPU fuel hex address len sendStop buf,
      Returns.twi_readFrom hw c F_CPU fuel hex hfuel address len sendStop buf⟩
  · intro σ hw c fuel address len sendStop buf w hfuel
    have hex := Returns.clockStretch_80 hw c fuel hfuel
    refine ⟨Returns.twi_writeTo hw c 80000000 fuel hex address len sendStop buf w, ?_⟩
    obtain ⟨⟨st, out⟩, tr, w2, h⟩ :=
      Returns.twi_readFrom hw c 80000000 fuel hex (by omega) address len sendStop buf w
    exact ⟨st, out, tr, w2, h⟩
  · intro σ hw c fuel address len sendStop buf w w0 w1 t0 t1 hfuel hstart haddr
    have hex := Returns.clockStretch_80 hw c fuel hfuel
    obtain ⟨⟨st, out⟩, tr, w2, h⟩ :=
      Returns.twi_readFrom hw c 80000000 fuel hex (by omega) address len sendStop buf w
    have hst := (twi_readFrom_address_phase hw c 80000000 fuel address len sendStop buf w w0 w1
      t0 t1 true hstart haddr).2 rfl st out tr w2 h
    subst hst
    exact ⟨out, tr, w2, h⟩

/-- C12: for every address `a < 128`, when the start condition succeeds, the byte
handed to `twi_write_byte` is `2 * a` by `twi_writeTo` and `2 * a + 1` by
`twi_readFrom`, and the pin actions of `twi_writeTo` begin with the start sequence
followed by eight write cycles that carry the seven bits of `a`, most significant
first, then 0, and those of `twi_readFrom` with the same followed by 1. This holds
of every run that returns, in every build; both calls do return whenever the
clock-stretch loop does, and in the 80 MHz build, given a budget of 201 iterations,
both calls return, with a trace that begins so. -/
theorem address_byte_on_the_bus {σ : Type} (hw : Gpio σ) (c : Twi)
    (F_CPU fuel a len sendStop : Nat) (buf : Nat → Nat) (w w0 : σ) (t0 : List Ev)
    (ha : a < 128) (hstart : twi_write_start hw c w = some (true, t0, w0)) :
    ((((a % 256) <<< 1) ||| 0) &&& 0xFF = 2 * a)
    ∧ ((((a % 256) <<< 1) ||| 1) &&& 0xFF = 2 * a + 1)
    ∧ (∀ (st : Nat) (tr : List Ev) (w2 : σ),
        twi_writeTo hw c F_CPU fuel a buf len sendStop w = some (st, tr, w2) →
        ∃ (ps : List (List Ev)) (p9 : List Ev) (level : Bool) (rest : List Ev),
          ps.length = 8 ∧ (∀ p ∈ ps, sclReads c p) ∧ sclReads c p9
          ∧ tr = startTrace c
              ++ ((List.zipWith (writeBitSeq c) (addressBits a ++ [false]) ps).flatten
                ++ readBitSeq c p9 level) ++ rest)
    ∧ (∀ (st : Nat) (out : Nat → Nat) (tr : List Ev) (w2 : σ),
        twi_readFrom hw c F_CPU fuel a buf len sendStop w = some ((st, out), tr, w2) →
        ∃ (ps : List (List Ev)) (p9 : List Ev) (level : Bool) (rest : List Ev),
          ps.length = 8 ∧ (∀ p ∈ ps, sclReads c p) ∧ sclReads c p9
          ∧ tr = startTrace c
              ++ ((List.zipWith (writeBitSeq c) (addressBits a ++ [true]) ps).flatten
                ++ readBitSeq c p9 level) ++ rest)
    ∧ (Returns (clockStretch hw c F_CPU fuel 0) → 11 ≤ fuel →
        (∃ (st : Nat) (tr : List Ev) (w2 : σ),
          twi_writeTo hw c F_CPU fuel a buf len sendStop w = some (st, tr, w2))
        ∧ (∃ (st : Nat) (out : Nat → Nat) (tr : List Ev) (w2 : σ),
          twi_readFrom hw c F_CPU fuel a buf len sendStop w = some ((st, out), tr, w2)))
    ∧ (201 ≤ fuel →
        (∃ (st : Nat) (tr : List Ev) (w2 : σ) (ps : List (List Ev)) (p9 : List Ev)
            (level : Bool) (rest : List Ev),
          twi_writeTo hw c 80000000 fuel a buf len sendStop w = some (st, tr, w2)
          ∧ ps.length = 8 ∧ (∀ p ∈ ps, sclReads c p) ∧ sclReads c p9
          ∧ tr = startTrace c
              ++ ((List.zipWith (writeBitSeq c) (addressBits a ++ [false]) ps).flatten
                ++ readBitSeq c p9 level) ++ rest)
        ∧ (∃ (st : Nat) (out : Nat → Nat) (tr : List Ev) (w2 : σ) (ps : List (List Ev))
            (p9 : List Ev) (level : Bool) (rest : List Ev),
          twi_readFrom hw c 80000000 fuel a buf len sendStop w = some ((st, out), tr, w2)
          ∧ ps.length = 8 ∧ (∀ p ∈ ps, sclReads c p) ∧ sclReads c p9
          ∧ tr = startTrace c
              ++ ((List.zipWith (writeBitSeq c) (addressBits a ++ [true]) ps).flatten
                ++ readBitSeq c p9 level) ++ rest)) := by
  obtain ⟨hw1, hw2⟩ := address_byte_write a ha
  obtain ⟨hr1, hr2⟩ := address_byte_read a ha
  have ht0 : t0 = startTrace c := by
    rcases twi_write_start_some hw c true w w0 t0 hstart with ⟨_, h⟩ | ⟨h, _⟩
    · exact h
    · cases h
  have keyW : ∀ (F : Nat) (st : Nat) (tr : List Ev) (w2 : σ),
      twi_writeTo hw c F fuel a buf len sendStop w = some (st, tr, w2) →
      ∃ (ps : List (List Ev)) (p9 : List Ev) (level : Bool) (rest : List Ev),
        ps.length = 8 ∧ (∀ p ∈ ps, sclReads c p) ∧ sclReads c p9
        ∧ tr = startTrace c
            ++ ((List.zipWith (writeBitSeq c) (addressBits a ++ [false]) ps).flatten
              ++ readBitSeq c p9 level) ++ rest := by
    intro F st tr w2 h
    have hpre : ∃ tA, tr = startTrace c ++ tA := by
      have h' := h
      unfold twi_writeTo at h'
      obtain ⟨_, t0', _, tA, hs, _, rfl⟩ := (Run.bind_eq_some _ _ _ _ _ _).1 h'
      rw [hstart] at hs
      simp only [Option.some.injEq, Prod.mk.injEq] at hs
      exact ⟨tA, by rw [← hs.2.1, ht0]⟩
    obtain ⟨tA, hA⟩ := hpre
    rcases twi_writeTo_some hw c F fuel a len sendStop buf w w2 st tr h with
      ⟨_, h4⟩ | ⟨_, ps, p9, h1, h2, h3, h4⟩ | ⟨_, ps, p9, data, h1, h2, h3, _, h4⟩
        | ⟨_, _, ps, p9, data, h1, h2, h3, _, h4⟩
        | ⟨_, _, ps, p9, data, polls, h1, h2, h3, _, _, h4⟩
    · exact absurd (hA ▸ h4) (startTrace_ne_busyTrace c tA)
    · exact ⟨ps, p9, false, [], h1, h2, h3, by rw [h4, hw1, writeByteSeq, hw2]; simp⟩
    · exact ⟨ps, p9, true, data, h1, h2, h3, by rw [h4, hw1, writeByteSeq, hw2]⟩
    · exact ⟨ps, p9, true, data, h1, h2, h3, by rw [h4, hw1, writeByteSeq, hw2]⟩
    · exact ⟨ps, p9, true, data ++ stopSeq c polls, h1, h2, h3,
        by rw [h4, hw1, writeByteSeq, hw2]; simp⟩
  have keyR : ∀ (F : Nat) (st : Nat) (out : Nat → Nat) (tr : List Ev) (w2 : σ),
      twi_readFrom hw c F fuel a buf len sendStop w = some ((st, out), tr, w2) →
      ∃ (ps : List (List Ev)) (p9 : List Ev) (level : Bool) (rest : List Ev),
        ps.length = 8 ∧ (∀ p ∈ ps, sclReads c p) ∧ sclReads c p9
        ∧ tr = startTrace c
            ++ ((List.zipWith (writeBitSeq c) (addressBits a ++ [true]) ps).flatten
              ++ readBitSeq c p9 level) ++ rest := by
    intro F st out tr w2 h
    have hpre : ∃ tA, tr = startTrace c ++ tA := by
      have h' := h
      unfold twi_readFrom at h'
      obtain ⟨_, t0', _, tA, hs, _, rfl⟩ := (Run.bind_eq_some _ _ _ _ _ _).1 h'
      rw [hstart] at hs
      simp only [Option.some.injEq, Prod.mk.injEq] at hs
      exact ⟨tA, by rw [← hs.2.1, ht0]⟩
    obtain ⟨tA, hA⟩ := hpre
    rcases twi_readFrom_some hw c F fuel a len sendStop buf out w w2 st tr h with
      ⟨_, _, h4⟩ | ⟨_, _, ps, p9, h1, h2, h3, h4⟩
        | ⟨_, _, ps, p9, recs, h1, h2, h3, _, _, _, h4⟩
        | ⟨_, _, ps, p9, recs, polls, n, l, h1, h2, h3, _, _, _, _, _, _, h4⟩
    · exact absurd (hA ▸ h4) (startTrace_ne_busyTrace c tA)
    · exact ⟨ps, p9, false, [], h1, h2, h3, by rw [h4, hr1, writeByteSeq, hr2]; simp⟩
    · exact ⟨ps, p9, true, _, h1, h2, h3, by rw [h4, hr1, writeByteSeq, hr2]⟩
    · exact ⟨ps, p9, true, readBytesSeq c false recs ++ (stopSeq c polls
          ++ ((List.replicate n (pulseSeq c)).flatten ++ [Ev.read c.twi_sda l])),
        h1, h2, h3, by rw [h4, hr1, writeByteSeq, hr2]; simp only [List.append_assoc]⟩
  refine ⟨hw1, hr1, keyW F_CPU, keyR F_CPU, ?_, ?_⟩
  · intro hex hfuel
    refine ⟨Returns.twi_writeTo hw c F_CPU fuel hex a len sendStop buf w, ?_⟩
    obtain ⟨⟨st, out⟩, tr, w2, h⟩ :=
      Returns.twi_readFrom hw c F_CPU fuel hex hfuel a len sendStop buf w
    exact ⟨st, out, tr, w2, h⟩
  · intro hfuel
    have hex := Returns.clockStretch_80 hw c fuel hfuel
    constructor
    · obtain ⟨st, tr, w2, h⟩ := Returns.twi_writeTo hw c 80000000 fuel hex a len sendStop buf w
      obtain ⟨ps, p9, level, rest, h1, h2, h3, h4⟩ := keyW 80000000 st tr w2 h
      exact ⟨st, tr, w2, ps, p9, level, rest, h, h1, h2, h3, h4⟩
    · obtain ⟨⟨st, out⟩, tr, w2, h⟩ :=
        Returns.twi_readFrom hw c 80000000 fuel hex (by omega) a len sendStop buf w
      obtain ⟨ps, p9, level, rest, h1, h2, h3, h4⟩ := keyR 80000000 st out tr w2 h
      exact ⟨st, out, tr, w2, ps, p9, level, rest, h, h1, h2, h3, h4⟩

/-- C12 at a concrete input: address 0x50 on the simulated bus, in the 80 MHz build
with a budget of 201. The seven address bits are 1010000. The write transmits the
start sequence and the nine clock cycles of the byte 0xA0, the read those of the
byte 0xA1, and both calls return with a trace that begins as the theorem says. -/
theorem address_byte_on_the_bus_witness :
    (0x50 < 128)
    ∧ twi_write_start hw0 cfg0 (simIdle 0x50 16 [])
        = some (true, startTrace cfg0, simStarted 0x50 16 [])
    ∧ addressBits 0x50 = [true, false, true, false, false, false, false]
    ∧ bitsMSB 0xA0 = addressBits 0x50 ++ [false]
    ∧ bitsMSB 0xA1 = addressBits 0x50 ++ [true]
    ∧ twi_writeTo hw0 cfg0 80000000 201 0x50 (bufOf []) 0 1 (simIdle 0x50 16 [])
        = some (2, startTrace cfg0 ++ writeByteTrace cfg0 0xA0 false, simAcked 0x50 16 [] 0xA0)
    ∧ twi_readFrom hw0 cfg0 80000000 201 0x50 (bufOf []) 0 1 (simIdle 0x50 16 [])
        = some ((2, bufOf []), startTrace cfg0 ++ writeByteTrace cfg0 0xA1 false,
            simAcked 0x50 16 [] 0xA1)
    ∧ ((∃ (st : Nat) (tr : List Ev) (w2 : Sim) (ps : List (List Ev)) (p9 : List Ev)
            (level : Bool) (rest : List Ev),
          twi_writeTo hw0 cfg0 80000000 201 0x50 (bufOf []) 0 1 (simIdle 0x50 16 [])
            = some (st, tr, w2)
          ∧ ps.length = 8 ∧ (∀ p ∈ ps, sclReads cfg0 p) ∧ sclReads cfg0 p9
          ∧ tr = startTrace cfg0
              ++ ((List.zipWith (writeBitSeq cfg0) (addressBits 0x50 ++ [false]) ps).flatten
                ++ readBitSeq cfg0 p9 level) ++ rest)
        ∧ (∃ (st : Nat) (out : Nat → Nat) (tr : List Ev) (w2 : Sim) (ps : List (List Ev))
            (p9 : List Ev) (level : Bool) (rest : List Ev),
          twi_readFrom hw0 cfg0 80000000 201 0x50 (bufOf []) 0 1 (simIdle 0x50 16 [])
            = some ((st, out), tr, w2)
          ∧ ps.length = 8 ∧ (∀ p ∈ ps, sclReads cfg0 p) ∧ sclReads cfg0 p9
          ∧ tr = startTrace cfg0
              ++ ((List.zipWith (writeBitSeq cfg0) (addressBits 0x50 ++ [true]) ps).flatten
                ++ readBitSeq cfg0 p9 level) ++ rest)) :=
  ⟨by decide, by decide, by decide, by decide, by decide, by decide, rfl,
   (address_byte_on_the_bus hw0 cfg0 80000000 201 0x50 0 1 (bufOf []) (simIdle 0x50 16 [])
      (simStarted 0x50 16 []) (startTrace cfg0) (by decide) (by decide)).2.2.2.2.2
      (by decide)⟩

/-- C13: for every byte value `x`, `twi_write_byte(x)` is exactly eight
`twi_write_bit` calls followed by exactly one `twi_read_bit` call, and the call
number `j` (from 0) carries bit `7 - j` of `x`: most significant bit first. A
`twi_write_bit` call releases SDA for a 1 and pulls it low for a 0, in the second
action of its clock cycle. So the trace of a `twi_write_byte` that returns is the
eight write cycles of those bits and one read cycle; it does return whenever the
clock-stretch loop does, which in the 80 MHz build is always, given a budget of 201
iterations. -/
theorem write_byte_msb_first {σ : Type} (hw : Gpio σ) (c : Twi) (F_CPU fuel x : Nat) :
    twi_write_byte hw c F_CPU fuel x
      = (Run.forEach (twi_write_bit hw c F_CPU fuel)
          [x.testBit 7, x.testBit 6, x.testBit 5, x.testBit 4,
            x.testBit 3, x.testBit 2, x.testBit 1, x.testBit 0] >>= fun _ =>
          twi_read_bit hw c F_CPU fuel)
    ∧ (∀ (bit r : Bool) (w w1 : σ) (tr : List Ev),
        twi_write_bit hw c F_CPU fuel bit w = some (r, tr, w1) →
        ∃ polls, sclReads c polls
          ∧ tr = [Ev.low c.twi_scl, if bit then Ev.high c.twi_sda else Ev.low c.twi_sda,
                  Ev.delay ((c.twi_dcount + 1) % 256), Ev.high c.twi_scl] ++ polls
                ++ [Ev.delay ((c.twi_dcount + 1) % 256)])
    ∧ (∀ (r : Bool) (w w1 : σ) (tr : List Ev),
        twi_write_byte hw c F_CPU fuel x w = some (r, tr, w1) →
        ∃ (ps : List (List Ev)) (p9 : List Ev), ps.length = 8 ∧ (∀ p ∈ ps, sclReads c p)
          ∧ sclReads c p9
          ∧ tr = (List.zipWith (writeBitSeq c)
                [x.testBit 7, x.testBit 6, x.testBit 5, x.testBit 4,
                  x.testBit 3, x.testBit 2, x.testBit 1, x.testBit 0] ps).flatten
              ++ readBitSeq c p9 r)
    ∧ (Returns (clockStretch hw c F_CPU fuel 0) → Returns (twi_write_byte hw c F_CPU fuel x))
    ∧ (∀ budget, 201 ≤ budget → Returns (twi_write_byte hw c 80000000 budget x)) := by
  have hbits : bitsMSB x = [x.testBit 7, x.testBit 6, x.testBit 5, x.testBit 4,
      x.testBit 3, x.testBit 2, x.testBit 1, x.testBit 0] := rfl
  refine ⟨?_, ?_, ?_, ?_, ?_⟩
  · rw [twi_write_byte_eq, hbits]
  · intro bit r w w1 tr h
    obtain ⟨_, polls, hp, ht⟩ := twi_write_bit_some hw c F_CPU fuel bit r w w1 tr h
    exact ⟨polls, hp, ht⟩
  · intro r w w1 tr h
    obtain ⟨ps, p9, h1, h2, h3, h4⟩ := twi_write_byte_some hw c F_CPU fuel x r w w1 tr h
    exact ⟨ps, p9, h1, h2, h3, by rw [h4, writeByteSeq, hbits]⟩
  · intro hex
    exact Returns.twi_write_byte hw c F_CPU fuel hex x
  · intro budget hb
    exact Returns.twi_write_byte hw c 80000000 budget (Returns.clockStretch_80 hw c budget hb) x

/-- C14: `twi_read_byte(nack)` is exactly eight `twi_read_bit` calls followed by
exactly one `twi_write_bit(nack)` call. When it returns, its trace is eight read
cycles, which show the sampled bits `s0 .. s7` in the order they were read, and
the write cycle of `nack` (SDA pulled low for `false`, released for `true`); the
value returned is `s0*128 + s1*64 + ... + s7`. It does return whenever the
clock-stretch loop does, which in the 80 MHz build is always, given a budget of 201
iterations. -/
theorem read_byte_big_endian {σ : Type} (hw : Gpio σ) (c : Twi) (F_CPU fuel : Nat)
    (nack : Bool) :
    twi_read_byte hw c F_CPU fuel nack
      = (Run.times (twi_read_bit hw c F_CPU fuel) 8 >>= fun ss =>
          twi_write_bit hw c F_CPU fuel nack >>= fun _ =>
            Pure.pure (ss.foldl (fun a s => ((a <<< 1) ||| s.toNat) % 256) 0))
    ∧ (∀ (b : Nat) (w w1 : σ) (tr : List Ev),
        twi_read_byte hw c F_CPU fuel nack w = some (b, tr, w1) →
        ∃ (s0 s1 s2 s3 s4 s5 s6 s7 : Bool) (p0 p1 p2 p3 p4 p5 p6 p7 p9 : List Ev),
          (∀ p ∈ [p0, p1, p2, p3, p4, p5, p6, p7, p9], sclReads c p)
          ∧ tr = readBitSeq c p0 s0 ++ readBitSeq c p1 s1 ++ readBitSeq c p2 s2
              ++ readBitSeq c p3 s3 ++ readBitSeq c p4 s4 ++ readBitSeq c p5 s5
              ++ readBitSeq c p6 s6 ++ readBitSeq c p7 s7 ++ writeBitSeq c nack p9
          ∧ b = s0.toNat * 128 + s1.toNat * 64 + s2.toNat * 32 + s3.toNat * 16
              + s4.toNat * 8 + s5.toNat * 4 + s6.toNat * 2 + s7.toNat)
    ∧ (Returns (clockStretch hw c F_CPU fuel 0) →
        Returns (twi_read_byte hw c F_CPU fuel nack))
    ∧ (∀ budget, 201 ≤ budget → Returns (twi_read_byte hw c 80000000 budget nack)) := by
  refine ⟨?_, ?_, ?_, ?_⟩
  · unfold twi_read_byte
    rw [twi_read_byte_loop_eq, Run.bind_assoc]
    congr 1
    funext ss
    rw [Run.pure_bind]
  · intro b w w1 tr h
    obtain ⟨ss, ps, p9, hs, hp, hps, hp9, rfl, rfl⟩ :=
      twi_read_byte_some hw c F_CPU fuel nack b w w1 tr h
    match ss, hs, ps, hp, hps with
    | [s0, s1, s2, s3, s4, s5, s6, s7], _, [p0, p1, p2, p3, p4, p5, p6, p7], _, hps =>
      refine ⟨s0, s1, s2, s3, s4, s5, s6, s7, p0, p1, p2, p3, p4, p5, p6, p7, p9, ?_, ?_, ?_⟩
      · intro p hp
        simp only [List.mem_cons, List.mem_singleton, List.not_mem_nil, or_false] at hp
        rcases hp with rfl | rfl | rfl | rfl | rfl | rfl | rfl | rfl | rfl
        all_goals first | exact hp9 | exact hps _ (by simp)
      · simp [readByteSeq]
      · have key : ∀ t0 t1 t2 t3 t4 t5 t6 t7 : Bool,
            assemble [t0, t1, t2, t3, t4, t5, t6, t7]
              = t0.toNat * 128 + t1.toNat * 64 + t2.toNat * 32 + t3.toNat * 16
                + t4.toNat * 8 + t5.toNat * 4 + t6.toNat * 2 + t7.toNat := by decide
        exact key s0 s1 s2 s3 s4 s5 s6 s7
  · intro hex
    exact Returns.twi_read_byte hw c F_CPU fuel hex nack
  · intro budget hb
    exact Returns.twi_read_byte hw c 80000000 budget (Returns.clockStretch_80 hw c budget hb)
      nack

/-- C15: with SDA and SCL on different pins, in the trace of every `twi_write_bit`,
`twi_read_bit`, `twi_write_byte` and `twi_read_byte` call that returns, every SDA
drive action (pull low or release) comes after an SCL pull-low of the same call
with no SCL release in between: scanning the trace from any state of the master's
pins, no SDA drive action is issued while SCL is released. The SDA drive actions
issued while SCL is released are exactly the release and the pull-low of
`twi_write_start` (the release alone when it finds the bus busy) and the release
at the end of `twi_write_stop`. -/
theorem sda_changes_only_while_scl_low {σ : Type} (hw : Gpio σ) (c : Twi) (F_CPU fuel : Nat)
    (hne : c.twi_sda ≠ c.twi_scl) :
    (∀ (bit r : Bool) (w w1 : σ) (tr : List Ev) (p : Pins),
        twi_write_bit hw c F_CPU fuel bit w = some (r, tr, w1) →
        releasedSdaDrives c p tr = [])
    ∧ (∀ (b : Bool) (w w1 : σ) (tr : List Ev) (p : Pins),
        twi_read_bit hw c F_CPU fuel w = some (b, tr, w1) →
        releasedSdaDrives c p tr = [])
    ∧ (∀ (x : Nat) (r : Bool) (w w1 : σ) (tr : List Ev) (p : Pins),
        twi_write_byte hw c F_CPU fuel x w = some (r, tr, w1) →
        releasedSdaDrives c p tr = [])
    ∧ (∀ (nack : Bool) (b : Nat) (w w1 : σ) (tr : List Ev) (p : Pins),
        twi_read_byte hw c F_CPU fuel nack w = some (b, tr, w1) →
        releasedSdaDrives c p tr = [])
    ∧ (∀ (started : Bool) (w w0 : σ) (t0 : List Ev) (p : Pins),
        twi_write_start hw c w = some (started, t0, w0) →
        releasedSdaDrives c p t0
          = if started then [Ev.high c.twi_sda, Ev.low c.twi_sda] else [Ev.high c.twi_sda])
    ∧ (∀ (r : Bool) (w w1 : σ) (tr : List Ev) (p : Pins),
        twi_write_stop hw c F_CPU fuel w = some (r, tr, w1) →
        releasedSdaDrives c p tr = [Ev.high c.twi_sda]) := by
  refine ⟨?_, ?_, ?_, ?_, ?_, ?_⟩
  · intro bit r w w1 tr p h
    obtain ⟨_, polls, hp, rfl⟩ := twi_write_bit_some hw c F_CPU fuel bit r w w1 tr h
    exact (scan_writeBitSeq c hne bit polls hp p).2.1
  · intro b w w1 tr p h
    obtain ⟨polls, hp, rfl⟩ := twi_read_bit_some hw c F_CPU fuel b w w1 tr h
    exact (scan_readBitSeq c hne b polls hp p).2.1
  · intro x r w w1 tr p h
    obtain ⟨ps, p9, _, hps, hp9, rfl⟩ := twi_write_byte_some hw c F_CPU fuel x r w w1 tr h
    exact (scan_bitCycles c hne _ (bitCycles_writeByteSeq c x ps p9 r hps hp9) p).1
  · intro nack b w w1 tr p h
    obtain ⟨ss, ps, p9, _, _, hps, hp9, rfl, _⟩ :=
      twi_read_byte_some hw c F_CPU fuel nack b w w1 tr h
    exact (scan_bitCycles c hne _ (bitCycles_readByteSeq c ss ps p9 nack hps hp9) p).1
  · intro started w w0 t0 p h
    rcases twi_write_start_some hw c started w w0 t0 h with ⟨rfl, rfl⟩ | ⟨rfl, rfl⟩
    · exact (scan_startTrace c hne p).2.1
    · exact (scan_busyTrace c hne p).2.1
  · intro r w w1 tr p h
    obtain ⟨_, polls, hp, rfl⟩ := twi_write_stop_some hw c F_CPU fuel r w w1 tr h
    exact (scan_stopSeq c hne polls hp p).2.1

/-- C15 at a concrete input: pins 4 and 5; a `twi_write_bit(0)` after a start on the
simulated bus pulls SDA low under SCL low, and a stop condition on the idle bus
releases SDA with SCL released. -/
theorem sda_changes_only_while_scl_low_witness :
    cfg0.twi_sda ≠ cfg0.twi_scl
    ∧ twi_write_bit hw0 cfg0 80000000 201 false (simStarted 0x50 16 [])
        = some (true, writeBitTrace cfg0 false, { simStarted 0x50 16 [] with nbits := 1 })
    ∧ releasedSdaDrives cfg0 { sclLow := false, sdaLow := true } (writeBitTrace cfg0 false) = []
    ∧ twi_write_stop hw0 cfg0 80000000 201 (simIdle 0x50 16 [])
        = some (true, stopTrace cfg0, simIdle 0x50 16 [])
    ∧ releasedSdaDrives cfg0 { sclLow := false, sdaLow := false } (stopTrace cfg0)
        = [Ev.high 4] :=
  ⟨by decide, by decide,
   (sda_changes_only_while_scl_low hw0 cfg0 80000000 201 (by decide)).1 false true
      (simStarted 0x50 16 []) { simStarted 0x50 16 [] with nbits := 1 }
      (writeBitTrace cfg0 false) { sclLow := false, sdaLow := true } (by decide),
   by decide,
   (sda_changes_only_while_scl_low hw0 cfg0 80000000 201 (by decide)).2.2.2.2.2 true
      (simIdle 0x50 16 []) (simIdle 0x50 16 []) (stopTrace cfg0)
      { sclLow := false, sdaLow := false } (by decide)⟩

/-- C16: in either build, when the slave holds SCL low for `n` polls, `n` at most
`TWI_CLOCK_STRETCH`, and SCL reads high at the next one, the clock-stretch loop
makes exactly those `n + 1` reads and exits on the first that is high. So
`twi_read_bit` samples SDA right after that poll and returns the level SDA has
then, and `twi_write_bit` and `twi_write_stop` go on to their closing actions only
after it. The hypothesis on the line is stated from the state in which the
primitive has just released SCL. -/
theorem clock_stretch_honoured {σ : Type} (hw : Gpio σ) (c : Twi) (F_CPU fuel n : Nat)
    (hn : n ≤ TWI_CLOCK_STRETCH F_CPU) (hfuel : n < fuel) :
    (∀ u : σ, Stretched hw c n u →
        clockStretch hw c F_CPU fuel 0 u
          = some ((), List.replicate n (Ev.read c.twi_scl false) ++ [Ev.read c.twi_scl true],
              hw.tick^[n + 1] u))
    ∧ (∀ w : σ,
        Stretched hw c n (hw.disable c.twi_scl (hw.tick^[(c.twi_dcount + 1) % 256]
          (hw.disable c.twi_sda (hw.enable c.twi_scl w)))) →
        twi_read_bit hw c F_CPU fuel w
          = some (hw.level (hw.tick^[n + 1] (hw.disable c.twi_scl
                (hw.tick^[(c.twi_dcount + 1) % 256]
                  (hw.disable c.twi_sda (hw.enable c.twi_scl w))))) c.twi_sda,
              [Ev.low c.twi_scl, Ev.high c.twi_sda, Ev.delay ((c.twi_dcount + 1) % 256),
                Ev.high c.twi_scl]
                ++ (List.replicate n (Ev.read c.twi_scl false) ++ [Ev.read c.twi_scl true])
                ++ [Ev.read c.twi_sda (hw.level (hw.tick^[n + 1] (hw.disable c.twi_scl
                      (hw.tick^[(c.twi_dcount + 1) % 256]
                        (hw.disable c.twi_sda (hw.enable c.twi_scl w))))) c.twi_sda),
                    Ev.delay (c.twi_dcount % 256)],
              hw.tick^[c.twi_dcount % 256] (hw.tick (hw.tick^[n + 1] (hw.disable c.twi_scl
                (hw.tick^[(c.twi_dcount + 1) % 256]
                  (hw.disable c.twi_sda (hw.enable c.twi_scl w))))))))
    ∧ (∀ (bit : Bool) (w : σ),
        Stretched hw c n (hw.disable c.twi_scl (hw.tick^[(c.twi_dcount + 1) % 256]
          ((if bit then hw.disable c.twi_sda else hw.enable c.twi_sda)
            (hw.enable c.twi_scl w)))) →
        twi_write_bit hw c F_CPU fuel bit w
          = some (true,
              [Ev.low c.twi_scl, if bit then Ev.high c.twi_sda else Ev.low c.twi_sda,
                Ev.delay ((c.twi_dcount + 1) % 256), Ev.high c.twi_scl]
                ++ (List.replicate n (Ev.read c.twi_scl false) ++ [Ev.read c.twi_scl true])
                ++ [Ev.delay ((c.twi_dcount + 1) % 256)],
              hw.tick^[(c.twi_dcount + 1) % 256] (hw.tick^[n + 1] (hw.disable c.twi_scl
                (hw.tick^[(c.twi_dcount + 1) % 256]
                  ((if bit then hw.disable c.twi_sda else hw.enable c.twi_sda)
                    (hw.enable c.twi_scl w)))))))
    ∧ (∀ w : σ,
        Stretched hw c n (hw.disable c.twi_scl (hw.tick^[c.twi_dcount % 256]
          (hw.enable c.twi_sda (hw.enable c.twi_scl w)))) →
        twi_write_stop hw c F_CPU fuel w
          = some (true,
              [Ev.low c.twi_scl, Ev.low c.twi_sda, Ev.delay (c.twi_dcount % 256),
                Ev.high c.twi_scl]
                ++ (List.replicate n (Ev.read c.twi_scl false) ++ [Ev.read c.twi_scl true])
                ++ [Ev.delay (c.twi_dcount % 256), Ev.high c.twi_sda,
                    Ev.delay (c.twi_dcount % 256)],
              hw.tick^[c.twi_dcount % 256] (hw.disable c.twi_sda
                (hw.tick^[c.twi_dcount % 256] (hw.tick^[n + 1] (hw.disable c.twi_scl
                  (hw.tick^[c.twi_dcount % 256]
                    (hw.enable c.twi_sda (hw.enable c.twi_scl w))))))))) := by
  have key : ∀ u : σ, Stretched hw c n u →
      clockStretch hw c F_CPU fuel 0 u = some ((), stretchPolls c n, hw.tick^[n + 1] u) :=
    fun u hu => clockStretch_honours hw c F_CPU n 0 fuel u hfuel
      (counter_below_bound F_CPU n hn) (by decide) hu
  refine ⟨key, ?_, ?_, ?_⟩
  · intro w hs
    rw [twi_read_bit_eq, key _ hs]
    rfl
  · intro bit w hs
    rw [twi_write_bit_eq, key _ hs]
    rfl
  · intro w hs
    rw [twi_write_stop_eq, key _ hs]
    rfl

/-- C16 at a concrete input: a slave that holds SCL low for 3 polls, in the 80 MHz
build. `twi_read_bit` polls SCL four times, the last read being high, then samples
SDA, which is high. -/
theorem clock_stretch_honoured_witness :
    (3 ≤ TWI_CLOCK_STRETCH 80000000) ∧ (3 < 201)
    ∧ twi_read_bit (stretchGpio 4 5) cfg0 80000000 201 (stretchIdle 3)
        = some (true,
            [Ev.low 5, Ev.high 4, Ev.delay 19, Ev.high 5, Ev.read 5 false, Ev.read 5 false,
              Ev.read 5 false, Ev.read 5 true, Ev.read 4 true, Ev.delay 18],
            stretchIdle 3) :=
  ⟨by decide, by decide,
   (clock_stretch_honoured (stretchGpio 4 5) cfg0 80000000 201 3 (by decide) (by decide)).2.1
      (stretchIdle 3) ⟨by decide, by decide⟩⟩

/-- C17: once `twi_readFrom` has passed its address phase (the start succeeded and
the address byte did not make the call return), its data loop is exactly `len`
calls of `twi_read_byte(false)`, the bytes stored in order from `buf[0]`: an
equation of programs, for every build and GPIO layer. Whenever the call returns,
after the start sequence and the address byte its trace holds `len` byte reads,
each eight read cycles followed by a write cycle that pulls SDA low (ACK), the last
byte included; the byte assembled by call `i` is in `buf[i]` for `i < len`, the
buffer is as it was from `len` on; and nothing follows the data but the stop
sequence and the recovery loop: no write cycle releases SDA (NACK) anywhere. The
call does return, with status 0, whenever the clock-stretch loop returns; in the
80 MHz build, given a budget of 201 iterations, that is always, so there the call
returns with status 0 and such a trace whatever the lines do. In a build other than
80 MHz the clock-stretch loop need not return while SCL is held low, and a call
that waits in it returns nothing: for that build the trace and the buffer are
described for the runs that return. -/
theorem readFrom_always_acks {σ : Type} (hw : Gpio σ) (c : Twi)
    (F_CPU fuel address len sendStop : Nat) (buf : Nat → Nat) (w w0 w1 : σ)
    (t0 t1 : List Ev)
    (hlen : len < 4294967296)
    (hstart : twi_write_start hw c w = some (true, t0, w0))
    (haddr : twi_write_byte hw c F_CPU fuel ((((address % 256) <<< 1) ||| 1) &&& 0xFF) w0
      = some (true, t1, w1)) :
    twi_readFrom.loop hw c F_CPU fuel len 0 buf
      = (Run.times (twi_read_byte hw c F_CPU fuel false) len >>= fun bytes =>
          Pure.pure (storeBytes buf 0 bytes))
    ∧ (∀ (st : Nat) (out : Nat → Nat) (tr : List Ev) (w2 : σ),
        twi_readFrom hw c F_CPU fuel address buf len sendStop w = some ((st, out), tr, w2) →
        ∃ (recs : List ByteRead) (rest : List Ev), recs.length = len ∧ (∀ r ∈ recs, r.ok c)
          ∧ tr = t0 ++ t1
              ++ (recs.map fun r =>
                    (List.zipWith (readBitSeq c) r.polls r.bits).flatten
                      ++ ([Ev.low c.twi_scl, Ev.low c.twi_sda,
                            Ev.delay ((c.twi_dcount + 1) % 256), Ev.high c.twi_scl] ++ r.last
                          ++ [Ev.delay ((c.twi_dcount + 1) % 256)])).flatten
              ++ rest
          ∧ (∀ i < len, out i = (recs.map fun r => assemble r.bits).getD i 0)
          ∧ (∀ j, len ≤ j → out j = buf j)
          ∧ (rest = [] ∨ ∃ polls n l, sclReads c polls
              ∧ rest = stopSeq c polls
                  ++ ((List.replicate n (pulseSeq c)).flatten ++ [Ev.read c.twi_sda l])))
    ∧ (Returns (clockStretch hw c F_CPU fuel 0) → 11 ≤ fuel →
        ∃ (out : Nat → Nat) (tr : List Ev) (w2 : σ),
          twi_readFrom hw c F_CPU fuel address buf len sendStop w = some ((0, out), tr, w2))
    ∧ (F_CPU = 80000000 → 201 ≤ fuel →
        ∃ (out : Nat → Nat) (tr : List Ev) (w2 : σ) (recs : List ByteRead) (rest : List Ev),
          twi_readFrom hw c F_CPU fuel address buf len sendStop w = some ((0, out), tr, w2)
          ∧ recs.length = len ∧ (∀ r ∈ recs, r.ok c)
          ∧ tr = t0 ++ t1
              ++ (recs.map fun r =>
                    (List.zipWith (readBitSeq c) r.polls r.bits).flatten
                      ++ ([Ev.low c.twi_scl, Ev.low c.twi_sda,
                            Ev.delay ((c.twi_dcount + 1) % 256), Ev.high c.twi_scl] ++ r.last
                          ++ [Ev.delay ((c.twi_dcount + 1) % 256)])).flatten
              ++ rest
          ∧ (∀ i < len, out i = (recs.map fun r => assemble r.bits).getD i 0)
          ∧ (∀ j, len ≤ j → out j = buf j)
          ∧ (rest = [] ∨ ∃ polls n l, sclReads c polls
              ∧ rest = stopSeq c polls
                  ++ ((List.replicate n (pulseSeq c)).flatten ++ [Ev.read c.twi_sda l]))) := by
  have key : ∀ (st : Nat) (out : Nat → Nat) (tr : List Ev) (w2 : σ),
      twi_readFrom hw c F_CPU fuel address buf len sendStop w = some ((st, out), tr, w2) →
        ∃ (recs : List ByteRead) (rest : List Ev), recs.length = len ∧ (∀ r ∈ recs, r.ok c)
          ∧ tr = t0 ++ t1
              ++ (recs.map fun r =>
                    (List.zipWith (readBitSeq c) r.polls r.bits).flatten
                      ++ ([Ev.low c.twi_scl, Ev.low c.twi_sda,
                            Ev.delay ((c.twi_dcount + 1) % 256), Ev.high c.twi_scl] ++ r.last
                          ++ [Ev.delay ((c.twi_dcount + 1) % 256)])).flatten
              ++ rest
          ∧ (∀ i < len, out i = (recs.map fun r => assemble r.bits).getD i 0)
          ∧ (∀ j, len ≤ j → out j = buf j)
          ∧ (rest = [] ∨ ∃ polls n l, sclReads c polls
              ∧ rest = stopSeq c polls
                  ++ ((List.replicate n (pulseSeq c)).flatten ++ [Ev.read c.twi_sda l])) := by
    intro st out tr w2 hrun
    rw [twi_readFrom_past_address hw c F_CPU fuel address len sendStop buf w w0 w1 t0 t1
      hstart haddr, Nat.mod_eq_of_lt hlen] at hrun
    simp only [Option.map_eq_some'] at hrun
    obtain ⟨⟨⟨st1, out1⟩, tD, w3⟩, hD, heq⟩ := hrun
    simp only [Prod.mk.injEq] at heq
    obtain ⟨⟨rfl, rfl⟩, rfl, rfl⟩ := heq
    obtain ⟨_, recs, hrl, hok, rfl, hshape⟩ :=
      twi_readFrom_data_some hw c F_CPU fuel len _ buf _ w1 _ _ tD hD
    have hseq : readBytesSeq c false recs
        = (recs.map fun r =>
            (List.zipWith (readBitSeq c) r.polls r.bits).flatten
              ++ ([Ev.low c.twi_scl, Ev.low c.twi_sda, Ev.delay ((c.twi_dcount + 1) % 256),
                    Ev.high c.twi_scl] ++ r.last
                  ++ [Ev.delay ((c.twi_dcount + 1) % 256)])).flatten := rfl
    have hout1 : ∀ i < len,
        storeBytes buf 0 (recs.map fun r => assemble r.bits) i
          = (recs.map fun r => assemble r.bits).getD i 0 := by
      intro i hi
      rw [storeBytes_apply]
      simp [hrl, hi]
    have hout2 : ∀ j, len ≤ j →
        storeBytes buf 0 (recs.map fun r => assemble r.bits) j = buf j := by
      intro j hj
      rw [storeBytes_apply]
      have : ¬ (0 ≤ j ∧ j < 0 + (recs.map fun r => assemble r.bits).length) := by
        simp [hrl]; omega
      rw [if_neg this]
    rcases hshape with ⟨_, rfl⟩ | ⟨_, polls, n, l, hp, _, _, rfl⟩
    · exact ⟨recs, [], hrl, hok, by rw [hseq]; simp, hout1, hout2, Or.inl rfl⟩
    · exact ⟨recs, _, hrl, hok, by rw [hseq]; simp only [List.append_assoc], hout1, hout2,
        Or.inr ⟨polls, n, l, hp, rfl⟩⟩
  have total : Returns (clockStretch hw c F_CPU fuel 0) → 11 ≤ fuel →
      ∃ (out : Nat → Nat) (tr : List Ev) (w2 : σ),
        twi_readFrom hw c F_CPU fuel address buf len sendStop w = some ((0, out), tr, w2) := by
    intro hex hfuel
    obtain ⟨⟨st, out⟩, tr, w2, h⟩ :=
      Returns.twi_readFrom hw c F_CPU fuel hex hfuel address len sendStop buf w
    have hst := (twi_readFrom_address_phase hw c F_CPU fuel address len sendStop buf w w0 w1
      t0 t1 true hstart haddr).2 rfl st out tr w2 h
    subst hst
    exact ⟨out, tr, w2, h⟩
  refine ⟨twi_readFrom_loop_eq hw c F_CPU fuel len 0 buf, key, total, ?_⟩
  intro hF hfuel
  have hex : Returns (clockStretch hw c F_CPU fuel 0) := by
    rw [hF]
    exact Returns.clockStretch_80 hw c fuel hfuel
  obtain ⟨out, tr, w2, h⟩ := total hex (by omega)
  obtain ⟨recs, rest, h1, h2, h3, h4, h5, h6⟩ := key 0 out tr w2 h
  exact ⟨out, tr, w2, recs, rest, h, h1, h2, h3, h4, h5, h6⟩

/-- C17 at a concrete input: a read of two bytes, with stop, from address 0x51 on the
simulated bus, where only 0x50 is taken, in the 80 MHz build with a budget of 201.
The address byte 0xA3 reads SDA high in its ninth cycle, so the call goes on: it
reads 0xFF twice, pulls SDA low after each byte, stores them in `buf[0]` and
`buf[1]`, leaves `buf[2]` alone and returns 0; the theorem gives a returning run of
that shape. -/
theorem readFrom_always_acks_witness :
    (2 < 4294967296)
    ∧ twi_write_start hw0 cfg0 (simIdle 0x50 16 [])
        = some (true, startTrace cfg0, simStarted 0x50 16 [])
    ∧ twi_write_byte hw0 cfg0 80000000 201 ((((0x51 % 256) <<< 1) ||| 1) &&& 0xFF)
          (simStarted 0x50 16 [])
        = some (true, writeByteTrace cfg0 0xA3 true, simUnanswered 0xA3)
    ∧ twi_readFrom hw0 cfg0 80000000 201 0x51 (bufOf [0xEE, 0xEE, 0xEE]) 2 1
          (simIdle 0x50 16 [])
        = some ((0, storeBytes (bufOf [0xEE, 0xEE, 0xEE]) 0 [0xFF, 0xFF]),
            startTrace cfg0 ++ writeByteTrace cfg0 0xA3 true
              ++ readBytesSeq cfg0 false [onesRead, onesRead]
              ++ stopSeq cfg0 [Ev.read 5 true] ++ [Ev.read 4 true],
            simUnanswered 0xA3)
    ∧ (List.range 3).map (storeBytes (bufOf [0xEE, 0xEE, 0xEE]) 0 [0xFF, 0xFF])
        = [0xFF, 0xFF, 0xEE]
    ∧ ∃ (out : Nat → Nat) (tr : List Ev) (w2 : Sim) (recs : List ByteRead) (rest : List Ev),
        twi_readFrom hw0 cfg0 80000000 201 0x51 (bufOf [0xEE, 0xEE, 0xEE]) 2 1
            (simIdle 0x50 16 [])
          = some ((0, out), tr, w2)
        ∧ recs.length = 2
        ∧ (∀ i < 2, out i = (recs.map fun r => assemble r.bits).getD i 0)
        ∧ (∀ j, 2 ≤ j → out j = bufOf [0xEE, 0xEE, 0xEE] j)
        ∧ (rest = [] ∨ ∃ polls n l, sclReads cfg0 polls
            ∧ rest = stopSeq cfg0 polls
                ++ ((List.replicate n (pulseSeq cfg0)).flatten
                  ++ [Ev.read cfg0.twi_sda l])) := by
  refine ⟨by decide, by decide, by decide, rfl, by decide, ?_⟩
  obtain ⟨out, tr, w2, recs, rest, h, h1, _, _, h4, h5, h6⟩ :=
    (readFrom_always_acks hw0 cfg0 80000000 201 0x51 2 1 (bufOf [0xEE, 0xEE, 0xEE])
      (simIdle 0x50 16 []) (simStarted 0x50 16 []) (simUnanswered 0xA3)
      (startTrace cfg0) (writeByteTrace cfg0 0xA3 true)
      (by decide) (by decide) (by decide)).2.2.2 rfl (by decide)
  exact ⟨out, tr, w2, recs, rest, h, h1, h4, h5, h6⟩

/-- C18: the recovery loop of `twi_readFrom` returns within a budget of 11
iterations whatever SDA does: it makes `n ≤ 10` SCL pulses (pull SCL low, delay,
release SCL, delay), one after each low read of SDA, and ends with the first high
read of SDA, or with the eleventh read when the ten before were low; so it pulls
SCL low `n ≤ 10` times and reads SDA `n + 1 ≤ 11` times. When SDA reads high right
away it makes no pulse. With SDA stuck low on the simulated bus it makes exactly
10 pulses and 11 reads. In a `twi_readFrom` that passed its address phase and
returns, a set `sendStop` puts the stop sequence and then this loop at the end of
the trace, and a clear `sendStop` ends the trace with the last data byte. With
`sendStop` clear every trace of `twi_readFrom` is the start attempt followed by bit
cycles only: no stop sequence and no pulse. -/
theorem recovery_loop_bounded :
    (∀ (σ : Type) (hw : Gpio σ) (c : Twi) (fuel : Nat) (w : σ), 11 ≤ fuel →
        ∃ n l w1, twi_readFrom.recover hw c fuel 0 w
            = some ((), (List.replicate n (pulseSeq c)).flatten ++ [Ev.read c.twi_sda l], w1)
          ∧ n ≤ 10 ∧ (l = false → n = 10)
          ∧ ((List.replicate n (pulseSeq c)).flatten ++ [Ev.read c.twi_sda l]).count
              (Ev.low c.twi_scl) = n
          ∧ (((List.replicate n (pulseSeq c)).flatten ++ [Ev.read c.twi_sda l]).filter
              fun e => e == Ev.read c.twi_sda false || e == Ev.read c.twi_sda true).length
              = n + 1)
    ∧ (∀ (σ : Type) (hw : Gpio σ) (c : Twi) (fuel : Nat) (w : σ), 1 ≤ fuel →
        hw.level w c.twi_sda = true →
        twi_readFrom.recover hw c fuel 0 w
          = some ((), [Ev.read c.twi_sda true], hw.tick w))
    ∧ twi_readFrom.recover hw0 cfg0 11 0 simBusy
        = some ((), (List.replicate 10 (pulseSeq cfg0)).flatten ++ [Ev.read 4 false], simBusy)
    ∧ (∀ (σ : Type) (hw : Gpio σ) (c : Twi) (F_CPU fuel address len sendStop : Nat)
        (buf out : Nat → Nat) (w w0 w1 w2 : σ) (t0 t1 tr : List Ev) (st : Nat),
        twi_write_start hw c w = some (true, t0, w0) →
        twi_write_byte hw c F_CPU fuel ((((address % 256) <<< 1) ||| 1) &&& 0xFF) w0
          = some (true, t1, w1) →
        twi_readFrom hw c F_CPU fuel address buf len sendStop w = some ((st, out), tr, w2) →
        ∃ recs : List ByteRead, (∀ r ∈ recs, r.ok c)
          ∧ (sendStop % 256 = 0 → tr = t0 ++ t1 ++ readBytesSeq c false recs)
          ∧ (sendStop % 256 ≠ 0 → ∃ polls n l, sclReads c polls ∧ n ≤ 10 ∧ (l = false → n = 10)
              ∧ tr = t0 ++ t1 ++ readBytesSeq c false recs ++ stopSeq c polls
                  ++ ((List.replicate n (pulseSeq c)).flatten ++ [Ev.read c.twi_sda l])))
    ∧ (∀ (σ : Type) (hw : Gpio σ) (c : Twi) (F_CPU fuel address len sendStop : Nat)
        (buf out : Nat → Nat) (w w2 : σ) (tr : List Ev) (st : Nat),
        sendStop % 256 = 0 →
        twi_readFrom hw c F_CPU fuel address buf len sendStop w = some ((st, out), tr, w2) →
        tr = busyTrace c ∨ ∃ cycles, BitCycles c cycles ∧ tr = startTrace c ++ cycles) := by
  refine ⟨?_, ?_, by decide, ?_, ?_⟩
  · intro σ hw c fuel w hfuel
    obtain ⟨n, l, w1, h, hn, hl⟩ := recover_spec hw c 10 0 fuel w (by omega) rfl (by omega)
    exact ⟨n, l, w1, h, by omega, fun h => by have := hl h; omega,
      (recovery_counts c n l).1, (recovery_counts c n l).2⟩
  · intro σ hw c fuel w hfuel hhigh
    obtain ⟨f, rfl⟩ : ∃ f, fuel = f + 1 := ⟨fuel - 1, by omega⟩
    rw [recover_succ]
    simp [hhigh]
  · intro σ hw c F_CPU fuel address len sendStop buf out w w0 w1 w2 t0 t1 tr st hstart haddr
      hrun
    rw [twi_readFrom_past_address hw c F_CPU fuel address len sendStop buf w w0 w1 t0 t1
      hstart haddr] at hrun
    simp only [Option.map_eq_some'] at hrun
    obtain ⟨⟨⟨st1, out1⟩, tD, w3⟩, hD, heq⟩ := hrun
    simp only [Prod.mk.injEq] at heq
    obtain ⟨⟨rfl, rfl⟩, rfl, rfl⟩ := heq
    obtain ⟨_, recs, _, hok, _, hshape⟩ :=
      twi_readFrom_data_some hw c F_CPU fuel _ _ buf _ w1 _ _ tD hD
    refine ⟨recs, hok, ?_, ?_⟩
    · intro h0
      rcases hshape with ⟨_, rfl⟩ | ⟨h1, _⟩
      · simp
      · exact absurd h0 h1
    · intro h1
      rcases hshape with ⟨h0, _⟩ | ⟨_, polls, n, l, hp, hn, hl, rfl⟩
      · exact absurd h0 h1
      · exact ⟨polls, n, l, hp, hn, hl, by simp only [List.append_assoc]⟩
  · intro σ hw c F_CPU fuel address len sendStop buf out w w2 tr st h0 hrun
    rcases twi_readFrom_some hw c F_CPU fuel address len sendStop buf out w w2 st tr hrun with
      ⟨_, _, rfl⟩ | ⟨_, _, ps, p9, _, h2, h3, rfl⟩
        | ⟨_, _, ps, p9, recs, _, h2, h3, _, hok, _, rfl⟩ | ⟨_, h1, _⟩
    · exact Or.inl rfl
    · exact Or.inr ⟨_, bitCycles_writeByteSeq c
        ((((address % 256) <<< 1) ||| 1) &&& 0xFF) ps p9 false h2 h3, rfl⟩
    · refine Or.inr ⟨_, BitCycles.append (bitCycles_writeByteSeq c
        ((((address % 256) <<< 1) ||| 1) &&& 0xFF) ps p9 true h2 h3)
        (bitCycles_readBytesSeq c false recs hok), ?_⟩
      simp only [List.append_assoc]
    · exact absurd h0 h1

/-- C19: whenever `twi_writeTo` or `twi_readFrom` returns a status other than 0, its
trace is the start attempt that found the bus busy, or the start sequence followed
by bit cycles only: it holds no stop sequence. Whenever `twi_writeTo` returns 0
with `sendStop` set, its trace is the start sequence, bit cycles, and one stop
sequence at the end. Read electrically, with SDA and SCL on different pins and the
master not pulling SDA low when the call starts, the trace of a call that returns
a status other than 0 holds no stop condition (no release of SDA, pulled low
before, while SCL is released), and that of a `twi_writeTo` that returns 0 with
`sendStop` set holds exactly one, none of it before the stop sequence. -/
theorem no_stop_on_error {σ : Type} (hw : Gpio σ) (c : Twi) (F_CPU fuel : Nat)
    (hne : c.twi_sda ≠ c.twi_scl) :
    (∀ (address len sendStop : Nat) (buf : Nat → Nat) (w w2 : σ) (st : Nat) (tr : List Ev)
        (p : Pins), twi_writeTo hw c F_CPU fuel address buf len sendStop w = some (st, tr, w2) →
        st ≠ 0 →
        (tr = busyTrace c ∨ ∃ cycles, BitCycles c cycles ∧ tr = startTrace c ++ cycles)
        ∧ (p.sdaLow = false → stopCount c p tr = 0))
    ∧ (∀ (address len sendStop : Nat) (buf out : Nat → Nat) (w w2 : σ) (st : Nat)
        (tr : List Ev) (p : Pins),
        twi_readFrom hw c F_CPU fuel address buf len sendStop w = some ((st, out), tr, w2) →
        st ≠ 0 →
        (tr = busyTrace c ∨ ∃ cycles, BitCycles c cycles ∧ tr = startTrace c ++ cycles)
        ∧ (p.sdaLow = false → stopCount c p tr = 0))
    ∧ (∀ (address len sendStop : Nat) (buf : Nat → Nat) (w w2 : σ) (tr : List Ev) (p : Pins),
        twi_writeTo hw c F_CPU fuel address buf len sendStop w = some (0, tr, w2) →
        sendStop % 256 ≠ 0 →
        (∃ cycles polls, BitCycles c cycles ∧ sclReads c polls
          ∧ tr = startTrace c ++ cycles ++ stopSeq c polls
          ∧ (p.sdaLow = false → stopCount c p (startTrace c ++ cycles) = 0))
        ∧ (p.sdaLow = false → stopCount c p tr = 1)) := by
  have hstart0 : ∀ p : Pins, p.sdaLow = false → stopCount c p (startTrace c) = 0 := by
    intro p hp
    rw [(scan_startTrace c hne p).2.2, hp]
    rfl
  have hbusy0 : ∀ p : Pins, p.sdaLow = false → stopCount c p (busyTrace c) = 0 := by
    intro p hp
    rw [(scan_busyTrace c hne p).2.2, hp]
    rfl
  have hcyc : ∀ (p : Pins) (cycles : List Ev), p.sdaLow = false → BitCycles c cycles →
      stopCount c p (startTrace c ++ cycles) = 0 := by
    intro p cycles hp hc
    rw [stopCount_append, hstart0 p hp, (scan_bitCycles c hne cycles hc _).2]
  refine ⟨?_, ?_, ?_⟩
  · intro address len sendStop buf w w2 st tr p h hst
    rcases twi_writeTo_some hw c F_CPU fuel address len sendStop buf w w2 st tr h with
      ⟨_, rfl⟩ | ⟨_, ps, p9, _, h2, h3, rfl⟩ | ⟨_, ps, p9, data, _, h2, h3, hd, rfl⟩
        | ⟨h0, _⟩ | ⟨h0, _⟩
    · exact ⟨Or.inl rfl, hbusy0 p⟩
    · have hc := bitCycles_writeByteSeq c ((((address % 256) <<< 1) ||| 0) &&& 0xFF) ps p9 false
        h2 h3
      exact ⟨Or.inr ⟨_, hc, rfl⟩, fun hp => hcyc p _ hp hc⟩
    · have hc := BitCycles.append
        (bitCycles_writeByteSeq c ((((address % 256) <<< 1) ||| 0) &&& 0xFF) ps p9 true h2 h3) hd
      rw [List.append_assoc]
      exact ⟨Or.inr ⟨_, hc, rfl⟩, fun hp => hcyc p _ hp hc⟩
    · exact absurd h0 hst
    · exact absurd h0 hst
  · intro address len sendStop buf out w w2 st tr p h hst
    rcases twi_readFrom_some hw c F_CPU fuel address len sendStop buf out w w2 st tr h with
      ⟨_, _, rfl⟩ | ⟨_, _, ps, p9, _, h2, h3, rfl⟩ | ⟨h0, _⟩ | ⟨h0, _⟩
    · exact ⟨Or.inl rfl, hbusy0 p⟩
    · have hc := bitCycles_writeByteSeq c ((((address % 256) <<< 1) ||| 1) &&& 0xFF) ps p9 false
        h2 h3
      exact ⟨Or.inr ⟨_, hc, rfl⟩, fun hp => hcyc p _ hp hc⟩
    · exact absurd h0 hst
    · exact absurd h0 hst
  · intro address len sendStop buf w w2 tr p h hs
    rcases twi_writeTo_some hw c F_CPU fuel address len sendStop buf w w2 0 tr h with
      ⟨h0, _⟩ | ⟨h0, _⟩ | ⟨h0, _⟩ | ⟨_, h0, _⟩
        | ⟨_, _, ps, p9, data, polls, _, h2, h3, hd, hpolls, rfl⟩
    · cases h0
    · cases h0
    · cases h0
    · exact absurd h0 hs
    · have hc := BitCycles.append
        (bitCycles_writeByteSeq c ((((address % 256) <<< 1) ||| 0) &&& 0xFF) ps p9 true h2 h3) hd
      have e : startTrace c
            ++ writeByteSeq c ((((address % 256) <<< 1) ||| 0) &&& 0xFF) ps p9 true ++ data
            ++ stopSeq c polls
          = (startTrace c
              ++ (writeByteSeq c ((((address % 256) <<< 1) ||| 0) &&& 0xFF) ps p9 true ++ data))
            ++ stopSeq c polls := by simp only [List.append_assoc]
      rw [e]
      refine ⟨⟨_, polls, hc, hpolls, rfl, fun hp => hcyc p _ hp hc⟩, fun hp => ?_⟩
      rw [stopCount_append, hcyc p _ hp hc, (scan_stopSeq c hne polls hpolls _).2.2]

/-- C19 at a concrete input: pins 4 and 5, both released. The write to 0x50 on the
simulated bus that returns 2 holds no stop condition; the write of one byte to
0x51, which returns 0 with `sendStop` set, ends with the stop sequence and holds
one. -/
theorem no_stop_on_error_witness :
    cfg0.twi_sda ≠ cfg0.twi_scl
    ∧ twi_writeTo hw0 cfg0 80000000 201 0x50 (bufOf [0x12]) 1 1 (simIdle 0x50 16 [])
        = some (2, startTrace cfg0 ++ writeByteTrace cfg0 0xA0 false, simAcked 0x50 16 [] 0xA0)
    ∧ stopCount cfg0 { sclLow := false, sdaLow := false }
        (startTrace cfg0 ++ writeByteTrace cfg0 0xA0 false) = 0
    ∧ twi_writeTo hw0 cfg0 80000000 201 0x51 (bufOf [0x12]) 1 1 (simIdle 0x50 16 [])
        = some (0, startTrace cfg0 ++ writeByteTrace cfg0 0xA2 true
            ++ writeByteTrace cfg0 0x12 true ++ stopTrace cfg0, simUnanswered 0xA2)
    ∧ stopCount cfg0 { sclLow := false, sdaLow := false }
        (startTrace cfg0 ++ writeByteTrace cfg0 0xA2 true
          ++ writeByteTrace cfg0 0x12 true ++ stopTrace cfg0) = 1 :=
  ⟨by decide, by decide,
   ((no_stop_on_error hw0 cfg0 80000000 201 (by decide)).1 0x50 1 1 (bufOf [0x12])
      (simIdle 0x50 16 []) (simAcked 0x50 16 [] 0xA0) 2
      (startTrace cfg0 ++ writeByteTrace cfg0 0xA0 false)
      { sclLow := false, sdaLow := false } (by decide) (by decide)).2 rfl,
   by decide,
   ((no_stop_on_error hw0 cfg0 80000000 201 (by decide)).2.2 0x51 1 1 (bufOf [0x12])
      (simIdle 0x50 16 []) (simUnanswered 0xA2)
      (startTrace cfg0 ++ writeByteTrace cfg0 0xA2 true
        ++ writeByteTrace cfg0 0x12 true ++ stopTrace cfg0)
      { sclLow := false, sdaLow := false } (by decide) (by decide)).2 rfl⟩

end Si2c
